import Mathlib

/-!
# FEBio: element-level operators, the reactive-plasticity material and the compact
symmetric sparse matrix

A shallow embedding of parts of the FEBio sources.  A C++ `double` is modelled by
an element of a field `R` (exact arithmetic); the concrete evaluations below are
carried out over `ℚ`.  A C array reached through a pointer (`double*`, `vec3d*`)
is a function from the index, a `for (i=0; i<n; ++i)` loop is `forLoop n`.
-/

set_option autoImplicit false
set_option maxHeartbeats 1000000

namespace FEBio

/-! ## Loops -/

/-- The loop `for (i=0; i<n; ++i) s = body(i, s)`, started in state `s`. -/
def forLoop {σ : Type} (n : Nat) (body : Nat → σ → σ) (s : σ) : σ :=
  (List.range n).foldl (fun acc i => body i acc) s

/-! ## vec3d, matrix, vector<double> -/

/-- The class `vec3d`: three doubles. -/
structure vec3d (R : Type) where
  x : R
  y : R
  z : R
deriving DecidableEq

namespace vec3d

variable {R : Type} [Field R]

/-- The `operator ^` of `vec3d`: the cross product. -/
def cross (a b : vec3d R) : vec3d R :=
  ⟨a.y * b.z - a.z * b.y, a.z * b.x - a.x * b.z, a.x * b.y - a.y * b.x⟩

/-- The `operator * (double)` of `vec3d`. -/
def scale (a : vec3d R) (g : R) : vec3d R := ⟨a.x * g, a.y * g, a.z * g⟩

/-- The `operator *` between two `vec3d`: the dot product. -/
def dot (a b : vec3d R) : R := a.x * b.x + a.y * b.y + a.z * b.z

/-- Component `b` (0, 1 or 2) of a vector. -/
def comp (a : vec3d R) (b : Fin 3) : R :=
  match b with
  | 0 => a.x
  | 1 => a.y
  | 2 => a.z

end vec3d

/-- The class `matrix`: a dense matrix of doubles addressed as `ke[r][c]`. -/
abbrev matrix (R : Type) := Nat → Nat → R

/-- The statement `ke[r][c] += v`. -/
def matrix.addTo {R : Type} [Field R] (ke : matrix R) (r c : Nat) (v : R) : matrix R :=
  fun r' c' => if r' = r ∧ c' = c then ke r' c' + v else ke r' c'

/-- The call `ke.zero()`. -/
def matrix.zero {R : Type} [Field R] (_ke : matrix R) : matrix R := fun _ _ => 0

/-- A `vector<double>` addressed as `fe[k]`. -/
abbrev dvector (R : Type) := Nat → R

/-- The statement `fe[k] += v`. -/
def dvector.addTo {R : Type} [Field R] (fe : dvector R) (k : Nat) (v : R) : dvector R :=
  fun k' => if k' = k then fe k' + v else fe k'

/-- The call `fe.zero()`. -/
def dvector.zero {R : Type} [Field R] (_fe : dvector R) : dvector R := fun _ => 0

/-! ## FESurfaceElement -/

/-- What `FEPressureSurface` reads of an `FESurfaceElement`: `Nodes()`, `GaussPoints()`,
the tables `H(n)[i]`, `Gr(n)[i]`, `Gs(n)[i]` of the element traits, `GaussWeights()[n]`,
the nodal pressures `pt()[i]`, and the nodal coordinates `rt()[i]` and `r0()[i]`. -/
structure FESurfaceElement (R : Type) where
  neln : Nat
  nint : Nat
  H : Nat → Nat → R
  Gr : Nat → Nat → R
  Gs : Nat → Nat → R
  gw : Nat → R
  pt : Nat → R
  rt : Nat → vec3d R
  r0 : Nat → vec3d R

/-- The local array `double J[3][2]`. -/
structure Jac (R : Type) where
  j00 : R
  j01 : R
  j10 : R
  j11 : R
  j20 : R
  j21 : R

namespace FEPressureSurface

variable {R : Type} [Field R]

/-- Line 45 of `PressureStiffness` (and 127, 194): the pressure at integration point `n`,
`p = 0; for (i=0; i<neln; ++i) p += N[i]*pn[i]`. -/
def gaussPressure (el : FESurfaceElement R) (n : Nat) : R :=
  forLoop el.neln (fun i p => p + el.H n i * el.pt i) 0

/-- Lines 48-56 of `PressureStiffness`: the jacobian at integration point `n`. -/
def jacobian (el : FESurfaceElement R) (n : Nat) : Jac R :=
  forLoop el.neln
    (fun i J =>
      { j00 := J.j00 + el.Gr n i * (el.rt i).x, j01 := J.j01 + el.Gs n i * (el.rt i).x,
        j10 := J.j10 + el.Gr n i * (el.rt i).y, j11 := J.j11 + el.Gs n i * (el.rt i).y,
        j20 := J.j20 + el.Gr n i * (el.rt i).z, j21 := J.j21 + el.Gs n i * (el.rt i).z })
    ⟨0, 0, 0, 0, 0, 0⟩

/-- Lines 62-67 of `PressureStiffness`: the array `kab` for the node pair `(i, j)` at
integration point `n`, given the pressure `p` and the jacobian `J` there. -/
def kab (el : FESurfaceElement R) (n : Nat) (p : R) (J : Jac R) (i j : Nat) : vec3d R :=
  let t1 := 1 / 2 * (el.Gs n i * el.H n j - el.Gs n j * el.H n i)
  let t2 := 1 / 2 * (el.Gr n i * el.H n j - el.Gr n j * el.H n i)
  ⟨p * (J.j00 * t1 - J.j01 * t2) * el.gw n,
   p * (J.j10 * t1 - J.j11 * t2) * el.gw n,
   p * (J.j20 * t1 - J.j21 * t2) * el.gw n⟩

/-- Lines 69-79 of `PressureStiffness`: the nine updates of the block of the node
pair `(i, j)`. -/
def addBlock (ke : matrix R) (i j : Nat) (k : vec3d R) : matrix R :=
  let ke := ke.addTo (3 * i) (3 * j) 0
  let ke := ke.addTo (3 * i) (3 * j + 1) k.z
  let ke := ke.addTo (3 * i) (3 * j + 2) (-k.y)
  let ke := ke.addTo (3 * i + 1) (3 * j) (-k.z)
  let ke := ke.addTo (3 * i + 1) (3 * j + 1) 0
  let ke := ke.addTo (3 * i + 1) (3 * j + 2) k.x
  let ke := ke.addTo (3 * i + 2) (3 * j) k.y
  let ke := ke.addTo (3 * i + 2) (3 * j + 1) (-k.x)
  let ke := ke.addTo (3 * i + 2) (3 * j + 2) 0
  ke

/-- `FEPressureSurface::PressureStiffness(el, ke)`: the matrix `ke` on return. -/
def PressureStiffness (el : FESurfaceElement R) (ke : matrix R) : matrix R :=
  let nint := el.nint
  let neln := el.neln
  let ke := ke.zero
  forLoop nint
    (fun n ke =>
      let p := gaussPressure el n
      let J := jacobian el n
      forLoop neln
        (fun i ke => forLoop neln (fun j ke => addBlock ke i j (kab el n p J i j)) ke)
        ke)
    ke

/-- Lines 123-136 of `PressureForce`: `pr`, `dxr` and `dxs` at integration point `n`,
from the nodal coordinates `r` (`rt` in `PressureForce`, `r0` in
`LinearPressureForce`). -/
def tangents (el : FESurfaceElement R) (r : Nat → vec3d R) (n : Nat) :
    R × vec3d R × vec3d R :=
  forLoop el.neln
    (fun i s =>
      let pr := s.1
      let dxr := s.2.1
      let dxs := s.2.2
      (pr + el.H n i * el.pt i,
       ⟨dxr.x + el.Gr n i * (r i).x, dxr.y + el.Gr n i * (r i).y,
        dxr.z + el.Gr n i * (r i).z⟩,
       ⟨dxs.x + el.Gs n i * (r i).x, dxs.y + el.Gs n i * (r i).y,
        dxs.z + el.Gs n i * (r i).z⟩))
    (0, ⟨0, 0, 0⟩, ⟨0, 0, 0⟩)

/-- `FEPressureSurface::PressureForce(el, fe)`: the return value and `fe` on return. -/
def PressureForce (el : FESurfaceElement R) (fe : dvector R) : Bool × dvector R :=
  let nint := el.nint
  let neln := el.neln
  let rt := el.rt
  let fe := fe.zero
  let fe := forLoop nint
    (fun n fe =>
      let s := tangents el rt n
      let pr := s.1
      let dxr := s.2.1
      let dxs := s.2.2
      let f := ((dxr.cross dxs).scale pr).scale (el.gw n)
      forLoop neln
        (fun i fe =>
          let fe := fe.addTo (3 * i) (el.H n i * f.x)
          let fe := fe.addTo (3 * i + 1) (el.H n i * f.y)
          let fe := fe.addTo (3 * i + 2) (el.H n i * f.z)
          fe)
        fe)
    fe
  (true, fe)

/-- `FEPressureSurface::LinearPressureForce(el, fe)`: the return value and `fe` on
return. -/
def LinearPressureForce (el : FESurfaceElement R) (fe : dvector R) : Bool × dvector R :=
  let nint := el.nint
  let neln := el.neln
  let r0 := el.r0
  let fe := fe.zero
  let fe := forLoop nint
    (fun n fe =>
      let s := tangents el r0 n
      let pr := s.1
      let dxr := s.2.1
      let dxs := s.2.2
      let f := ((dxr.cross dxs).scale pr).scale (el.gw n)
      forLoop neln
        (fun i fe =>
          let fe := fe.addTo (3 * i) (el.H n i * f.x)
          let fe := fe.addTo (3 * i + 1) (el.H n i * f.y)
          let fe := fe.addTo (3 * i + 2) (el.H n i * f.z)
          fe)
        fe)
    fe
  (true, fe)

/-- Entry `(a, b)` of the 3×3 block written by lines 69-79 for the array `kab = k`. -/
def blockEntry (k : vec3d R) (a b : Nat) : R :=
  match a, b with
  | 0, 1 => k.z
  | 0, 2 => -k.y
  | 1, 0 => -k.z
  | 1, 2 => k.x
  | 2, 0 => k.y
  | 2, 1 => -k.x
  | _, _ => 0

/-- The matrix added to `ke` by the nine updates of the node pair `(i, j)`. -/
def blockMat (i j : Nat) (k : vec3d R) : matrix R :=
  fun r c => if r / 3 = i ∧ c / 3 = j then blockEntry k (r % 3) (c % 3) else 0

end FEPressureSurface

/-- A 3-node triangle with one integration point: `H = 1/3`, `Gr = (-1, 1, 0)`,
`Gs = (-1, 0, 1)`, weight `1/2`, nodes `(0,0,0)`, `(1,0,0)`, `(0,1,0)`, pressure 1. -/
def tri3 (R : Type) [Field R] : FESurfaceElement R where
  neln := 3
  nint := 1
  H := fun _ _ => 1 / 3
  Gr := fun _ i => if i = 0 then -1 else if i = 1 then 1 else 0
  Gs := fun _ i => if i = 0 then -1 else if i = 2 then 1 else 0
  gw := fun _ => 1 / 2
  pt := fun _ => 1
  rt := fun i => if i = 1 then ⟨1, 0, 0⟩ else if i = 2 then ⟨0, 1, 0⟩ else ⟨0, 0, 0⟩
  r0 := fun i => if i = 1 then ⟨1, 0, 0⟩ else if i = 2 then ⟨0, 1, 0⟩ else ⟨0, 0, 0⟩

namespace vec3d

variable {R : Type} [Field R]

/-- The `operator +` of `vec3d`. -/
def add (a b : vec3d R) : vec3d R := ⟨a.x + b.x, a.y + b.y, a.z + b.z⟩

/-- The vector with component `b` increased by `t`. -/
def shift (a : vec3d R) (b : Fin 3) (t : R) : vec3d R :=
  match b with
  | 0 => ⟨a.x + t, a.y, a.z⟩
  | 1 => ⟨a.x, a.y + t, a.z⟩
  | 2 => ⟨a.x, a.y, a.z + t⟩

end vec3d

/-- The element `el` with component `b` of the current position of node `j` increased
by `t`. -/
def moveNode {R : Type} [Field R] (el : FESurfaceElement R) (j : Nat) (b : Fin 3) (t : R) :
    FESurfaceElement R :=
  { el with rt := fun i => if i = j then (el.rt i).shift b t else el.rt i }

/-- The vector added to `fe` by the three updates `fe[3*i+a] += v[a]` of node `i`. -/
def nodeVec {R : Type} [Field R] (i : Nat) (v : vec3d R) : dvector R :=
  fun k => if k / 3 = i then (match k % 3 with | 0 => v.x | 1 => v.y | _ => v.z) else 0

/-- Modelled from the spec: the traits tables of the 4-node quadrilateral surface element
(bilinear shape functions, 2×2 Gauss rule), which are not in the sources read here.  The
integration points are `(∓g, ∓g)` in the order `(-g,-g), (g,-g), (g,g), (-g,g)` with unit
weights (`g = 1/√3` for the Gauss rule); `H`, `Gr`, `Gs` are the bilinear shape functions
`(1 ± r)(1 ± s)/4` and their derivatives at these points.  The nodal coordinates `x` and
the nodal pressures `p` are those of the element. -/
def quad4G4 {R : Type} [Field R] (g : R) (x : Nat → vec3d R) (p : Nat → R) :
    FESurfaceElement R :=
  let gr : Nat → R := fun n => if n = 0 ∨ n = 3 then -g else g
  let gs : Nat → R := fun n => if n = 0 ∨ n = 1 then -g else g
  { neln := 4
    nint := 4
    H := fun n i =>
      match i with
      | 0 => 1 / 4 * (1 - gr n) * (1 - gs n)
      | 1 => 1 / 4 * (1 + gr n) * (1 - gs n)
      | 2 => 1 / 4 * (1 + gr n) * (1 + gs n)
      | _ => 1 / 4 * (1 - gr n) * (1 + gs n)
    Gr := fun n i =>
      match i with
      | 0 => -(1 / 4) * (1 - gs n)
      | 1 => 1 / 4 * (1 - gs n)
      | 2 => 1 / 4 * (1 + gs n)
      | _ => -(1 / 4) * (1 + gs n)
    Gs := fun n i =>
      match i with
      | 0 => -(1 / 4) * (1 - gr n)
      | 1 => -(1 / 4) * (1 + gr n)
      | 2 => 1 / 4 * (1 + gr n)
      | _ => 1 / 4 * (1 - gr n)
    gw := fun _ => 1
    pt := p
    rt := x
    r0 := x }

/-- The corners `x0`, `x0 + u`, `x0 + u + v`, `x0 + v` of the parallelogram spanned by `u`
and `v` at `x0`, in element order (a unit square when `u`, `v` are orthonormal). -/
def squareCorners {R : Type} [Field R] (x0 u v : vec3d R) (i : Nat) : vec3d R :=
  match i with
  | 0 => x0
  | 1 => x0.add u
  | 2 => (x0.add u).add v
  | _ => x0.add v

namespace vec3d

variable {R : Type} [Field R]

/-- The unit vector of direction `b`. -/
def unit (b : Fin 3) : vec3d R :=
  match b with
  | 0 => ⟨1, 0, 0⟩
  | 1 => ⟨0, 1, 0⟩
  | 2 => ⟨0, 0, 1⟩

end vec3d

namespace FEPressureSurface

variable {R : Type} [Field R]

/-- The table entry `G(n)[j]` of node `j`, and 0 for an index that is not a node of the
element. -/
def nodeCoef (el : FESurfaceElement R) (G : Nat → Nat → R) (n j : Nat) : R :=
  if j < el.neln then G n j else 0

/-- The coefficient of `t` in entry `3q+a` of the vector `PressureForce` produces when
component `b` of the current position of node `j` is increased by `t`: the derivative of
`N[q] * ((dxr ^ dxs)*pr*w[n])` summed over the integration points, where `dxr` changes at
the rate `Gr[j]` and `dxs` at the rate `Gs[j]` in direction `b`. -/
def forceDeriv (el : FESurfaceElement R) (q : Nat) (a : Fin 3) (j : Nat) (b : Fin 3) : R :=
  ∑ n in Finset.range el.nint,
    if q < el.neln then
      el.H n q *
        ((((((vec3d.unit b).scale (nodeCoef el el.Gr n j)).cross (tangents el el.rt n).2.2).add
            ((tangents el el.rt n).2.1.cross ((vec3d.unit b).scale (nodeCoef el el.Gs n j)))).scale
          (tangents el el.rt n).1).scale (el.gw n)).comp a
    else 0

end FEPressureSurface

/-! ## Reactive plasticity -/

/-- The classes `mat3d`, `mat3ds` and `mat3dd`: 3×3 matrices of doubles (a symmetric or
diagonal matrix is stored as the full matrix). -/
abbrev mat3d (R : Type) := Matrix (Fin 3) (Fin 3) R

namespace mat3d

variable {R : Type} [Field R]

/-- The method `inverse()`: the matrix of cofactors divided by the determinant. -/
def inverse (A : mat3d R) : mat3d R := (A.det)⁻¹ • A.adjugate

/-- The method `sym()`: the symmetric part. -/
def sym (A : mat3d R) : mat3d R := (1 / 2 : R) • (A + A.transpose)

end mat3d

/-- What `FEReactivePlasticity` reads and writes of the `FEElasticMaterialPoint`. -/
structure FEElasticMaterialPoint (R : Type) where
  m_F : mat3d R
  m_J : R

/-- The vectors of the `FEReactivePlasticityMaterialPoint`, one entry per yield level. -/
structure FEReactivePlasticityMaterialPoint (R : Type) where
  m_Fusi : List (mat3d R)
  m_Fvsi : List (mat3d R)
  m_Kv : List R
  m_Ku : List R
  m_gp : List R
  m_w : List R

/-- Modelled from the spec: the method `YieldedBonds()` of the plasticity material point,
which is not in the sources read here: the yielded fraction, the sum of the latched
weights `m_w[i]` over the yield levels. -/
def FEReactivePlasticityMaterialPoint.YieldedBonds {R : Type} [Field R]
    (pp : FEReactivePlasticityMaterialPoint R) : R :=
  forLoop pp.m_w.length (fun i s => s + pp.m_w.getD i 0) 0

/-- The material point `pt`: the elastic point `pe` and the plasticity point `pp` that
`ExtractData` returns. -/
structure FEMaterialPoint (R : Type) where
  pe : FEElasticMaterialPoint R
  pp : FEReactivePlasticityMaterialPoint R

namespace FEMaterialPoint

variable {R : Type}

/-- The statements `pe.m_F = F; pe.m_J = J`. -/
def setF (pt : FEMaterialPoint R) (F : mat3d R) (J : R) : FEMaterialPoint R :=
  { pt with pe := { pt.pe with m_F := F, m_J := J } }

/-- The statement `pp.m_Kv[i] = v`. -/
def setKv (pt : FEMaterialPoint R) (i : Nat) (v : R) : FEMaterialPoint R :=
  { pt with pp := { pt.pp with m_Kv := pt.pp.m_Kv.set i v } }

/-- The statement `pp.m_Fvsi[i] = A`. -/
def setFvsi (pt : FEMaterialPoint R) (i : Nat) (A : mat3d R) : FEMaterialPoint R :=
  { pt with pp := { pt.pp with m_Fvsi := pt.pp.m_Fvsi.set i A } }

/-- The statement `pp.m_w[i] = v`. -/
def setw (pt : FEMaterialPoint R) (i : Nat) (v : R) : FEMaterialPoint R :=
  { pt with pp := { pt.pp with m_w := pt.pp.m_w.set i v } }

/-- The statement `pp.m_gp[i] = v`. -/
def setgp (pt : FEMaterialPoint R) (i : Nat) (v : R) : FEMaterialPoint R :=
  { pt with pp := { pt.pp with m_gp := pt.pp.m_gp.set i v } }

end FEMaterialPoint

/-- The base elastic material `m_pBase`: its `Stress`, `Tangent` and
`StrainEnergyDensity`, functions of the material point that change no state, and whether
the object is an `FEUncoupledMaterial` (what the `dynamic_cast` of `Init` tests).  `T` is
the class `tens4ds`. -/
structure FEElasticMaterial (R T : Type) where
  Stress : FEMaterialPoint R → mat3d R
  Tangent : FEMaterialPoint R → T
  StrainEnergyDensity : FEMaterialPoint R → R
  isUncoupled : Bool

/-- The criterion `m_pCrit`: its `DamageCriterion` and `CriterionStressTangent`, functions
of the material point that change no state. -/
structure FEDamageCriterion (R : Type) where
  DamageCriterion : FEMaterialPoint R → R
  CriterionStressTangent : FEMaterialPoint R → mat3d R

/-- The routines declared outside the sources read here: `sqrt` and `pow` of the C
library, `mat3ds::norm`, `mat3ds::eigen2`, `tens4ds::dot` and
`FEElasticMaterialPoint::RightStretchInverse`. -/
structure TensorLib (R T : Type) where
  sqrt : R → R
  pow : R → R → R
  norm : mat3d R → R
  eigen2 : mat3d R → R × R × R
  dot : T → mat3d R → mat3d R
  RightStretchInverse : FEElasticMaterialPoint R → mat3d R

/-- The class `FEReactivePlasticity`: its properties, its yield schedule `Ky`, `w` and its
parameters (`m_n` and `m_itmax` are validated to be `≥ 0`). -/
structure FEReactivePlasticity (R T : Type) where
  m_pBase : FEElasticMaterial R T
  m_pCrit : FEDamageCriterion R
  lib : TensorLib R T
  Ky : List R
  w : List R
  m_wmin : R
  m_Ymin : R
  m_Ymax : R
  m_n : Nat
  m_isochrc : Bool
  m_itmax : Nat
  m_blog : Bool

/-- The variables of the loop `while (!conv)` of `ElasticDeformationGradient`; `pt` carries
`pe.m_F`, `pe.m_J` and `pp.m_Kv[i]`. -/
structure NewtonState (R : Type) where
  pt : FEMaterialPoint R
  conv : Bool
  iter : Nat
  lam : R
  Fv : mat3d R
  beta : R
  ImN : mat3d R
  phi : R

namespace FEReactivePlasticity

variable {R T : Type} [LinearOrderedField R]

/-- `FEReactivePlasticity::YieldSurfaceNormal(pe)`. -/
def YieldSurfaceNormal (mat : FEReactivePlasticity R T) (pt : FEMaterialPoint R) : mat3d R :=
  let s := mat.m_pBase.Stress pt
  let c := mat.m_pBase.Tangent pt
  let dPhi := mat.m_pCrit.CriterionStressTangent pt
  let M := (2 : R) • (dPhi * s) - (dPhi * s).trace • (1 : mat3d R) + mat.lib.dot c dPhi
  let Ui := mat.lib.RightStretchInverse pt.pe
  let Rm := pt.pe.m_F * Ui
  let N := mat3d.sym (Rm.transpose * M * Rm * Ui)
  N

/-- `FEReactivePlasticity::OctahedralPlasticStrain(pt)`. -/
def OctahedralPlasticStrain (mat : FEReactivePlasticity R T) (pt : FEMaterialPoint R) :
    FEMaterialPoint R :=
  forLoop mat.m_n
    (fun i pt =>
      let Cvsi := mat3d.sym ((pt.pp.m_Fvsi.getD i 0).transpose * pt.pp.m_Fvsi.getD i 0)
      let ev := mat.lib.eigen2 Cvsi
      let ev0 := 1 / mat.lib.sqrt ev.1
      let ev1 := 1 / mat.lib.sqrt ev.2.1
      let ev2 := 1 / mat.lib.sqrt ev.2.2
      pt.setgp i (mat.lib.sqrt 2 / 3 *
        mat.lib.sqrt (mat.lib.pow (ev0 - ev1) 2 + mat.lib.pow (ev1 - ev2) 2
          + mat.lib.pow (ev2 - ev0) 2)))
    pt

/-- Lines 159-174 of `ElasticDeformationGradient`: one execution of the body of the loop
`while (!conv)` after the test `++iter > m_itmax`, for level `i` with trial gradient
`Fe`. -/
def newtonStep (mat : FEReactivePlasticity R T) (eps : R) (i : Nat) (Fe : mat3d R)
    (s : NewtonState R) : NewtonState R :=
  let pt := s.pt.setF s.Fv s.Fv.det
  let Nv := mat.YieldSurfaceNormal pt
  let Nvmag := mat.lib.norm Nv
  let pt := pt.setKv i (mat.m_pCrit.DamageCriterion pt)
  let phi := pt.pp.m_Kv.getD i 0 - mat.Ky.getD i 0
  let Rv := s.Fv * mat.lib.RightStretchInverse pt.pe
  let dFvdlam := (s.beta / Nvmag) • (-Fe * Nv)
  let dFvdlam :=
    if mat.m_isochrc then
      dFvdlam + ((Nvmag⁻¹ • (mat3d.inverse s.ImN * Nv)).trace * s.beta / 3) • (Fe * s.ImN)
    else dFvdlam
  let dlam := -phi / (Rv * Nv * dFvdlam.transpose).trace
  let lam := s.lam + dlam
  let ImN := (1 : mat3d R) - (lam / Nvmag) • Nv
  let beta :=
    if mat.m_isochrc then mat.lib.pow (pt.pp.m_Fusi.getD i 0 * ImN).det (-1 / 3) else s.beta
  let Fv := beta • (Fe * ImN)
  let conv := s.conv
  let conv := if |dlam| ≤ eps * |lam| then true else conv
  let conv := if |phi| ≤ eps * eps * mat.Ky.getD i 0 then true else conv
  { pt := pt, conv := conv, iter := s.iter, lam := lam, Fv := Fv, beta := beta, ImN := ImN,
    phi := phi }

/-- Lines 157-175: the loop `while (!conv) { if (++iter > m_itmax) break; ... }`.  The first
argument bounds the number of tests of the loop condition; `m_itmax + 1` of them are
enough when the loop is entered with `iter = 0`. -/
def newtonLoop (mat : FEReactivePlasticity R T) (eps : R) (i : Nat) (Fe : mat3d R) :
    Nat → NewtonState R → NewtonState R
  | 0, s => s
  | fuel + 1, s =>
    if s.conv then s
    else
      let s := { s with iter := s.iter + 1 }
      if s.iter > mat.m_itmax then s
      else newtonLoop mat eps i Fe fuel (newtonStep mat eps i Fe s)

/-- Lines 122-186: the body of the loop over the yield levels, for level `i`.  The call of
`feLogWarning` changes no state of the material point and is left out. -/
def levelUpdate (mat : FEReactivePlasticity R T) (eps : R) (i : Nat) (pt : FEMaterialPoint R) :
    FEMaterialPoint R :=
  let Fs := pt.pe.m_F
  let Fe := Fs * pt.pp.m_Fusi.getD i 0
  let Ftmp := pt.pe.m_F
  let Jtmp := pt.pe.m_J
  let pt := pt.setF Fe Fe.det
  let pt := pt.setKv i (mat.m_pCrit.DamageCriterion pt)
  let pt := pt.setF Ftmp Jtmp
  let phi := pt.pp.m_Kv.getD i 0 - mat.Ky.getD i 0
  if phi ≤ eps * mat.Ky.getD i 0 then
    pt.setFvsi i (pt.pp.m_Fusi.getD i 0)
  else
    let pt :=
      if pt.pp.m_Kv.getD i 0 > pt.pp.m_Ku.getD i 0 ∧
          pt.pp.m_Ku.getD i 0 < mat.Ky.getD i 0 * (1 + eps) then
        pt.setw i (mat.w.getD i 0)
      else pt
    let Fv := Fe
    let Ftmp := pt.pe.m_F
    let Jtmp := pt.pe.m_J
    let pt := pt.setF Fv Fv.det
    let s := newtonLoop mat eps i Fe (mat.m_itmax + 1)
      { pt := pt, conv := false, iter := 0, lam := 0, Fv := Fv, beta := 1, ImN := 1,
        phi := phi }
    let pt := s.pt.setF s.Fv s.Fv.det
    let pt := pt.setKv i (mat.m_pCrit.DamageCriterion pt)
    let pt := pt.setF Ftmp Jtmp
    if s.iter > mat.m_itmax then
      pt.setFvsi i (pt.pp.m_Fusi.getD i 0)
    else
      let pt := pt.setFvsi i (mat3d.inverse Fs * s.Fv)
      pt.setKv i (mat.Ky.getD i 0)

/-- `FEReactivePlasticity::ElasticDeformationGradient(pt)`: the material point on return. -/
def ElasticDeformationGradient (mat : FEReactivePlasticity R T) (pt : FEMaterialPoint R) :
    FEMaterialPoint R :=
  let eps : R := 1 / 10000
  let pt := forLoop mat.m_n (fun i pt => mat.levelUpdate eps i pt) pt
  mat.OctahedralPlasticStrain pt

variable [AddCommMonoid T] [Module R T]

/-- `FEReactivePlasticity::Stress(pt)`: the stress returned and the material point on
return. -/
def Stress (mat : FEReactivePlasticity R T) (pt : FEMaterialPoint R) :
    mat3d R × FEMaterialPoint R :=
  let pt := mat.ElasticDeformationGradient pt
  let s := (1 - pt.pp.YieldedBonds) • mat.m_pBase.Stress pt
  forLoop mat.m_n
    (fun i (st : mat3d R × FEMaterialPoint R) =>
      let s := st.1
      let pt := st.2
      let Fv := pt.pe.m_F * pt.pp.m_Fvsi.getD i 0
      let Fs := pt.pe.m_F
      let Js := pt.pe.m_J
      let pt := pt.setF Fv Fv.det
      let s := s + pt.pp.m_w.getD i 0 • mat.m_pBase.Stress pt
      let pt := pt.setF Fs Js
      (s, pt))
    (s, pt)

/-- `FEReactivePlasticity::Tangent(pt)`: the tangent returned and the material point on
return. -/
def Tangent (mat : FEReactivePlasticity R T) (pt : FEMaterialPoint R) :
    T × FEMaterialPoint R :=
  let pt := mat.ElasticDeformationGradient pt
  let c := (1 - pt.pp.YieldedBonds) • mat.m_pBase.Tangent pt
  forLoop mat.m_n
    (fun i (st : T × FEMaterialPoint R) =>
      let c := st.1
      let pt := st.2
      let Fv := pt.pe.m_F * pt.pp.m_Fvsi.getD i 0
      let Fs := pt.pe.m_F
      let Js := pt.pe.m_J
      let pt := pt.setF Fv Fv.det
      let c := c + pt.pp.m_w.getD i 0 • mat.m_pBase.Tangent pt
      let pt := pt.setF Fs Js
      (c, pt))
    (c, pt)

/-- `FEReactivePlasticity::StrainEnergyDensity(pt)`: the energy density returned and the
material point on return. -/
def StrainEnergyDensity (mat : FEReactivePlasticity R T) (pt : FEMaterialPoint R) :
    R × FEMaterialPoint R :=
  let pt := mat.ElasticDeformationGradient pt
  let sed := mat.m_pBase.StrainEnergyDensity pt * (1 - pt.pp.YieldedBonds)
  forLoop mat.m_n
    (fun i (st : R × FEMaterialPoint R) =>
      let sed := st.1
      let pt := st.2
      let Fv := pt.pe.m_F * pt.pp.m_Fvsi.getD i 0
      let Fs := pt.pe.m_F
      let Js := pt.pe.m_J
      let pt := pt.setF Fv Fv.det
      let sed := sed + mat.m_pBase.StrainEnergyDensity pt * pt.pp.m_w.getD i 0
      let pt := pt.setF Fs Js
      (sed, pt))
    (sed, pt)

end FEReactivePlasticity

namespace FEReactivePlasticity

variable {R T : Type} [LinearOrderedField R]

/-- Lines 122-131: the yield measure of level `i` at the trial state, the value first
stored in `pp.m_Kv[i]` when the level is entered at `pt`. -/
def trialKv (mat : FEReactivePlasticity R T) (i : Nat) (pt : FEMaterialPoint R) : R :=
  let Fs := pt.pe.m_F
  let Fe := Fs * pt.pp.m_Fusi.getD i 0
  let pt := pt.setF Fe Fe.det
  mat.m_pCrit.DamageCriterion pt

/-- Lines 122-134: the material point after the yield measure of level `i` has been
evaluated at the trial state and the total deformation gradient restored. -/
def trialPoint (mat : FEReactivePlasticity R T) (i : Nat) (pt : FEMaterialPoint R) :
    FEMaterialPoint R :=
  let Fs := pt.pe.m_F
  let Fe := Fs * pt.pp.m_Fusi.getD i 0
  let Ftmp := pt.pe.m_F
  let Jtmp := pt.pe.m_J
  let pt := pt.setF Fe Fe.det
  let pt := pt.setKv i (mat.m_pCrit.DamageCriterion pt)
  pt.setF Ftmp Jtmp

/-- Lines 143-144: the material point of a yielding level `i` after the weight has been
latched on a yield transition. -/
def latchPoint (mat : FEReactivePlasticity R T) (eps : R) (i : Nat) (pt : FEMaterialPoint R) :
    FEMaterialPoint R :=
  let pt := mat.trialPoint i pt
  if pt.pp.m_Kv.getD i 0 > pt.pp.m_Ku.getD i 0 ∧
      pt.pp.m_Ku.getD i 0 < mat.Ky.getD i 0 * (1 + eps) then
    pt.setw i (mat.w.getD i 0)
  else pt

/-- Lines 146-175: the variables with which a yielding level `i`, entered at `pt`, leaves
the loop `while (!conv)`. -/
def levelNewton (mat : FEReactivePlasticity R T) (eps : R) (i : Nat) (pt : FEMaterialPoint R) :
    NewtonState R :=
  let Fe := pt.pe.m_F * pt.pp.m_Fusi.getD i 0
  let phi := (mat.trialPoint i pt).pp.m_Kv.getD i 0 - mat.Ky.getD i 0
  let Fv := Fe
  let pt := (mat.latchPoint eps i pt).setF Fv Fv.det
  newtonLoop mat eps i Fe (mat.m_itmax + 1)
    { pt := pt, conv := false, iter := 0, lam := 0, Fv := Fv, beta := 1, ImN := 1,
      phi := phi }

/-- Lines 176-178: the material point of a yielding level `i` after the loop, with the
yield measure evaluated at the last `Fv` and the total deformation gradient restored. -/
def exitPoint (mat : FEReactivePlasticity R T) (eps : R) (i : Nat) (pt : FEMaterialPoint R) :
    FEMaterialPoint R :=
  let s := mat.levelNewton eps i pt
  let Ftmp := (mat.latchPoint eps i pt).pe.m_F
  let Jtmp := (mat.latchPoint eps i pt).pe.m_J
  let pt := s.pt.setF s.Fv s.Fv.det
  let pt := pt.setKv i (mat.m_pCrit.DamageCriterion pt)
  pt.setF Ftmp Jtmp

/-- The loop `for (i=lo; i<hi; ++i) s = body(i, s)`. -/
def forRange {σ : Type} (lo hi : Nat) (body : Nat → σ → σ) (s : σ) : σ :=
  (List.range' lo (hi - lo)).foldl (fun acc i => body i acc) s

/-- The plasticity point `q` differs from `p` at most in the entries of level `i` of
`m_Kv`, `m_Fvsi` and `m_w`. -/
def LevelFrame (i : Nat) (p q : FEReactivePlasticityMaterialPoint R) : Prop :=
  q.m_Fusi = p.m_Fusi ∧ q.m_Ku = p.m_Ku ∧ q.m_gp = p.m_gp ∧
  q.m_Kv.length = p.m_Kv.length ∧ q.m_Fvsi.length = p.m_Fvsi.length ∧
  q.m_w.length = p.m_w.length ∧
  ∀ j, j ≠ i → q.m_Kv.getD j 0 = p.m_Kv.getD j 0 ∧ q.m_Fvsi.getD j 0 = p.m_Fvsi.getD j 0 ∧
    q.m_w.getD j 0 = p.m_w.getD j 0

/-- The material point on entry to the body of the level loop for level `i`: the levels
before `i` have been processed. -/
def levelEntry (mat : FEReactivePlasticity R T) (i : Nat) (pt : FEMaterialPoint R) :
    FEMaterialPoint R :=
  forLoop i (fun i pt => mat.levelUpdate (1 / 10000) i pt) pt

end FEReactivePlasticity

/-- The library routines over `ℚ` used to run the examples: `pow(x, 2)` is exact, `sqrt` is
exact at 0 and 1, `eigen2` is exact on diagonal matrices; `norm`, `dot` and
`RightStretchInverse` are only called inside the loop `while (!conv)`. -/
def libQ : TensorLib ℚ ℚ where
  sqrt := fun x => if x = 0 then 0 else 1
  pow := fun x y => if y = 2 then x * x else 1
  norm := fun _ => 1
  eigen2 := fun A => (A 0 0, A 1 1, A 2 2)
  dot := fun c A => c • A
  RightStretchInverse := fun _ => 1

/-- A material with one yield level `Ky[0] = Ymin = 1`, `w[0] = wmin = 1`, the criterion
`2 * J` and `maxiter = 0`. -/
def matQ : FEReactivePlasticity ℚ ℚ where
  m_pBase :=
    { Stress := fun pt => pt.pe.m_F
      Tangent := fun pt => pt.pe.m_J
      StrainEnergyDensity := fun pt => pt.pe.m_J
      isUncoupled := false }
  m_pCrit :=
    { DamageCriterion := fun pt => 2 * pt.pe.m_J
      CriterionStressTangent := fun _ => 1 }
  lib := libQ
  Ky := [1]
  w := [1]
  m_wmin := 1
  m_Ymin := 1
  m_Ymax := 1
  m_n := 1
  m_isochrc := true
  m_itmax := 0
  m_blog := true

/-- An undeformed material point (`F = 1`, `J = 1`) without plastic flow, for one yield
level. -/
def ptQ : FEMaterialPoint ℚ where
  pe := { m_F := 1, m_J := 1 }
  pp := { m_Fusi := [1], m_Fvsi := [1], m_Kv := [0], m_Ku := [0], m_gp := [0], m_w := [0] }

/-! ## Reactive plasticity: `Init` -/

namespace FEReactivePlasticity

variable {R T : Type} [LinearOrderedField R]

/-- The call `v.resize(n)` of a `vector<double>`: the first `n` entries are kept and the
new entries are 0. -/
def resize (v : List R) (n : Nat) : List R := v.take n ++ List.replicate (n - v.length) 0

/-- The write `v[i] = x` to a `vector<double>`.  An index outside the vector is undefined
behaviour: `none`. -/
def vset (v : List R) (i : Nat) (x : R) : Option (List R) :=
  if i < v.length then some (v.set i x) else none

/-- The read `v[i]` of a `vector<double>`.  An index outside the vector is undefined
behaviour: `none`. -/
def vget (v : List R) (i : Nat) : Option R :=
  if i < v.length then some (v.getD i 0) else none

/-- The vectors `Ky`, `w` and `Kp` and the local `sw` of `Init`. -/
structure InitState (R : Type) where
  Ky : List R
  w : List R
  Kp : List R
  sw : R

/-- Lines 93-96 of `Init`: the body of the loop, for the index `i`. -/
def initStep (mat : FEReactivePlasticity R T) (i : Nat) (s : InitState R) :
    Option (InitState R) := do
  let w ← vset s.w i ((1 - mat.m_wmin) / (((mat.m_n : Int) - 1 : Int) : R))
  let Kp ← vset s.Kp i
    (mat.m_Ymin + (mat.m_Ymax - mat.m_Ymin) * (i : R) / (((mat.m_n : Int) - 1 : Int) : R))
  let Ky ← vset s.Ky i
    ((← vget s.Ky (i - 1)) + ((← vget Kp i) - (← vget Kp (i - 1))) / (1 - s.sw))
  let sw := s.sw + (← vget w i)
  pure { Ky := Ky, w := w, Kp := Kp, sw := sw }

/-- Lines 79-98 of `Init`: the yield schedule `Ky`, `w` written into the material.  The
result is `none` when an access falls outside a vector. -/
def yieldSchedule (mat : FEReactivePlasticity R T) : Option (FEReactivePlasticity R T) := do
  let Ky := resize mat.Ky mat.m_n
  let w := resize mat.w mat.m_n
  let Kp : List R := List.replicate mat.m_n 0
  if mat.m_n = 1 then
    let Ky ← vset Ky 0 mat.m_Ymin
    let w ← vset w 0 mat.m_wmin
    pure { mat with Ky := Ky, w := w }
  else
    let w ← vset w 0 mat.m_wmin
    let Kp ← vset Kp 0 mat.m_Ymin
    let Ky ← vset Ky 0 (← vget Kp 0)
    let sw ← vget w 0
    let s ← (List.range' 1 (mat.m_n - 1)).foldlM (fun s i => initStep mat i s)
      { Ky := Ky, w := w, Kp := Kp, sw := sw }
    pure { mat with Ky := s.Ky, w := s.w }

/-- `FEReactivePlasticity::Init()`: the value returned and the material on return.
`baseInit` is `FEElasticMaterial::Init()`, the initialisation of the base class, which is
not in the sources read here: it acts on the object and returns a `bool`.  The call of
`feLogError` is not modelled. -/
def Init (mat : FEReactivePlasticity R T)
    (baseInit : FEReactivePlasticity R T → Bool × FEReactivePlasticity R T) :
    Option (Bool × FEReactivePlasticity R T) :=
  if mat.m_pBase.isUncoupled then some (false, mat)
  else do
    let mat ← yieldSchedule mat
    pure (baseInit mat)

/-- The value written to `w[i]` for `i ≥ 1` (line 93). -/
def wStep (mat : FEReactivePlasticity R T) : R :=
  (1 - mat.m_wmin) / (((mat.m_n : Int) - 1 : Int) : R)

/-- The value written to `w[i]` (lines 88 and 93). -/
def wAt (mat : FEReactivePlasticity R T) (i : Nat) : R :=
  if i = 0 then mat.m_wmin else wStep mat

/-- The value written to `Kp[i]` (lines 89 and 94). -/
def KpAt (mat : FEReactivePlasticity R T) (i : Nat) : R :=
  if i = 0 then mat.m_Ymin
  else mat.m_Ymin + (mat.m_Ymax - mat.m_Ymin) * (i : R) / (((mat.m_n : Int) - 1 : Int) : R)

/-- The value of `sw` after `k` passes of the loop (lines 91 and 96). -/
def swAt (mat : FEReactivePlasticity R T) : Nat → R
  | 0 => mat.m_wmin
  | k + 1 => swAt mat k + wStep mat

/-- The value written to `Ky[i]` (lines 90 and 95). -/
def KyAt (mat : FEReactivePlasticity R T) : Nat → R
  | 0 => mat.m_Ymin
  | k + 1 => KyAt mat k + (KpAt mat (k + 1) - KpAt mat k) / (1 - swAt mat k)

/-- The entry `Ky[j]` of the schedule computed by `Init` (0 when `Init` has no defined
behaviour). -/
def scheduleKy (mat : FEReactivePlasticity R T) (j : Nat) : R :=
  match yieldSchedule mat with
  | some m => m.Ky.getD j 0
  | none => 0

/-- The state of `Init` after `k` passes of its loop: the vectors keep their size `n`, the
entries `0..k` hold the values written, and `sw` is the sum of the weights written. -/
def InitInv (mat : FEReactivePlasticity R T) (k : Nat) (s : InitState R) : Prop :=
  s.Ky.length = mat.m_n ∧ s.w.length = mat.m_n ∧ s.Kp.length = mat.m_n ∧
  s.sw = swAt mat k ∧
  ∀ j, j ≤ k → s.Ky.getD j 0 = KyAt mat j ∧ s.Kp.getD j 0 = KpAt mat j ∧
    s.w.getD j 0 = wAt mat j

end FEReactivePlasticity

/-- A material with `n` yield levels and the schedule parameters `Ymin`, `Ymax`, `wmin`,
before `Init` (the vectors `Ky` and `w` are empty); the base material is not uncoupled. -/
def schedMat (R : Type) [LinearOrderedField R] (n : Nat) (Ymin Ymax wmin : R) :
    FEReactivePlasticity R R where
  m_pBase :=
    { Stress := fun pt => pt.pe.m_F
      Tangent := fun pt => pt.pe.m_J
      StrainEnergyDensity := fun pt => pt.pe.m_J
      isUncoupled := false }
  m_pCrit :=
    { DamageCriterion := fun pt => 2 * pt.pe.m_J
      CriterionStressTangent := fun _ => 1 }
  lib :=
    { sqrt := fun x => x
      pow := fun x _ => x
      norm := fun _ => 1
      eigen2 := fun A => (A 0 0, A 1 1, A 2 2)
      dot := fun c A => c • A
      RightStretchInverse := fun _ => 1 }
  Ky := []
  w := []
  m_wmin := wmin
  m_Ymin := Ymin
  m_Ymax := Ymax
  m_n := n
  m_isochrc := true
  m_itmax := 10
  m_blog := true

/-- A base-class `Init` that succeeds and leaves the object as it is. -/
def baseInitOk (mat : FEReactivePlasticity ℚ ℚ) : Bool × FEReactivePlasticity ℚ ℚ :=
  (true, mat)

namespace FEReactivePlasticity

variable {R T : Type} [LinearOrderedField R]

/-- Lines 147-156: the variables with which a yielding level `i`, entered at `pt`, enters
the loop `while (!conv)`. -/
def newtonInit (mat : FEReactivePlasticity R T) (eps : R) (i : Nat) (pt : FEMaterialPoint R) :
    NewtonState R :=
  let Fe := pt.pe.m_F * pt.pp.m_Fusi.getD i 0
  let phi := (mat.trialPoint i pt).pp.m_Kv.getD i 0 - mat.Ky.getD i 0
  let Fv := Fe
  let pt := (mat.latchPoint eps i pt).setF Fv Fv.det
  { pt := pt, conv := false, iter := 0, lam := 0, Fv := Fv, beta := 1, ImN := 1, phi := phi }

/-- Lines 160-168: the increment `dlam` computed by a pass of the loop body entered with
the variables `s`. -/
def newtonDlam (mat : FEReactivePlasticity R T) (i : Nat) (Fe : mat3d R) (s : NewtonState R) :
    R :=
  let pt := s.pt.setF s.Fv s.Fv.det
  let Nv := mat.YieldSurfaceNormal pt
  let Nvmag := mat.lib.norm Nv
  let pt := pt.setKv i (mat.m_pCrit.DamageCriterion pt)
  let phi := pt.pp.m_Kv.getD i 0 - mat.Ky.getD i 0
  let Rv := s.Fv * mat.lib.RightStretchInverse pt.pe
  let dFvdlam := (s.beta / Nvmag) • (-Fe * Nv)
  let dFvdlam :=
    if mat.m_isochrc then
      dFvdlam + ((Nvmag⁻¹ • (mat3d.inverse s.ImN * Nv)).trace * s.beta / 3) • (Fe * s.ImN)
    else dFvdlam
  let dlam := -phi / (Rv * Nv * dFvdlam.transpose).trace
  dlam

/-- The number of times the loop `while (!conv)`, entered in state `s`, executes its body
past the test `if (++iter > m_itmax) break` (lines 159-174). -/
def newtonCount (mat : FEReactivePlasticity R T) (eps : R) (i : Nat) (Fe : mat3d R) :
    Nat → NewtonState R → Nat
  | 0, _ => 0
  | fuel + 1, s =>
    if s.conv then 0
    else
      let s := { s with iter := s.iter + 1 }
      if s.iter > mat.m_itmax then 0
      else 1 + newtonCount mat eps i Fe fuel (newtonStep mat eps i Fe s)

/-- The variables of the loop `while (!conv)` after `k` executions of its body, each
preceded by `++iter`, started in state `s`. -/
def newtonIterate (mat : FEReactivePlasticity R T) (eps : R) (i : Nat) (Fe : mat3d R) :
    Nat → NewtonState R → NewtonState R
  | 0, s => s
  | k + 1, s =>
    newtonStep mat eps i Fe
      { newtonIterate mat eps i Fe k s with iter := (newtonIterate mat eps i Fe k s).iter + 1 }

/-- One of the two convergence tests of lines 173-174 holds in the pass of the body that
leads from the variables `s` to the variables `r`: `fabs(dlam) <= eps*fabs(lam)` with
`dlam = r.lam - s.lam`, or `fabs(phi) <= eps*eps*Ky[i]`. -/
def metTest (mat : FEReactivePlasticity R T) (eps : R) (i : Nat) (s r : NewtonState R) :
    Prop :=
  |r.lam - s.lam| ≤ eps * |r.lam| ∨ |r.phi| ≤ eps * eps * mat.Ky.getD i 0

end FEReactivePlasticity

/-- A material with one yield level before `Init`: `Ymin = Ymax = 0`, `wmin = 1`,
`maxiter = 1`, not isochoric; the base stress is 0, the base tangent 1, the criterion
`2 * J` with the stress tangent 1. -/
def matY0 : FEReactivePlasticity ℚ ℚ where
  m_pBase :=
    { Stress := fun _ => 0
      Tangent := fun _ => 1
      StrainEnergyDensity := fun _ => 0
      isUncoupled := false }
  m_pCrit :=
    { DamageCriterion := fun pt => 2 * pt.pe.m_J
      CriterionStressTangent := fun _ => 1 }
  lib := libQ
  Ky := []
  w := []
  m_wmin := 1
  m_Ymin := 0
  m_Ymax := 0
  m_n := 1
  m_isochrc := false
  m_itmax := 1
  m_blog := true

/-- The material `matY0` after `Init`: `Ky = [0]`, `w = [1]`. -/
def matY : FEReactivePlasticity ℚ ℚ := { matY0 with Ky := [0], w := [1] }

/-! ## CompactSymmMatrix -/

/-- Modelled from the spec: the data members of `CompactMatrix`, the base class of
`CompactSymmMatrix`, whose declaration is not in the sources read here (`m_pd`,
`m_ppointers` and `m_offset` occur in `diag`): the stored values `m_pd`, their row indices
`m_pindices` and the column pointers `m_ppointers` of the column-major compact layout of
the lower triangle, and the index offset (0 or 1) carried by the row indices and the column
pointers.  The arrays are functions of the `int` index. -/
structure CompactSymmMatrix (R : Type) where
  m_pd : Int → R
  m_pindices : Int → Int
  m_ppointers : Int → Int
  m_offset : Int

namespace CompactSymmMatrix

variable {R : Type} [Field R]

/-- Line 38 of `CompactSymmMatrix.h`: `diag(i)` returns `m_pd[m_ppointers[i] - m_offset]`. -/
def diag (A : CompactSymmMatrix R) (i : Int) : R :=
  A.m_pd (A.m_ppointers i - A.m_offset)

/-- The positions in `m_pd` of the run of column `j`: from `m_ppointers[j] - m_offset` up to
`m_ppointers[j+1] - m_offset`, excluded. -/
def run (A : CompactSymmMatrix R) (j : Int) : List Int :=
  (List.range (A.m_ppointers (j + 1) - A.m_ppointers j).toNat).map
    (fun k : Nat => A.m_ppointers j - A.m_offset + (k : Int))

/-- The position in `m_pd` of the entry in row `i` of column `j`, when the sparsity profile
holds it: the first position of the run of column `j` whose row index is `i`. -/
def position (A : CompactSymmMatrix R) (i j : Int) : Option Int :=
  (A.run j).find? (fun n => A.m_pindices n == i + A.m_offset)

/-- Modelled from the spec: `get(i, j)`, whose body (`CompactSymmMatrix.cpp`) is not in the
sources read here.  Only the lower triangle is stored: an upper entry is read with the
indices swapped; an entry that the sparsity profile does not hold is a structural zero. -/
def get (A : CompactSymmMatrix R) (i j : Int) : R :=
  let r := if i < j then j else i
  let c := if i < j then i else j
  match A.position r c with
  | some n => A.m_pd n
  | none => 0

/-- Modelled from the spec: `set(i, j, v)`, whose body is not in the sources read here.  An
upper entry is written with the indices swapped; a write to an entry that the sparsity
profile does not hold is ignored. -/
def set (A : CompactSymmMatrix R) (i j : Int) (v : R) : CompactSymmMatrix R :=
  let r := if i < j then j else i
  let c := if i < j then i else j
  match A.position r c with
  | some n => { A with m_pd := Function.update A.m_pd n v }
  | none => A

/-- Modelled from the spec: `add(i, j, v)`, whose body is not in the sources read here.  As
`set`, with the value added to the stored one. -/
def add (A : CompactSymmMatrix R) (i j : Int) (v : R) : CompactSymmMatrix R :=
  let r := if i < j then j else i
  let c := if i < j then i else j
  match A.position r c with
  | some n => { A with m_pd := Function.update A.m_pd n (A.m_pd n + v) }
  | none => A

/-- The part of `Assemble(ke, lm)` for the local entry `ke[i][j]`: a pair with a negative
equation number is skipped; a pair in the stored lower triangle is added to its entry; a
pair in the upper triangle is represented by its mirror pair and is not added again. -/
def assembleEntry (A : CompactSymmMatrix R) (ke : matrix R) (lm : List Int) (i j : Nat) :
    CompactSymmMatrix R :=
  if lm.getD i 0 < 0 ∨ lm.getD j 0 < 0 then A
  else if lm.getD j 0 ≤ lm.getD i 0 then A.add (lm.getD i 0) (lm.getD j 0) (ke i j)
  else A

/-- Modelled from the spec: `Assemble(ke, lm)`, whose body is not in the sources read here:
the local block `ke` is added into the symmetric matrix at the cross product of the
equation numbers `lm`, the pairs with a negative equation number being skipped. -/
def Assemble (A : CompactSymmMatrix R) (ke : matrix R) (lm : List Int) : CompactSymmMatrix R :=
  forLoop lm.length
    (fun i A => forLoop lm.length (fun j A => assembleEntry A ke lm i j) A) A

/-- A call of one of the methods that change the matrix. -/
inductive Call (R : Type) where
  | add (i j : Int) (v : R)
  | set (i j : Int) (v : R)
  | Assemble (ke : matrix R) (lm : List Int)

/-- The matrix after a call. -/
def call (A : CompactSymmMatrix R) : Call R → CompactSymmMatrix R
  | Call.add i j v => A.add i j v
  | Call.set i j v => A.set i j v
  | Call.Assemble ke lm => A.Assemble ke lm

/-- The matrix after a sequence of calls. -/
def calls (A : CompactSymmMatrix R) (cs : List (Call R)) : CompactSymmMatrix R :=
  cs.foldl call A

end CompactSymmMatrix

/-- The lower triangle of the 2×2 matrix `[[4, 1], [1, 3]]` in the compact layout with index
offset `off`: column 0 holds the rows 0 and 1, column 1 holds the row 1. -/
def csm2 (off : Int) : CompactSymmMatrix ℚ where
  m_pd := fun n => if n = 0 then 4 else if n = 1 then 1 else if n = 2 then 3 else 0
  m_pindices := fun n => if n = 0 then off else if n = 1 then 1 + off else if n = 2 then 1 + off
    else 0
  m_ppointers := fun j => if j = 0 then off else if j = 1 then 2 + off else 3 + off
  m_offset := off

namespace FEReactivePlasticity

/-- Lines 57-67: the parameters set by the constructor, for given properties `m_pBase`,
`m_pCrit` and library routines. -/
def construct {R T : Type} [LinearOrderedField R] (base : FEElasticMaterial R T)
    (crit : FEDamageCriterion R) (lib : TensorLib R T) : FEReactivePlasticity R T where
  m_pBase := base
  m_pCrit := crit
  lib := lib
  Ky := []
  w := []
  m_wmin := 1
  m_Ymin := 0
  m_Ymax := 0
  m_n := 1
  m_isochrc := true
  m_itmax := 10
  m_blog := true

end FEReactivePlasticity

namespace FEReactivePlasticity

variable {R T : Type} [LinearOrderedField R]

/-- Lines 88-91 of `Init`, for `n ≥ 1`: the vectors and `sw` with which the loop is
entered. -/
def initEntry (mat : FEReactivePlasticity R T) : InitState R :=
  { Ky := (resize mat.Ky mat.m_n).set 0 mat.m_Ymin
    w := (resize mat.w mat.m_n).set 0 mat.m_wmin
    Kp := (List.replicate mat.m_n (0 : R)).set 0 mat.m_Ymin
    sw := mat.m_wmin }

end FEReactivePlasticity

namespace FEReactivePlasticity

variable {R T : Type} [LinearOrderedField R]

/-- Lines 160-168: the Newton denominator `(Rv*Nv*dFvdlam.transpose()).trace()` of a pass of
the loop body entered with the variables `s`. -/
def newtonDenom (mat : FEReactivePlasticity R T) (i : Nat) (Fe : mat3d R)
    (s : NewtonState R) : R :=
  let pt := s.pt.setF s.Fv s.Fv.det
  let Nv := mat.YieldSurfaceNormal pt
  let Nvmag := mat.lib.norm Nv
  let pt := pt.setKv i (mat.m_pCrit.DamageCriterion pt)
  let Rv := s.Fv * mat.lib.RightStretchInverse pt.pe
  let dFvdlam := (s.beta / Nvmag) • (-Fe * Nv)
  let dFvdlam :=
    if mat.m_isochrc then
      dFvdlam + ((Nvmag⁻¹ • (mat3d.inverse s.ImN * Nv)).trace * s.beta / 3) • (Fe * s.ImN)
    else dFvdlam
  (Rv * Nv * dFvdlam.transpose).trace

end FEReactivePlasticity

/-! ## FEDomainMap -/

/-- The class `FEDomainMap` with the storage of its base class `FEDataArray`, whose
declaration is not in the sources read here: the values `m_val` (one `double` per entry)
and the number of entries per element `m_maxElemNodes`. -/
structure FEDomainMap (R : Type) where
  m_val : List R
  m_maxElemNodes : Nat

namespace FEDomainMap

variable {R : Type} [Zero R]

/-- The call `resize(n, val)` of `FEDataArray`: the vector `m_val` gets `n` entries, the
new ones equal to `val`. -/
def resize (map : FEDomainMap R) (n : Nat) (val : R) : FEDomainMap R :=
  { map with m_val := map.m_val.take n ++ List.replicate (n - map.m_val.length) val }

/-- The call `DataCount()` of `FEDataArray`: the number of entries. -/
def DataCount (map : FEDomainMap R) : Nat := map.m_val.length

/-- The call `set<double>(k, v)` of `FEDataArray`: `m_val[k] = v`. -/
def set (map : FEDomainMap R) (k : Nat) (v : R) : FEDomainMap R :=
  { map with m_val := map.m_val.set k v }

/-- The call `get<double>(k)` of `FEDataArray`: `m_val[k]`. -/
def get (map : FEDomainMap R) (k : Nat) : R := map.m_val.getD k 0

/-- Lines 26-38: `Create(ps, val)`, for a domain `ps` given by the numbers of nodes
`el.Nodes()` of its elements. -/
def Create (map : FEDomainMap R) (ps : List Nat) (val : R) : FEDomainMap R :=
  let NF := ps.length
  let map := { map with m_maxElemNodes := 0 }
  let map := forLoop NF
    (fun i (map : FEDomainMap R) =>
      let ne := ps.getD i 0
      if ne > map.m_maxElemNodes then { map with m_maxElemNodes := ne } else map)
    map
  map.resize (NF * map.m_maxElemNodes) val

/-- Lines 47-51: `setValue(n, v)`. -/
def setValue (map : FEDomainMap R) (n : Nat) (v : R) : FEDomainMap R :=
  let index := n * map.m_maxElemNodes
  forLoop map.m_maxElemNodes (fun i (map : FEDomainMap R) => map.set (index + i) v) map

/-- Lines 103-118: `value(pt)`, for a material point of the element with local id `lid`
(`pt.m_elem->GetLocalID()`); the assertions are not modelled. -/
def value (map : FEDomainMap R) (lid : Nat) : R := map.get lid

end FEDomainMap

/-- A domain of two elements with two nodes each. -/
def twoLineElements : List Nat := [2, 2]

/-! ## FEMesh::Faces and FEMesh::GetFace -/

/-- The element types named in `Faces` and `GetFace` (the enumeration is not in the sources
read here); `FE_OTHER` stands for every other type. -/
inductive FE_Element_Type where
  | FE_HEX8G8 | FE_HEX8RI | FE_HEX8G1 | FE_HEX20G27 | FE_HEX27G27
  | FE_PENTA6G6
  | FE_TET4G4 | FE_TET4G1
  | FE_TET10G4 | FE_TET10G8 | FE_TET10GL11
  | FE_TET15G8 | FE_TET15G11 | FE_TET15G15
  | FE_SHELL_QUAD | FE_SHELL_TRI
  | FE_OTHER
deriving DecidableEq, Fintype

/-- What `Faces`, `GetFace` and `FEErosionAdaptor::Apply` read and write of an `FEElement`:
its type `Type()`, its connectivity `m_node`, and the flag behind `isActive()` and
`setInactive()` (these two methods are not in the sources read here). -/
structure FEElement where
  elemType : FE_Element_Type
  m_node : List Int
  active : Bool := true

namespace FEMesh

open FE_Element_Type

/-- Lines 674-699: `Faces(el)`; the `default` case (after the assertion) returns 0. -/
def Faces (el : FEElement) : Nat :=
  match el.elemType with
  | FE_HEX8G8 | FE_HEX8RI | FE_HEX8G1 | FE_HEX20G27 | FE_HEX27G27 => 6
  | FE_PENTA6G6 => 5
  | FE_TET4G4 | FE_TET10G4 | FE_TET10G8 | FE_TET10GL11 | FE_TET15G8 | FE_TET15G11
  | FE_TET15G15 | FE_TET4G1 => 4
  | FE_SHELL_QUAD | FE_SHELL_TRI => 1
  | FE_OTHER => 0

/-- Lines 716-721: the indices `k` of the assignments `nf[0] = en[k]`, `nf[1] = en[k]`, …
of face `n` of a `HEX8`. -/
def hex8Face : Nat → List Nat
  | 0 => [0, 1, 5, 4]
  | 1 => [1, 2, 6, 5]
  | 2 => [2, 3, 7, 6]
  | 3 => [0, 4, 7, 3]
  | 4 => [0, 3, 2, 1]
  | 5 => [4, 5, 6, 7]
  | _ => []

/-- Lines 727-731, `PENTA6`. -/
def penta6Face : Nat → List Nat
  | 0 => [0, 1, 4, 3]
  | 1 => [1, 2, 5, 4]
  | 2 => [0, 3, 5, 2]
  | 3 => [0, 2, 1, 1]
  | 4 => [3, 4, 5, 5]
  | _ => []

/-- Lines 727-731: the value given to `nn` by face `n` of a `PENTA6` (−1 when no case
applies). -/
def penta6Count : Nat → Int
  | 0 => 4
  | 1 => 4
  | 2 => 4
  | 3 => 3
  | 4 => 3
  | _ => -1

/-- Lines 739-742, `TET4` (`nf[2] = nf[3] = en[k]`). -/
def tet4Face : Nat → List Nat
  | 0 => [0, 1, 3, 3]
  | 1 => [1, 2, 3, 3]
  | 2 => [0, 3, 2, 2]
  | 3 => [0, 2, 1, 1]
  | _ => []

/-- Lines 751-754, `TET10`. -/
def tet10Face : Nat → List Nat
  | 0 => [0, 1, 3, 4, 8, 7]
  | 1 => [1, 2, 3, 5, 9, 8]
  | 2 => [2, 0, 3, 6, 7, 9]
  | 3 => [2, 1, 0, 5, 4, 6]
  | _ => []

/-- Lines 763-766, `TET15`. -/
def tet15Face : Nat → List Nat
  | 0 => [0, 1, 3, 4, 8, 7, 11]
  | 1 => [1, 2, 3, 5, 9, 8, 12]
  | 2 => [2, 0, 3, 6, 7, 9, 13]
  | 3 => [2, 1, 0, 5, 4, 6, 10]
  | _ => []

/-- Lines 773-778, `HEX20`. -/
def hex20Face : Nat → List Nat
  | 0 => [0, 1, 5, 4, 8, 17, 12, 16]
  | 1 => [1, 2, 6, 5, 9, 18, 13, 17]
  | 2 => [2, 3, 7, 6, 10, 19, 14, 18]
  | 3 => [0, 4, 7, 3, 16, 15, 19, 11]
  | 4 => [0, 3, 2, 1, 11, 10, 9, 8]
  | 5 => [4, 5, 6, 7, 12, 13, 14, 15]
  | _ => []

/-- Lines 785-790, `HEX27`. -/
def hex27Face : Nat → List Nat
  | 0 => [0, 1, 5, 4, 8, 17, 12, 16, 20]
  | 1 => [1, 2, 6, 5, 9, 18, 13, 17, 21]
  | 2 => [2, 3, 7, 6, 10, 19, 14, 18, 22]
  | 3 => [0, 4, 7, 3, 16, 15, 19, 11, 23]
  | 4 => [0, 3, 2, 1, 11, 10, 9, 8, 24]
  | 5 => [4, 5, 6, 7, 12, 13, 14, 15, 25]
  | _ => []

/-- The indices `k` of the assignments `nf[0] = en[k]`, `nf[1] = en[k]`, … that `GetFace`
performs for an element of type `t` and the face `n`. -/
def faceList (t : FE_Element_Type) (n : Nat) : List Nat :=
  match t with
  | FE_HEX8G8 | FE_HEX8RI | FE_HEX8G1 => hex8Face n
  | FE_PENTA6G6 => penta6Face n
  | FE_TET4G4 | FE_TET4G1 => tet4Face n
  | FE_TET10G4 | FE_TET10G8 | FE_TET10GL11 => tet10Face n
  | FE_TET15G8 | FE_TET15G11 | FE_TET15G15 => tet15Face n
  | FE_HEX20G27 => hex20Face n
  | FE_HEX27G27 => hex27Face n
  | FE_SHELL_QUAD => [0, 1, 2, 3]
  | FE_SHELL_TRI => [0, 1, 2]
  | FE_OTHER => []

/-- The value of `nn` on return from `GetFace` for an element of type `t` and the face
`n`. -/
def faceCount (t : FE_Element_Type) (n : Nat) : Int :=
  match t with
  | FE_HEX8G8 | FE_HEX8RI | FE_HEX8G1 => 4
  | FE_PENTA6G6 => penta6Count n
  | FE_TET4G4 | FE_TET4G1 => 3
  | FE_TET10G4 | FE_TET10G8 | FE_TET10GL11 => 6
  | FE_TET15G8 | FE_TET15G11 | FE_TET15G15 => 7
  | FE_HEX20G27 => 8
  | FE_HEX27G27 => 9
  | FE_SHELL_QUAD => 4
  | FE_SHELL_TRI => 3
  | FE_OTHER => -1

/-- The assignments `nf[0] = en[l[0]]; nf[1] = en[l[1]]; …`. -/
def assign (nf : Nat → Int) (en : Nat → Int) (l : List Nat) : Nat → Int :=
  fun k =>
    match l.get? k with
    | some j => en j
    | none => nf k

/-- Lines 704-804: `GetFace(el, n, nf)`: the value returned and the array `nf` on return.
The face index `n` is a natural number: a negative `n` matches no case, like an `n` past
the last face. -/
def GetFace (el : FEElement) (n : Nat) (nf : Nat → Int) : Int × (Nat → Int) :=
  let en := fun k => el.m_node.getD k 0
  (faceCount el.elemType n, assign nf en (faceList el.elemType n))

/-- The solid element types (`Faces` is 6, 5 or 4). -/
def isSolid (t : FE_Element_Type) : Bool :=
  match t with
  | FE_SHELL_QUAD | FE_SHELL_TRI | FE_OTHER => false
  | _ => true

/-- The number of nodes `neln` of the traits of each element type (the traits are not in
the sources read here), as the names of the types say. -/
def typeNodes (t : FE_Element_Type) : Nat :=
  match t with
  | FE_HEX8G8 | FE_HEX8RI | FE_HEX8G1 => 8
  | FE_HEX20G27 => 20
  | FE_HEX27G27 => 27
  | FE_PENTA6G6 => 6
  | FE_TET4G4 | FE_TET4G1 => 4
  | FE_TET10G4 | FE_TET10G8 | FE_TET10GL11 => 10
  | FE_TET15G8 | FE_TET15G11 | FE_TET15G15 => 15
  | FE_SHELL_QUAD => 4
  | FE_SHELL_TRI => 3
  | FE_OTHER => 0

/-- The number of corner nodes of a face with `nn` nodes: 4 for the quadrilaterals (4, 8 or
9 nodes), 3 for the triangles (3, 6 or 7 nodes); the corner nodes come first in `nf`. -/
def faceCorners (nn : Int) : Nat :=
  if nn = 4 ∨ nn = 8 ∨ nn = 9 then 4 else if nn = 3 ∨ nn = 6 ∨ nn = 7 then 3 else 0

/-- The directed edges between consecutive items of a cyclic list. -/
def cyclicEdges {α : Type} (l : List α) : List (α × α) := l.zip (l.rotate 1)

/-- The directed corner edges `(a, b)` of face `n` of the element, in the order of the
corner nodes that `GetFace` returns. -/
def faceEdges (el : FEElement) (n : Nat) : List (Int × Int) :=
  let r := GetFace el n (fun _ => 0)
  cyclicEdges ((List.range (faceCorners r.1)).map r.2)

/-- The directed corner edges of face `n` of an element of type `t`, in terms of the
indices into `m_node`. -/
def indexEdges (t : FE_Element_Type) (n : Nat) : List (Nat × Nat) :=
  cyclicEdges ((faceList t n).take (faceCorners (faceCount t n)))

/-- The check, on the indices into `m_node`, that the faces of an element of type `t` with
`F` faces and `N` nodes form a closed, consistently oriented boundary: every index
assigned is below `N`; the value `nn` is at least 3, the first `nn` indices assigned are
different and every index assigned is one of them; and every directed corner edge of a
face occurs reversed in exactly one other face and in the same direction in no other
face. -/
def closedOriented (t : FE_Element_Type) (F N : Nat) : Bool :=
  (List.range F).all fun n =>
    (faceList t n).all (fun k => decide (k < N)) &&
    decide (3 ≤ faceCount t n) &&
    decide ((faceCount t n).toNat ≤ (faceList t n).length) &&
    decide (((faceList t n).take (faceCount t n).toNat).Nodup) &&
    (faceList t n).all (fun k => decide (k ∈ (faceList t n).take (faceCount t n).toNat)) &&
    decide (faceCorners (faceCount t n) ≤ (faceList t n).length) &&
    (indexEdges t n).all fun e =>
      decide (((List.range F).filter fun n2 =>
        decide (n2 ≠ n) && decide ((e.2, e.1) ∈ indexEdges t n2)).length = 1) &&
      (List.range F).all fun n2 => decide (n2 = n) || decide (e ∉ indexEdges t n2)

end FEMesh

/-- A hexahedron with the nodes 10, …, 17. -/
def hexEl : FEElement where
  elemType := FE_Element_Type.FE_HEX8G8
  m_node := [10, 11, 12, 13, 14, 15, 16, 17]

/-! ## FEErosionAdaptor -/

/-- What `FEErosionAdaptor::Apply` reads and writes of an `FENode`: the state flags
`m_nstate` and the equation numbers `m_ID`, one per degree of freedom. -/
structure FENode where
  m_nstate : Nat
  m_ID : List Int
deriving DecidableEq

namespace FENode

/-- The status flag `EXCLUDE = 1`. -/
def EXCLUDE : Nat := 1

/-- Line 48 of `FENode.h`: `HasFlags(flags)` is `(m_nstate & flags) != 0`. -/
def HasFlags (node : FENode) (flags : Nat) : Bool := decide (node.m_nstate &&& flags ≠ 0)

/-- Line 51 of `FENode.h`: `SetFlags(flags)` is `m_nstate = flags`. -/
def SetFlags (node : FENode) (flags : Nat) : FENode := { node with m_nstate := flags }

end FENode

/-- The methods of `FENode` that `Apply` calls and that are not in `FENode.h` as read here:
`dofs()` and `set_inactive(j)`; `is_active` tells whether a degree of freedom is active. -/
structure FENodeDofs where
  dofs : FENode → Nat
  set_inactive : FENode → Nat → FENode
  is_active : FENode → Nat → Bool

/-- What `Apply` reads of an `FELinearConstraint`: the node of the master degree of freedom
and the nodes of the slave degrees of freedom. -/
structure FELinearConstraint where
  master : Int
  slave : List Int
deriving DecidableEq

/-- What `Apply` reads and writes of the `FEModel`: the elements of the domains of the
mesh, the nodes of the mesh, and the linear constraints of the
`FELinearConstraintManager`. -/
structure FEModel where
  domains : List (List FEElement)
  nodes : List FENode
  lcm : List FELinearConstraint

/-- The class `FEErosionAdaptor`: the parameter `m_maxIters` and the property `m_criterion`,
which is `nullptr` (`none`) or a criterion, given by the list that its `GetElementList()`
returns. -/
structure FEErosionAdaptor where
  m_maxIters : Int
  m_criterion : Option (List Int)

namespace FEErosionAdaptor

/-- The statement `v[k] = x` on a `vector<int>` addressed as a function of the index. -/
def setAt (v : Nat → Int) (k : Nat) (x : Int) : Nat → Int :=
  fun i => if i = k then x else v i

/-- Lines 67-68: the vector `elemList`, all 0 except 1 at the selected indices. -/
def markSelection (selection : List Int) : Nat → Int :=
  forLoop selection.length (fun i elemList => setAt elemList (selection.getD i 0).toNat 1)
    (fun _ => 0)

/-- Lines 76-85: the loop over the elements of one domain, in their order; the state is the
pair `(deactiveElems, elem)`. -/
def deactivateElements (elemList : Nat → Int) :
    List FEElement → Nat × Nat → List FEElement × (Nat × Nat)
  | [], st => ([], st)
  | el :: els, st =>
    let deactiveElems := st.1
    let elem := st.2
    if elemList elem = 1 then
      let el := { el with active := false }
      let r := deactivateElements elemList els (deactiveElems + 1, elem + 1)
      (el :: r.1, r.2)
    else
      let r := deactivateElements elemList els (deactiveElems, elem + 1)
      (el :: r.1, r.2)

/-- Lines 72-86: the loop over the domains of the mesh, in their order. -/
def deactivateDomains (elemList : Nat → Int) :
    List (List FEElement) → Nat × Nat → List (List FEElement) × (Nat × Nat)
  | [], st => ([], st)
  | dom :: doms, st =>
    let r := deactivateElements elemList dom st
    let r2 := deactivateDomains elemList doms r.2
    (r.1 :: r2.1, r2.2)

/-- Lines 98-102: the nodes of an active element are tagged (`el.Nodes()` is the size of
`m_node`). -/
def tagElement (tag : Nat → Int) (el : FEElement) : Nat → Int :=
  if el.active then
    forLoop el.m_node.length (fun n tag => setAt tag (el.m_node.getD n 0).toNat 1) tag
  else tag

/-- Lines 91-104: the vector `tag` after the loop over the domains and their elements. -/
def tagNodes (domains : List (List FEElement)) : Nat → Int :=
  domains.foldl (fun tag dom => dom.foldl tagElement tag) (fun _ => 0)

/-- Lines 111-114: the node is excluded and its degrees of freedom are made inactive. -/
def excludeNode (ops : FENodeDofs) (node : FENode) : FENode :=
  let node := node.SetFlags FENode.EXCLUDE
  let ndofs := ops.dofs node
  forLoop ndofs (fun j node => ops.set_inactive node j) node

/-- Lines 106-116: the loop over the nodes, from the node `i` on. -/
def excludeOrphans (ops : FENodeDofs) (tag : Nat → Int) : List FENode → Nat → List FENode
  | [], _ => []
  | node :: rest, i =>
    (if tag i = 0 then excludeNode ops node else node) :: excludeOrphans ops tag rest (i + 1)

/-- The test `mesh.Node(n).HasFlags(FENode::EXCLUDE)` (a node number outside the mesh is
not modelled and counts as not excluded). -/
def nodeExcluded (nodes : List FENode) (n : Int) : Bool :=
  match nodes.get? n.toNat with
  | some node => node.HasFlags FENode.EXCLUDE
  | none => false

/-- Lines 135-144: the flag `del` of a constraint with the slave nodes `slave`; the loop
stops at the first excluded node. -/
def slaveExcluded (nodes : List FENode) : List Int → Bool
  | [] => false
  | s :: rest => if nodeExcluded nodes s then true else slaveExcluded nodes rest

/-- The loops `for (j = 0; j < LCM.LinearConstraints();)` of lines 120-128 and 131-146,
from the index `j` on: the constraint `j` is removed when `del` holds for it, else `j`
advances.  `RemoveLinearConstraint(j)` takes the constraint `j` out of the list. -/
def removeLoop (del : FELinearConstraint → Bool) :
    Nat → Nat → List FELinearConstraint → List FELinearConstraint
  | 0, _, l => l
  | fuel + 1, j, l =>
    match l.get? j with
    | none => l
    | some lc =>
      if del lc then removeLoop del fuel j (l.eraseIdx j)
      else removeLoop del fuel (j + 1) l

/-- `FEErosionAdaptor::Apply(iteration)`: the value returned and the model on return.
`ops` holds the methods of `FENode` and `activate` is `LCM.Activate()`, which are not in the
sources read here; the calls of `feLog` and the assertion of line 81 are not modelled. -/
def Apply (ad : FEErosionAdaptor) (ops : FENodeDofs)
    (activate : List FELinearConstraint → List FELinearConstraint) (fem : FEModel)
    (iteration : Int) : Bool × FEModel :=
  if ad.m_maxIters ≥ 0 ∧ iteration ≥ ad.m_maxIters then (true, fem)
  else
    match ad.m_criterion with
    | none => (true, fem)
    | some selection =>
      if selection.isEmpty then (true, fem)
      else
        let elemList := markSelection selection
        let r := deactivateDomains elemList fem.domains (0, 0)
        let domains := r.1
        let deactiveElems := r.2.1
        let tag := tagNodes domains
        let nodes := excludeOrphans ops tag fem.nodes 0
        let lcm := removeLoop (fun lc => nodeExcluded nodes lc.master) fem.lcm.length 0
          fem.lcm
        let lcm := removeLoop (fun lc => slaveExcluded nodes lc.slave) lcm.length 0 lcm
        let lcm := activate lcm
        (decide (deactiveElems = 0), { domains := domains, nodes := nodes, lcm := lcm })

end FEErosionAdaptor

/-- The degrees of freedom of a node in terms of `m_ID`: one per entry, active when the
equation number is non-negative; `set_inactive(j)` replaces a non-negative `m_ID[j]` by
`-m_ID[j]-2`. -/
def idDofs : FENodeDofs where
  dofs := fun node => node.m_ID.length
  set_inactive := fun node j =>
    let id := node.m_ID.getD j 0
    { node with m_ID := node.m_ID.set j (if 0 ≤ id then -id - 2 else id) }
  is_active := fun node j => decide (0 ≤ node.m_ID.getD j (-1))

/-- A mesh of two line elements `0-1` and `1-2` in one domain, three nodes with one degree
of freedom each, and two linear constraints. -/
def femLine : FEModel where
  domains := [[{ elemType := FE_Element_Type.FE_OTHER, m_node := [0, 1] },
               { elemType := FE_Element_Type.FE_OTHER, m_node := [1, 2] }]]
  nodes := [{ m_nstate := 0, m_ID := [0] }, { m_nstate := 0, m_ID := [1] },
            { m_nstate := 0, m_ID := [2] }]
  lcm := [{ master := 2, slave := [1] }, { master := 0, slave := [1] }]

/-- An erosion adaptor whose criterion selects the element 1. -/
def adaptorOne : FEErosionAdaptor where
  m_maxIters := -1
  m_criterion := some [1]
namespace FEErosionAdaptor

/-- The element with the global index `k` after the loop of lines 72-86: inactive when
`elemList[k] == 1`, else as it is. -/
def erode (elemList : Nat → Int) (k : Nat) (el : FEElement) : FEElement :=
  if elemList k = 1 then { el with active := false } else el

/-- The elements `els`, with the global indices `k`, `k+1`, …, after the loop of lines
72-86. -/
def erodeList (elemList : Nat → Int) : List FEElement → Nat → List FEElement
  | [], _ => []
  | el :: els, k => erode elemList k el :: erodeList elemList els (k + 1)

/-- The number of indices `k ≤ j < k + n` with `elemList[j] == 1`. -/
def countMarked (elemList : Nat → Int) : Nat → Nat → Nat
  | _, 0 => 0
  | k, n + 1 => (if elemList k = 1 then 1 else 0) + countMarked elemList (k + 1) n

/-- The node `i` belongs to an active element of the domains. -/
def inActiveElement (domains : List (List FEElement)) (i : Nat) : Prop :=
  ∃ el ∈ domains.flatten, el.active = true ∧ (i : Int) ∈ el.m_node

end FEErosionAdaptor

/-! ## FERigidBody::Serialize -/

/-- The class `quatd`: four doubles. -/
structure quatd (R : Type) where
  x : R
  y : R
  z : R
  w : R

/-- One value in a dump stream, with the C++ type it was written as. -/
inductive Item (R : Type) where
  | int (n : Int)
  | bool (b : Bool)
  | double (x : R)
  | vec3d (v : vec3d R)
  | quatd (q : quatd R)
  | mat3d (m : mat3d R)

/-- Modelled from the spec: the class `DumpStream` is not under src. The stream is the list
of the values written and not yet read, with the two mode flags that `Serialize` asks for:
`<<` and `write` put values at the end, `>>` and `read` take them from the front, and a
read of a value of another type, or from an empty stream, fails. -/
structure DumpStream (R : Type) where
  shallow : Bool
  saving : Bool
  data : List (Item R)

namespace DumpStream

variable {R : Type}

def IsShallow (ar : DumpStream R) : Bool := ar.shallow

def IsSaving (ar : DumpStream R) : Bool := ar.saving

/-- The `operator <<`. -/
def put (ar : DumpStream R) (v : Item R) : DumpStream R := { ar with data := ar.data ++ [v] }

def getInt (ar : DumpStream R) : Option (Int × DumpStream R) :=
  match ar.data with
  | Item.int n :: rest => some (n, { ar with data := rest })
  | _ => none

def getBool (ar : DumpStream R) : Option (Bool × DumpStream R) :=
  match ar.data with
  | Item.bool b :: rest => some (b, { ar with data := rest })
  | _ => none

def getDouble (ar : DumpStream R) : Option (R × DumpStream R) :=
  match ar.data with
  | Item.double x :: rest => some (x, { ar with data := rest })
  | _ => none

def getVec3d (ar : DumpStream R) : Option (FEBio.vec3d R × DumpStream R) :=
  match ar.data with
  | Item.vec3d v :: rest => some (v, { ar with data := rest })
  | _ => none

def getQuatd (ar : DumpStream R) : Option (FEBio.quatd R × DumpStream R) :=
  match ar.data with
  | Item.quatd q :: rest => some (q, { ar with data := rest })
  | _ => none

def getMat3d (ar : DumpStream R) : Option (FEBio.mat3d R × DumpStream R) :=
  match ar.data with
  | Item.mat3d m :: rest => some (m, { ar with data := rest })
  | _ => none

/-- The indices of `for (int i=0; i<6; ++i)` and of an array of 6 entries. -/
def idx6 : List (Fin 6) := [0, 1, 2, 3, 4, 5]

/-- The call `ar.write(p, sizeof(int), 6)` on an array of 6 ints. -/
def writeInts (ar : DumpStream R) (p : Fin 6 → Int) : DumpStream R :=
  idx6.foldl (fun ar i => ar.put (Item.int (p i))) ar

/-- The call `ar.write(p, sizeof(double), 6)` on an array of 6 doubles. -/
def writeDoubles (ar : DumpStream R) (p : Fin 6 → R) : DumpStream R :=
  idx6.foldl (fun ar i => ar.put (Item.double (p i))) ar

/-- The call `ar.read(p, sizeof(int), 6)` on an array of 6 ints. -/
def readInts (ar : DumpStream R) (p : Fin 6 → Int) : Option ((Fin 6 → Int) × DumpStream R) :=
  idx6.foldlM (fun st i => do
    let (n, ar) ← st.2.getInt
    pure (Function.update st.1 i n, ar)) (p, ar)

/-- The call `ar.read(p, sizeof(double), 6)` on an array of 6 doubles. -/
def readDoubles (ar : DumpStream R) (p : Fin 6 → R) : Option ((Fin 6 → R) × DumpStream R) :=
  idx6.foldlM (fun st i => do
    let (x, ar) ← st.2.getDouble
    pure (Function.update st.1 i x, ar)) (p, ar)

end DumpStream

/-- The members of `FERigidBody` that `Serialize` names; the class declaration is not under
src, so the types are read off the uses and the other members are the field `other`. -/
structure FERigidBody (R Other : Type) where
  m_nID : Int
  m_mat : Int
  m_mass : R
  m_moi : mat3d R
  m_Fr : vec3d R
  m_Mr : vec3d R
  m_r0 : vec3d R
  m_rt : vec3d R
  m_rp : vec3d R
  m_vt : vec3d R
  m_vp : vec3d R
  m_at : vec3d R
  m_ap : vec3d R
  m_qt : quatd R
  m_qp : quatd R
  m_euler : vec3d R
  m_wt : vec3d R
  m_wp : vec3d R
  m_alt : vec3d R
  m_alp : vec3d R
  m_bpofr : Bool
  m_BC : Fin 6 → Int
  m_LM : Fin 6 → Int
  m_Up : Fin 6 → R
  m_Ut : Fin 6 → R
  m_du : Fin 6 → R
  m_dul : Fin 6 → R
  other : Other

namespace FERigidBody

variable {R Other : Type}

/-- One `ar >> member`: the value read by `get` is stored by `set`. -/
def recv {α : Type} (get : DumpStream R → Option (α × DumpStream R))
    (set : FERigidBody R Other → α → FERigidBody R Other)
    (st : DumpStream R × FERigidBody R Other) : Option (DumpStream R × FERigidBody R Other) :=
  match get st.1 with
  | some (v, ar) => some (ar, set st.2 v)
  | none => none

/-- One `ar.read(member, size, 6)`: the array `member` is filled by `read`. -/
def recvArray {α : Type}
    (read : DumpStream R → (Fin 6 → α) → Option ((Fin 6 → α) × DumpStream R))
    (member : FERigidBody R Other → Fin 6 → α)
    (set : FERigidBody R Other → (Fin 6 → α) → FERigidBody R Other)
    (st : DumpStream R × FERigidBody R Other) : Option (DumpStream R × FERigidBody R Other) :=
  match read st.1 (member st.2) with
  | some (v, ar) => some (ar, set st.2 v)
  | none => none

/-- The saving branch of the shallow mode, lines 252-267. -/
def saveShallow (rb : FERigidBody R Other) (ar : DumpStream R) : DumpStream R :=
  let ar := ar.put (Item.double rb.m_mass)
  let ar := ar.put (Item.mat3d rb.m_moi)
  let ar := (ar.put (Item.vec3d rb.m_Fr)).put (Item.vec3d rb.m_Mr)
  let ar := (ar.put (Item.vec3d rb.m_rp)).put (Item.vec3d rb.m_rt)
  let ar := (ar.put (Item.vec3d rb.m_vp)).put (Item.vec3d rb.m_vt)
  let ar := (ar.put (Item.vec3d rb.m_ap)).put (Item.vec3d rb.m_at)
  let ar := ((ar.put (Item.quatd rb.m_qp)).put (Item.quatd rb.m_qt)).put (Item.vec3d rb.m_euler)
  let ar := (ar.put (Item.vec3d rb.m_wp)).put (Item.vec3d rb.m_wt)
  let ar := (ar.put (Item.vec3d rb.m_alp)).put (Item.vec3d rb.m_alt)
  DumpStream.idx6.foldl (fun ar i =>
    let ar := ar.put (Item.double (rb.m_Up i))
    let ar := ar.put (Item.double (rb.m_Ut i))
    let ar := ar.put (Item.double (rb.m_du i))
    ar.put (Item.double (rb.m_dul i))) ar

/-- The body of the loop of lines 280-286 for the index `i`. -/
def loadShallowStep (st : DumpStream R × FERigidBody R Other) (i : Fin 6) :
    Option (DumpStream R × FERigidBody R Other) :=
  some st
    >>= recv DumpStream.getDouble (fun rb v => { rb with m_Up := Function.update rb.m_Up i v })
    >>= recv DumpStream.getDouble (fun rb v => { rb with m_Ut := Function.update rb.m_Ut i v })
    >>= recv DumpStream.getDouble (fun rb v => { rb with m_du := Function.update rb.m_du i v })
    >>= recv DumpStream.getDouble
      (fun rb v => { rb with m_dul := Function.update rb.m_dul i v })

/-- The loading branch of the shallow mode, lines 271-286. -/
def loadShallow (rb : FERigidBody R Other) (ar : DumpStream R) :
    Option (DumpStream R × FERigidBody R Other) :=
  some (ar, rb)
    >>= recv DumpStream.getDouble (fun rb v => { rb with m_mass := v })
    >>= recv DumpStream.getMat3d (fun rb v => { rb with m_moi := v })
    >>= recv DumpStream.getVec3d (fun rb v => { rb with m_Fr := v })
    >>= recv DumpStream.getVec3d (fun rb v => { rb with m_Mr := v })
    >>= recv DumpStream.getVec3d (fun rb v => { rb with m_rp := v })
    >>= recv DumpStream.getVec3d (fun rb v => { rb with m_rt := v })
    >>= recv DumpStream.getVec3d (fun rb v => { rb with m_vp := v })
    >>= recv DumpStream.getVec3d (fun rb v => { rb with m_vt := v })
    >>= recv DumpStream.getVec3d (fun rb v => { rb with m_ap := v })
    >>= recv DumpStream.getVec3d (fun rb v => { rb with m_at := v })
    >>= recv DumpStream.getQuatd (fun rb v => { rb with m_qp := v })
    >>= recv DumpStream.getQuatd (fun rb v => { rb with m_qt := v })
    >>= recv DumpStream.getVec3d (fun rb v => { rb with m_euler := v })
    >>= recv DumpStream.getVec3d (fun rb v => { rb with m_wp := v })
    >>= recv DumpStream.getVec3d (fun rb v => { rb with m_wt := v })
    >>= recv DumpStream.getVec3d (fun rb v => { rb with m_alp := v })
    >>= recv DumpStream.getVec3d (fun rb v => { rb with m_alt := v })
    >>= DumpStream.idx6.foldlM loadShallowStep

/-- The saving branch of the deep mode, lines 293-302. -/
def saveDeep (rb : FERigidBody R Other) (ar : DumpStream R) : DumpStream R :=
  let ar := (((((ar.put (Item.int rb.m_nID)).put (Item.int rb.m_mat)).put
    (Item.double rb.m_mass)).put (Item.mat3d rb.m_moi)).put (Item.vec3d rb.m_Fr)).put
    (Item.vec3d rb.m_Mr)
  let ar := ((((((ar.put (Item.vec3d rb.m_r0)).put (Item.vec3d rb.m_rt)).put
    (Item.vec3d rb.m_rp)).put (Item.vec3d rb.m_vt)).put (Item.vec3d rb.m_vp)).put
    (Item.vec3d rb.m_at)).put (Item.vec3d rb.m_ap)
  let ar := ((((((ar.put (Item.quatd rb.m_qt)).put (Item.quatd rb.m_qp)).put
    (Item.vec3d rb.m_euler)).put (Item.vec3d rb.m_wt)).put (Item.vec3d rb.m_wp)).put
    (Item.vec3d rb.m_alt)).put (Item.vec3d rb.m_alp)
  let ar := ar.put (Item.bool rb.m_bpofr)
  let ar := ar.writeInts rb.m_BC
  let ar := ar.writeInts rb.m_LM
  let ar := ar.writeDoubles rb.m_Up
  let ar := ar.writeDoubles rb.m_Ut
  let ar := ar.writeDoubles rb.m_du
  ar.writeDoubles rb.m_dul

/-- The loading branch of the deep mode, lines 306-315. -/
def loadDeep (rb : FERigidBody R Other) (ar : DumpStream R) :
    Option (DumpStream R × FERigidBody R Other) :=
  some (ar, rb)
    >>= recv DumpStream.getInt (fun rb v => { rb with m_nID := v })
    >>= recv DumpStream.getInt (fun rb v => { rb with m_mat := v })
    >>= recv DumpStream.getDouble (fun rb v => { rb with m_mass := v })
    >>= recv DumpStream.getMat3d (fun rb v => { rb with m_moi := v })
    >>= recv DumpStream.getVec3d (fun rb v => { rb with m_Fr := v })
    >>= recv DumpStream.getVec3d (fun rb v => { rb with m_Mr := v })
    >>= recv DumpStream.getVec3d (fun rb v => { rb with m_r0 := v })
    >>= recv DumpStream.getVec3d (fun rb v => { rb with m_rt := v })
    >>= recv DumpStream.getVec3d (fun rb v => { rb with m_rp := v })
    >>= recv DumpStream.getVec3d (fun rb v => { rb with m_vt := v })
    >>= recv DumpStream.getVec3d (fun rb v => { rb with m_vp := v })
    >>= recv DumpStream.getVec3d (fun rb v => { rb with m_at := v })
    >>= recv DumpStream.getVec3d (fun rb v => { rb with m_ap := v })
    >>= recv DumpStream.getQuatd (fun rb v => { rb with m_qt := v })
    >>= recv DumpStream.getQuatd (fun rb v => { rb with m_qp := v })
    >>= recv DumpStream.getVec3d (fun rb v => { rb with m_euler := v })
    >>= recv DumpStream.getVec3d (fun rb v => { rb with m_wt := v })
    >>= recv DumpStream.getVec3d (fun rb v => { rb with m_wp := v })
    >>= recv DumpStream.getVec3d (fun rb v => { rb with m_alt := v })
    >>= recv DumpStream.getVec3d (fun rb v => { rb with m_alp := v })
    >>= recv DumpStream.getBool (fun rb v => { rb with m_bpofr := v })
    >>= recvArray DumpStream.readInts (fun rb => rb.m_BC) (fun rb v => { rb with m_BC := v })
    >>= recvArray DumpStream.readInts (fun rb => rb.m_LM) (fun rb v => { rb with m_LM := v })
    >>= recvArray DumpStream.readDoubles (fun rb => rb.m_Up) (fun rb v => { rb with m_Up := v })
    >>= recvArray DumpStream.readDoubles (fun rb => rb.m_Ut) (fun rb v => { rb with m_Ut := v })
    >>= recvArray DumpStream.readDoubles (fun rb => rb.m_du) (fun rb v => { rb with m_du := v })
    >>= recvArray DumpStream.readDoubles (fun rb => rb.m_dul)
      (fun rb v => { rb with m_dul := v })

/-- The method `FERigidBody::Serialize`, lines 246-318: the stream and the rigid body after
the call, `none` when a read fails. -/
def Serialize (rb : FERigidBody R Other) (ar : DumpStream R) :
    Option (DumpStream R × FERigidBody R Other) :=
  if ar.IsShallow then
    if ar.IsSaving then some (rb.saveShallow ar, rb)
    else rb.loadShallow ar
  else
    if ar.IsSaving then some (rb.saveDeep ar, rb)
    else rb.loadDeep ar

end FERigidBody

/-! # Lemmas and theorems -/

/-! ## Loop lemmas -/

theorem forLoop_zero {σ : Type} (body : Nat → σ → σ) (s : σ) : forLoop 0 body s = s := rfl

theorem forLoop_succ {σ : Type} (n : Nat) (body : Nat → σ → σ) (s : σ) :
    forLoop (n + 1) body s = body n (forLoop n body s) := by
  simp [forLoop, List.range_succ, List.foldl_append]

/-- A loop whose body adds `g i` to the accumulator computes the sum of the `g i`. -/
theorem forLoop_add {M : Type} [AddCommMonoid M] (n : Nat) (body : Nat → M → M)
    (g : Nat → M) (hb : ∀ i s, body i s = s + g i) (s : M) :
    forLoop n body s = s + ∑ i in Finset.range n, g i := by
  induction n with
  | zero => simp [forLoop_zero]
  | succ n ih => rw [forLoop_succ, ih, hb, Finset.sum_range_succ, add_assoc]

namespace FEPressureSurface

variable {R : Type} [Field R]

theorem addTo_block (ke : matrix R) (i j a' b' : Nat) (v : R) (q q' a b : Nat)
    (ha : a < 3) (hb : b < 3) (ha' : a' < 3) (hb' : b' < 3) :
    ke.addTo (3 * i + a') (3 * j + b') v (3 * q + a) (3 * q' + b)
      = ke (3 * q + a) (3 * q' + b)
        + if (q = i ∧ q' = j) ∧ (a = a' ∧ b = b') then v else 0 := by
  unfold matrix.addTo
  by_cases h : (q = i ∧ q' = j) ∧ (a = a' ∧ b = b')
  · rw [if_pos h, if_pos]
    obtain ⟨⟨h1, h2⟩, h3, h4⟩ := h
    subst h1 h2 h3 h4
    exact ⟨rfl, rfl⟩
  · rw [if_neg h, if_neg, add_zero]
    intro hh
    apply h
    omega

theorem addBlock_apply (ke : matrix R) (i j : Nat) (k : vec3d R) (q q' a b : Nat)
    (ha : a < 3) (hb : b < 3) :
    addBlock ke i j k (3 * q + a) (3 * q' + b)
      = ke (3 * q + a) (3 * q' + b) + if q = i ∧ q' = j then blockEntry k a b else 0 := by
  have e : addBlock ke i j k
      = ((((((((ke.addTo (3 * i + 0) (3 * j + 0) 0).addTo (3 * i + 0) (3 * j + 1) k.z).addTo
          (3 * i + 0) (3 * j + 2) (-k.y)).addTo (3 * i + 1) (3 * j + 0) (-k.z)).addTo
          (3 * i + 1) (3 * j + 1) 0).addTo (3 * i + 1) (3 * j + 2) k.x).addTo
          (3 * i + 2) (3 * j + 0) k.y).addTo (3 * i + 2) (3 * j + 1) (-k.x)).addTo
          (3 * i + 2) (3 * j + 2) 0 := rfl
  rw [e]
  simp only [addTo_block _ _ _ _ _ _ _ _ _ _ ha hb (by norm_num : (0:Nat) < 3)
      (by norm_num : (0:Nat) < 3),
    addTo_block _ _ _ _ _ _ _ _ _ _ ha hb (by norm_num : (0:Nat) < 3)
      (by norm_num : (1:Nat) < 3),
    addTo_block _ _ _ _ _ _ _ _ _ _ ha hb (by norm_num : (0:Nat) < 3)
      (by norm_num : (2:Nat) < 3),
    addTo_block _ _ _ _ _ _ _ _ _ _ ha hb (by norm_num : (1:Nat) < 3)
      (by norm_num : (0:Nat) < 3),
    addTo_block _ _ _ _ _ _ _ _ _ _ ha hb (by norm_num : (1:Nat) < 3)
      (by norm_num : (1:Nat) < 3),
    addTo_block _ _ _ _ _ _ _ _ _ _ ha hb (by norm_num : (1:Nat) < 3)
      (by norm_num : (2:Nat) < 3),
    addTo_block _ _ _ _ _ _ _ _ _ _ ha hb (by norm_num : (2:Nat) < 3)
      (by norm_num : (0:Nat) < 3),
    addTo_block _ _ _ _ _ _ _ _ _ _ ha hb (by norm_num : (2:Nat) < 3)
      (by norm_num : (1:Nat) < 3),
    addTo_block _ _ _ _ _ _ _ _ _ _ ha hb (by norm_num : (2:Nat) < 3)
      (by norm_num : (2:Nat) < 3)]
  by_cases h : q = i ∧ q' = j
  · interval_cases a <;> interval_cases b <;> simp [h, blockEntry]
  · simp [h]

theorem addBlock_eq (ke : matrix R) (i j : Nat) (k : vec3d R) :
    addBlock ke i j k = ke + blockMat i j k := by
  funext r c
  obtain ⟨q, a, ha, rfl⟩ : ∃ q a, a < 3 ∧ r = 3 * q + a :=
    ⟨r / 3, r % 3, Nat.mod_lt _ (by norm_num), (Nat.div_add_mod r 3).symm⟩
  obtain ⟨q', b, hb, rfl⟩ : ∃ q a, a < 3 ∧ c = 3 * q + a :=
    ⟨c / 3, c % 3, Nat.mod_lt _ (by norm_num), (Nat.div_add_mod c 3).symm⟩
  have h1 : (3 * q + a) / 3 = q := by omega
  have h2 : (3 * q + a) % 3 = a := by omega
  have h3 : (3 * q' + b) / 3 = q' := by omega
  have h4 : (3 * q' + b) % 3 = b := by omega
  rw [addBlock_apply ke i j k q q' a b ha hb]
  simp only [Pi.add_apply, blockMat, h1, h2, h3, h4]

/-- Closed form of `PressureStiffness`: the sum over integration points and node pairs of
the blocks of `kab`. -/
theorem PressureStiffness_eq (el : FESurfaceElement R) (ke : matrix R) :
    PressureStiffness el ke
      = ∑ n in Finset.range el.nint, ∑ i in Finset.range el.neln,
          ∑ j in Finset.range el.neln,
            blockMat i j (kab el n (gaussPressure el n) (jacobian el n) i j) := by
  unfold PressureStiffness
  simp only []
  rw [forLoop_add el.nint _
    (fun n => ∑ i in Finset.range el.neln, ∑ j in Finset.range el.neln,
      blockMat i j (kab el n (gaussPressure el n) (jacobian el n) i j))]
  · have : matrix.zero ke = 0 := rfl
    rw [this, zero_add]
  · intro n s
    rw [forLoop_add el.neln _
      (fun i => ∑ j in Finset.range el.neln,
        blockMat i j (kab el n (gaussPressure el n) (jacobian el n) i j))]
    intro i s
    rw [forLoop_add el.neln _
      (fun j => blockMat i j (kab el n (gaussPressure el n) (jacobian el n) i j))]
    intro j s
    exact addBlock_eq _ _ _ _

/-- Entry `(3q+a, 3q'+b)` of the result of `PressureStiffness`. -/
theorem PressureStiffness_entry (el : FESurfaceElement R) (ke : matrix R) (q q' a b : Nat)
    (ha : a < 3) (hb : b < 3) :
    PressureStiffness el ke (3 * q + a) (3 * q' + b)
      = ∑ n in Finset.range el.nint, ∑ i in Finset.range el.neln,
          ∑ j in Finset.range el.neln,
            if q = i ∧ q' = j then
              blockEntry (kab el n (gaussPressure el n) (jacobian el n) i j) a b
            else 0 := by
  have h1 : (3 * q + a) / 3 = q := by omega
  have h2 : (3 * q + a) % 3 = a := by omega
  have h3 : (3 * q' + b) / 3 = q' := by omega
  have h4 : (3 * q' + b) % 3 = b := by omega
  rw [PressureStiffness_eq]
  simp only [Finset.sum_apply, blockMat, h1, h2, h3, h4]

theorem blockEntry_swap (k : vec3d R) (a b : Nat) (ha : a < 3) (hb : b < 3) :
    blockEntry k a b = -blockEntry k b a := by
  interval_cases a <;> interval_cases b <;> simp [blockEntry]

theorem blockEntry_diag (k : vec3d R) (a : Nat) : blockEntry k a a = 0 := by
  rcases a with _ | _ | _ | a <;> simp [blockEntry]

theorem blockEntry_neg (k k' : vec3d R) (hx : k'.x = -k.x) (hy : k'.y = -k.y)
    (hz : k'.z = -k.z) (a b : Nat) : blockEntry k' a b = -blockEntry k a b := by
  unfold blockEntry
  split <;> simp [hx, hy, hz]

theorem kab_self (el : FESurfaceElement R) (n : Nat) (p : R) (J : Jac R) (i : Nat) :
    kab el n p J i i = ⟨0, 0, 0⟩ := by
  simp [kab]

theorem kab_swap (el : FESurfaceElement R) (n : Nat) (p : R) (J : Jac R) (i j : Nat) :
    (kab el n p J j i).x = -(kab el n p J i j).x ∧
    (kab el n p J j i).y = -(kab el n p J i j).y ∧
    (kab el n p J j i).z = -(kab el n p J i j).z := by
  simp only [kab]
  refine ⟨?_, ?_, ?_⟩ <;> ring

/-- C2. Every 3×3 node-pair block of the matrix produced by `PressureStiffness` is
skew-symmetric, `ke[3i+a][3j+b] = -ke[3i+b][3j+a]`, and its three diagonal entries
`ke[3i+a][3j+a]` are zero, for every element and every pressure field. -/
theorem PressureStiffness_block_skew (el : FESurfaceElement R) (ke : matrix R) (i j : Nat) :
    (∀ a b : Fin 3, PressureStiffness el ke (3 * i + a) (3 * j + b)
        = -PressureStiffness el ke (3 * i + b) (3 * j + a)) ∧
    (∀ a : Fin 3, PressureStiffness el ke (3 * i + a) (3 * j + a) = 0) := by
  constructor
  · intro a b
    rw [PressureStiffness_entry el ke i j a b a.2 b.2,
      PressureStiffness_entry el ke i j b a b.2 a.2]
    simp only [← Finset.sum_neg_distrib]
    refine Finset.sum_congr rfl fun n _ => Finset.sum_congr rfl fun i' _ =>
      Finset.sum_congr rfl fun j' _ => ?_
    split_ifs
    · exact blockEntry_swap _ _ _ a.2 b.2
    · simp
  · intro a
    rw [PressureStiffness_entry el ke i j a a a.2 a.2]
    simp [blockEntry_diag]

/-- C3. The diagonal node blocks of the matrix produced by `PressureStiffness` vanish:
all nine entries `ke[3i+a][3i+b]` are zero, for every element and pressure field. -/
theorem PressureStiffness_diag_block_zero (el : FESurfaceElement R) (ke : matrix R)
    (i : Nat) (a b : Fin 3) :
    PressureStiffness el ke (3 * i + a) (3 * i + b) = 0 := by
  rw [PressureStiffness_entry el ke i i a b a.2 b.2]
  refine Finset.sum_eq_zero fun n _ => Finset.sum_eq_zero fun i' _ =>
    Finset.sum_eq_zero fun j' _ => ?_
  split_ifs with h
  · obtain ⟨h1, h2⟩ := h
    subst h1
    subst h2
    rw [kab_self]
    unfold blockEntry
    split <;> simp
  · rfl

/-- C1 (amended). The blocks of the matrix produced by `PressureStiffness` are
antisymmetric in the node pair, `block(i,j) = -block(j,i)`: entry by entry
`ke[3i+a][3j+b] = -ke[3j+a][3i+b]`, for every element and every pressure field. -/
theorem PressureStiffness_block_antisymm (el : FESurfaceElement R) (ke : matrix R)
    (i j : Nat) (a b : Fin 3) :
    PressureStiffness el ke (3 * i + a) (3 * j + b)
      = -PressureStiffness el ke (3 * j + a) (3 * i + b) := by
  rw [PressureStiffness_entry el ke i j a b a.2 b.2,
    PressureStiffness_entry el ke j i a b a.2 b.2]
  simp only [← Finset.sum_neg_distrib]
  refine Finset.sum_congr rfl fun n _ => ?_
  rw [Finset.sum_comm]
  refine Finset.sum_congr rfl fun j' _ => Finset.sum_congr rfl fun i' _ => ?_
  by_cases h : i = i' ∧ j = j'
  · rw [if_pos h, if_pos ⟨h.2, h.1⟩]
    obtain ⟨hx, hy, hz⟩ := kab_swap el n (gaussPressure el n) (jacobian el n) j' i'
    rw [blockEntry_neg _ _ hx hy hz]
  · rw [if_neg h, if_neg (fun h' => h ⟨h'.2, h'.1⟩), neg_zero]

/-- C1 (as stated, refuted). On the 3-node triangle `tri3` the blocks of the node pairs
`(0,1)` and `(1,0)` do not satisfy `block(0,1) = -block(1,0)ᵀ`: `ke[0][5]` and
`ke[5][0]` are both `-1/6`, so `ke[0][5] ≠ -ke[5][0]`. -/
theorem PressureStiffness_not_neg_transpose :
    PressureStiffness (tri3 ℚ) (fun _ _ => 0) (3 * 0 + 0) (3 * 1 + 2) = -1 / 6 ∧
    PressureStiffness (tri3 ℚ) (fun _ _ => 0) (3 * 1 + 2) (3 * 0 + 0) = -1 / 6 ∧
    PressureStiffness (tri3 ℚ) (fun _ _ => 0) (3 * 0 + 0) (3 * 1 + 2)
      ≠ -PressureStiffness (tri3 ℚ) (fun _ _ => 0) (3 * 1 + 2) (3 * 0 + 0) := by
  have h1 : PressureStiffness (tri3 ℚ) (fun _ _ => 0) (3 * 0 + 0) (3 * 1 + 2) = -1 / 6 := by
    rw [PressureStiffness_entry _ _ _ _ _ _ (by norm_num) (by norm_num)]
    simp [Finset.sum_range_succ, tri3, kab, gaussPressure, jacobian, forLoop, blockEntry,
      List.range_succ]
    norm_num
  have h2 : PressureStiffness (tri3 ℚ) (fun _ _ => 0) (3 * 1 + 2) (3 * 0 + 0) = -1 / 6 := by
    rw [PressureStiffness_entry _ _ _ _ _ _ (by norm_num) (by norm_num)]
    simp [Finset.sum_range_succ, tri3, kab, gaussPressure, jacobian, forLoop, blockEntry,
      List.range_succ]
    norm_num
  refine ⟨h1, h2, ?_⟩
  rw [h1, h2]
  norm_num

end FEPressureSurface

namespace FEPressureSurface

variable {R : Type} [Field R]

/-- Closed form of the loop of lines 123-136. -/
theorem tangents_loop (el : FESurfaceElement R) (r : Nat → vec3d R) (n m : Nat) :
    forLoop m
      (fun i (s : R × vec3d R × vec3d R) =>
        (s.1 + el.H n i * el.pt i,
         (⟨s.2.1.x + el.Gr n i * (r i).x, s.2.1.y + el.Gr n i * (r i).y,
          s.2.1.z + el.Gr n i * (r i).z⟩ : vec3d R),
         (⟨s.2.2.x + el.Gs n i * (r i).x, s.2.2.y + el.Gs n i * (r i).y,
          s.2.2.z + el.Gs n i * (r i).z⟩ : vec3d R)))
      (0, ⟨0, 0, 0⟩, ⟨0, 0, 0⟩)
    = (∑ i in Finset.range m, el.H n i * el.pt i,
       ⟨∑ i in Finset.range m, el.Gr n i * (r i).x,
        ∑ i in Finset.range m, el.Gr n i * (r i).y,
        ∑ i in Finset.range m, el.Gr n i * (r i).z⟩,
       ⟨∑ i in Finset.range m, el.Gs n i * (r i).x,
        ∑ i in Finset.range m, el.Gs n i * (r i).y,
        ∑ i in Finset.range m, el.Gs n i * (r i).z⟩) := by
  induction m with
  | zero => simp [forLoop_zero]
  | succ m ih => rw [forLoop_succ, ih]; simp only [Finset.sum_range_succ]

theorem tangents_eq (el : FESurfaceElement R) (r : Nat → vec3d R) (n : Nat) :
    tangents el r n
    = (∑ i in Finset.range el.neln, el.H n i * el.pt i,
       ⟨∑ i in Finset.range el.neln, el.Gr n i * (r i).x,
        ∑ i in Finset.range el.neln, el.Gr n i * (r i).y,
        ∑ i in Finset.range el.neln, el.Gr n i * (r i).z⟩,
       ⟨∑ i in Finset.range el.neln, el.Gs n i * (r i).x,
        ∑ i in Finset.range el.neln, el.Gs n i * (r i).y,
        ∑ i in Finset.range el.neln, el.Gs n i * (r i).z⟩) :=
  tangents_loop el r n el.neln

/-- The integration-point force `f = (dxr ^ dxs)*pr*w[n]` of line 138 (and 205). -/
theorem nodeUpdate_eq (fe : dvector R) (i : Nat) (h : R) (f : vec3d R) :
    ((fe.addTo (3 * i) (h * f.x)).addTo (3 * i + 1) (h * f.y)).addTo (3 * i + 2) (h * f.z)
      = fe + nodeVec i ⟨h * f.x, h * f.y, h * f.z⟩ := by
  funext k
  obtain ⟨q, a, ha, rfl⟩ : ∃ q a, a < 3 ∧ k = 3 * q + a :=
    ⟨k / 3, k % 3, Nat.mod_lt _ (by norm_num), (Nat.div_add_mod k 3).symm⟩
  have h1 : (3 * q + a) / 3 = q := by omega
  have h2 : (3 * q + a) % 3 = a := by omega
  simp only [dvector.addTo, Pi.add_apply, nodeVec, h1, h2]
  by_cases hq : q = i
  · subst hq
    interval_cases a <;> simp
  · have e0 : ¬ (3 * q + a = 3 * i) := by omega
    have e1 : ¬ (3 * q + a = 3 * i + 1) := by omega
    have e2 : ¬ (3 * q + a = 3 * i + 2) := by omega
    simp [hq, e0, e1, e2]

/-- Closed form of the force loop shared by `PressureForce` and `LinearPressureForce`. -/
theorem force_loop (el : FESurfaceElement R) (r : Nat → vec3d R) (fe : dvector R) :
    forLoop el.nint
      (fun n fe =>
        forLoop el.neln
          (fun i fe =>
            ((fe.addTo (3 * i)
              (el.H n i * ((((tangents el r n).2.1.cross (tangents el r n).2.2).scale
                (tangents el r n).1).scale (el.gw n)).x)).addTo (3 * i + 1)
              (el.H n i * ((((tangents el r n).2.1.cross (tangents el r n).2.2).scale
                (tangents el r n).1).scale (el.gw n)).y)).addTo (3 * i + 2)
              (el.H n i * ((((tangents el r n).2.1.cross (tangents el r n).2.2).scale
                (tangents el r n).1).scale (el.gw n)).z))
          fe)
      fe
    = fe + ∑ n in Finset.range el.nint, ∑ i in Finset.range el.neln,
        nodeVec i
          ⟨el.H n i * ((((tangents el r n).2.1.cross (tangents el r n).2.2).scale
              (tangents el r n).1).scale (el.gw n)).x,
           el.H n i * ((((tangents el r n).2.1.cross (tangents el r n).2.2).scale
              (tangents el r n).1).scale (el.gw n)).y,
           el.H n i * ((((tangents el r n).2.1.cross (tangents el r n).2.2).scale
              (tangents el r n).1).scale (el.gw n)).z⟩ := by
  rw [forLoop_add el.nint _ (fun n => ∑ i in Finset.range el.neln,
        nodeVec i
          ⟨el.H n i * ((((tangents el r n).2.1.cross (tangents el r n).2.2).scale
              (tangents el r n).1).scale (el.gw n)).x,
           el.H n i * ((((tangents el r n).2.1.cross (tangents el r n).2.2).scale
              (tangents el r n).1).scale (el.gw n)).y,
           el.H n i * ((((tangents el r n).2.1.cross (tangents el r n).2.2).scale
              (tangents el r n).1).scale (el.gw n)).z⟩)]
  intro n s
  rw [forLoop_add el.neln _ (fun i => nodeVec i
          ⟨el.H n i * ((((tangents el r n).2.1.cross (tangents el r n).2.2).scale
              (tangents el r n).1).scale (el.gw n)).x,
           el.H n i * ((((tangents el r n).2.1.cross (tangents el r n).2.2).scale
              (tangents el r n).1).scale (el.gw n)).y,
           el.H n i * ((((tangents el r n).2.1.cross (tangents el r n).2.2).scale
              (tangents el r n).1).scale (el.gw n)).z⟩)]
  intro i s
  exact nodeUpdate_eq _ _ _ _

/-- Entry `3q+a` of the vector produced by `PressureForce`. -/
theorem PressureForce_entry (el : FESurfaceElement R) (fe : dvector R) (q : Nat) (a : Fin 3) :
    (PressureForce el fe).2 (3 * q + a)
      = ∑ n in Finset.range el.nint, ∑ i in Finset.range el.neln,
          if q = i then
            el.H n i * ((((tangents el el.rt n).2.1.cross (tangents el el.rt n).2.2).scale
              (tangents el el.rt n).1).scale (el.gw n)).comp a
          else 0 := by
  have h1 : (3 * q + (a : Nat)) / 3 = q := by omega
  have h2 : (3 * q + (a : Nat)) % 3 = a := by omega
  unfold PressureForce
  simp only []
  rw [force_loop el el.rt]
  have : dvector.zero fe = 0 := rfl
  rw [this, zero_add]
  simp only [Finset.sum_apply, nodeVec, h1, h2]
  refine Finset.sum_congr rfl fun n _ => Finset.sum_congr rfl fun i _ => ?_
  fin_cases a <;> simp [vec3d.comp]

end FEPressureSurface

namespace FEPressureSurface

variable {R : Type} [Field R]

/-- C6. `LinearPressureForce` is `PressureForce` evaluated on the reference configuration:
it returns what `PressureForce` returns on the element whose current coordinates `rt` are
replaced by `r0`; in particular the two agree whenever `rt = r0`. -/
theorem LinearPressureForce_eq_PressureForce_reference (el : FESurfaceElement R)
    (fe : dvector R) :
    LinearPressureForce el fe = PressureForce { el with rt := el.r0 } fe ∧
    (el.rt = el.r0 → LinearPressureForce el fe = PressureForce el fe) := by
  refine ⟨rfl, fun h => ?_⟩
  have e : el = { el with rt := el.r0 } := by
    cases el
    simp only at h
    subst h
    rfl
  conv_rhs => rw [e]
  rfl

/-- C6, at the triangle `tri3`, whose current and reference coordinates coincide. -/
theorem LinearPressureForce_eq_PressureForce_reference_witness :
    (tri3 ℚ).rt = (tri3 ℚ).r0 ∧
    LinearPressureForce (tri3 ℚ) (fun _ => 0) = PressureForce (tri3 ℚ) (fun _ => 0) :=
  ⟨rfl, (LinearPressureForce_eq_PressureForce_reference (tri3 ℚ) (fun _ => 0)).2 rfl⟩

theorem quad4G4_tangents [CharZero R] (g : R) (x0 u v : vec3d R) (n : Nat) (hn : n < 4) :
    tangents (quad4G4 g (squareCorners x0 u v) (fun _ => 1)) (squareCorners x0 u v) n
      = (1, u.scale (1 / 2), v.scale (1 / 2)) := by
  rw [tangents_eq]
  interval_cases n <;>
    simp [quad4G4, squareCorners, Finset.sum_range_succ, vec3d.add, vec3d.scale] <;>
    refine ⟨?_, ⟨?_, ?_, ?_⟩, ?_, ?_, ?_⟩ <;> ring

/-- C5. On the 4-node quadrilateral (bilinear shape functions, 2×2 Gauss rule) whose
current nodal coordinates are the corners of a planar unit square (`u`, `v` orthonormal)
and whose nodal pressures are all 1, `PressureForce` returns true and writes at every node
`i` the same force vector `(u × v)/4`; this vector is the surface normal `dxr × dxs` of
every integration point, and its magnitude is `1/4` (its square is `(1/4)²`). -/
theorem PressureForce_unit_square [CharZero R] (g : R) (x0 u v : vec3d R) (fe : dvector R)
    (hu : u.dot u = 1) (hv : v.dot v = 1) (huv : u.dot v = 0) (i : Fin 4) :
    (PressureForce (quad4G4 g (squareCorners x0 u v) (fun _ => 1)) fe).1 = true ∧
    (∀ a : Fin 3,
      (PressureForce (quad4G4 g (squareCorners x0 u v) (fun _ => 1)) fe).2 (3 * i + a)
        = ((u.cross v).scale (1 / 4)).comp a) ∧
    (∀ n : Fin 4,
      (tangents (quad4G4 g (squareCorners x0 u v) (fun _ => 1)) (squareCorners x0 u v) n).2.1.cross
        (tangents (quad4G4 g (squareCorners x0 u v) (fun _ => 1)) (squareCorners x0 u v) n).2.2
        = (u.cross v).scale (1 / 4)) ∧
    ((u.cross v).scale (1 / 4)).dot ((u.cross v).scale (1 / 4)) = (1 / 4) ^ 2 := by
  refine ⟨rfl, ?_, ?_, ?_⟩
  · intro a
    rw [PressureForce_entry]
    have hrt : (quad4G4 g (squareCorners x0 u v) (fun _ => 1)).rt = squareCorners x0 u v := rfl
    have hnint : (quad4G4 g (squareCorners x0 u v) (fun _ => (1 : R))).nint = 4 := rfl
    have hneln : (quad4G4 g (squareCorners x0 u v) (fun _ => (1 : R))).neln = 4 := rfl
    rw [hrt, hnint, hneln]
    simp only [Finset.sum_range_succ, Finset.sum_range_zero, zero_add]
    rw [quad4G4_tangents g x0 u v 0 (by norm_num), quad4G4_tangents g x0 u v 1 (by norm_num),
      quad4G4_tangents g x0 u v 2 (by norm_num), quad4G4_tangents g x0 u v 3 (by norm_num)]
    fin_cases i <;> fin_cases a <;>
      simp [quad4G4, vec3d.cross, vec3d.scale, vec3d.comp] <;> ring
  · intro n
    rw [quad4G4_tangents g x0 u v n n.2]
    simp only [vec3d.cross, vec3d.scale, vec3d.mk.injEq]
    refine ⟨?_, ?_, ?_⟩ <;> ring
  · simp only [vec3d.dot, vec3d.cross, vec3d.scale] at *
    linear_combination (1 / 16) * (u.x * u.x + u.y * u.y + u.z * u.z) * hv + (1 / 16) * hu
      - (1 / 16) * (u.x * v.x + u.y * v.y + u.z * v.z) * huv

end FEPressureSurface

namespace FEPressureSurface

/-- C5, at the unit square with corners `(0,0,0)`, `(1,0,0)`, `(1,1,0)`, `(0,1,0)`: the
force at node 0 is `(0, 0, 1/4)`. -/
theorem PressureForce_unit_square_witness :
    (⟨1, 0, 0⟩ : vec3d ℚ).dot ⟨1, 0, 0⟩ = 1 ∧ (⟨0, 1, 0⟩ : vec3d ℚ).dot ⟨0, 1, 0⟩ = 1 ∧
    (⟨1, 0, 0⟩ : vec3d ℚ).dot ⟨0, 1, 0⟩ = 0 ∧
    (PressureForce (quad4G4 (1 / 2) (squareCorners ⟨0, 0, 0⟩ ⟨1, 0, 0⟩ ⟨0, 1, 0⟩)
      (fun _ => (1 : ℚ))) (fun _ => 0)).1 = true ∧
    (∀ a : Fin 3,
      (PressureForce (quad4G4 (1 / 2) (squareCorners ⟨0, 0, 0⟩ ⟨1, 0, 0⟩ ⟨0, 1, 0⟩)
        (fun _ => (1 : ℚ))) (fun _ => 0)).2 (3 * (0 : Fin 4) + a)
        = (((⟨1, 0, 0⟩ : vec3d ℚ).cross ⟨0, 1, 0⟩).scale (1 / 4)).comp a) :=
  have h := PressureForce_unit_square (1 / 2 : ℚ) ⟨0, 0, 0⟩ ⟨1, 0, 0⟩ ⟨0, 1, 0⟩ (fun _ => 0)
    (by norm_num [vec3d.dot]) (by norm_num [vec3d.dot]) (by norm_num [vec3d.dot]) 0
  ⟨by norm_num [vec3d.dot], by norm_num [vec3d.dot], by norm_num [vec3d.dot], h.1, h.2.1⟩

end FEPressureSurface

namespace FEPressureSurface

variable {R : Type} [Field R]

theorem sum_range_ite_eq (N q : Nat) (F : Nat → R) :
    (∑ i in Finset.range N, if q = i then F i else 0) = if q < N then F q else 0 := by
  rw [Finset.sum_ite_eq]
  simp only [Finset.mem_range]

theorem sum_shift_x (N j : Nat) (G : Nat → R) (r : Nat → vec3d R) (b : Fin 3) (t : R) :
    (∑ i in Finset.range N, G i * (if i = j then (r i).shift b t else r i).x)
      = (∑ i in Finset.range N, G i * (r i).x)
        + t * ((vec3d.unit b : vec3d R).x * if j < N then G j else 0) := by
  have e : ∀ i, G i * (if i = j then (r i).shift b t else r i).x
      = G i * (r i).x + if j = i then t * ((vec3d.unit b : vec3d R).x * G i) else 0 := by
    intro i
    by_cases h : i = j
    · subst h
      fin_cases b <;> simp [vec3d.shift, vec3d.unit, mul_add, mul_comm]
    · rw [if_neg h, if_neg (fun h' : j = i => h h'.symm), add_zero]
  simp only [e, Finset.sum_add_distrib, sum_range_ite_eq]
  split_ifs <;> simp

theorem sum_shift_y (N j : Nat) (G : Nat → R) (r : Nat → vec3d R) (b : Fin 3) (t : R) :
    (∑ i in Finset.range N, G i * (if i = j then (r i).shift b t else r i).y)
      = (∑ i in Finset.range N, G i * (r i).y)
        + t * ((vec3d.unit b : vec3d R).y * if j < N then G j else 0) := by
  have e : ∀ i, G i * (if i = j then (r i).shift b t else r i).y
      = G i * (r i).y + if j = i then t * ((vec3d.unit b : vec3d R).y * G i) else 0 := by
    intro i
    by_cases h : i = j
    · subst h
      fin_cases b <;> simp [vec3d.shift, vec3d.unit, mul_add, mul_comm]
    · rw [if_neg h, if_neg (fun h' : j = i => h h'.symm), add_zero]
  simp only [e, Finset.sum_add_distrib, sum_range_ite_eq]
  split_ifs <;> simp

theorem sum_shift_z (N j : Nat) (G : Nat → R) (r : Nat → vec3d R) (b : Fin 3) (t : R) :
    (∑ i in Finset.range N, G i * (if i = j then (r i).shift b t else r i).z)
      = (∑ i in Finset.range N, G i * (r i).z)
        + t * ((vec3d.unit b : vec3d R).z * if j < N then G j else 0) := by
  have e : ∀ i, G i * (if i = j then (r i).shift b t else r i).z
      = G i * (r i).z + if j = i then t * ((vec3d.unit b : vec3d R).z * G i) else 0 := by
    intro i
    by_cases h : i = j
    · subst h
      fin_cases b <;> simp [vec3d.shift, vec3d.unit, mul_add, mul_comm]
    · rw [if_neg h, if_neg (fun h' : j = i => h h'.symm), add_zero]
  simp only [e, Finset.sum_add_distrib, sum_range_ite_eq]
  split_ifs <;> simp

/-- The interpolated pressure and the tangent vectors of the element with node `j` moved
by `t` in direction `b`. -/
theorem tangents_moveNode (el : FESurfaceElement R) (j : Nat) (b : Fin 3) (t : R) (n : Nat) :
    tangents (moveNode el j b t) (moveNode el j b t).rt n
      = ((tangents el el.rt n).1,
         (tangents el el.rt n).2.1.add (((vec3d.unit b).scale (nodeCoef el el.Gr n j)).scale t),
         (tangents el el.rt n).2.2.add (((vec3d.unit b).scale (nodeCoef el el.Gs n j)).scale t)) := by
  rw [tangents_eq, tangents_eq]
  simp only [moveNode, sum_shift_x, sum_shift_y, sum_shift_z, vec3d.add, vec3d.scale, nodeCoef]
  refine Prod.ext rfl (Prod.ext ?_ ?_)
  · simp only [vec3d.mk.injEq]
    refine ⟨?_, ?_, ?_⟩ <;> ring
  · simp only [vec3d.mk.injEq]
    refine ⟨?_, ?_, ?_⟩ <;> ring

/-- The vector produced by `PressureForce` is affine in a single nodal coordinate, with
slope `forceDeriv`. -/
theorem PressureForce_moveNode (el : FESurfaceElement R) (fe : dvector R) (q : Nat)
    (a : Fin 3) (j : Nat) (b : Fin 3) (t : R) :
    (PressureForce (moveNode el j b t) fe).2 (3 * q + a)
      = (PressureForce el fe).2 (3 * q + a) + t * forceDeriv el q a j b := by
  rw [PressureForce_entry, PressureForce_entry, forceDeriv, Finset.mul_sum,
    ← Finset.sum_add_distrib]
  have hn : (moveNode el j b t).nint = el.nint := rfl
  have hm : (moveNode el j b t).neln = el.neln := rfl
  have hH : (moveNode el j b t).H = el.H := rfl
  have hw : (moveNode el j b t).gw = el.gw := rfl
  rw [hn, hm, hH, hw]
  refine Finset.sum_congr rfl fun n _ => ?_
  rw [tangents_moveNode, sum_range_ite_eq, sum_range_ite_eq]
  by_cases hq : q < el.neln
  · simp only [if_pos hq]
    fin_cases a <;> fin_cases b <;>
      simp [vec3d.comp, vec3d.cross, vec3d.scale, vec3d.add, vec3d.unit] <;> ring
  · simp [if_neg hq]

end FEPressureSurface

namespace FEPressureSurface

variable {R : Type} [Field R]

theorem gaussPressure_eq (el : FESurfaceElement R) (n : Nat) :
    gaussPressure el n = (tangents el el.rt n).1 := by
  rw [tangents_eq, gaussPressure, forLoop_add el.neln _ (fun i => el.H n i * el.pt i)
    (fun _ _ => rfl), zero_add]

theorem jacobian_loop (el : FESurfaceElement R) (n m : Nat) :
    forLoop m
      (fun i (J : Jac R) =>
        ({ j00 := J.j00 + el.Gr n i * (el.rt i).x, j01 := J.j01 + el.Gs n i * (el.rt i).x,
           j10 := J.j10 + el.Gr n i * (el.rt i).y, j11 := J.j11 + el.Gs n i * (el.rt i).y,
           j20 := J.j20 + el.Gr n i * (el.rt i).z,
           j21 := J.j21 + el.Gs n i * (el.rt i).z } : Jac R))
      ⟨0, 0, 0, 0, 0, 0⟩
    = ⟨∑ i in Finset.range m, el.Gr n i * (el.rt i).x,
       ∑ i in Finset.range m, el.Gs n i * (el.rt i).x,
       ∑ i in Finset.range m, el.Gr n i * (el.rt i).y,
       ∑ i in Finset.range m, el.Gs n i * (el.rt i).y,
       ∑ i in Finset.range m, el.Gr n i * (el.rt i).z,
       ∑ i in Finset.range m, el.Gs n i * (el.rt i).z⟩ := by
  induction m with
  | zero => simp [forLoop_zero]
  | succ m ih => rw [forLoop_succ, ih]; simp only [Finset.sum_range_succ]

theorem jacobian_eq (el : FESurfaceElement R) (n : Nat) :
    jacobian el n
      = ⟨(tangents el el.rt n).2.1.x, (tangents el el.rt n).2.2.x,
         (tangents el el.rt n).2.1.y, (tangents el el.rt n).2.2.y,
         (tangents el el.rt n).2.1.z, (tangents el el.rt n).2.2.z⟩ := by
  rw [tangents_eq]
  exact jacobian_loop el n el.neln

theorem sum_range_ite_and (N q q' : Nat) (F : Nat → Nat → R) :
    (∑ i in Finset.range N, ∑ j in Finset.range N, if q = i ∧ q' = j then F i j else 0)
      = if q < N ∧ q' < N then F q q' else 0 := by
  have e : ∀ i, (∑ j in Finset.range N, if q = i ∧ q' = j then F i j else 0)
      = if q = i then (if q' < N then F i q' else 0) else 0 := by
    intro i
    by_cases h : q = i
    · simp only [h, true_and, if_true]
      exact sum_range_ite_eq N q' (F i)
    · simp [h]
  simp only [e]
  rw [sum_range_ite_eq N q (fun i => if q' < N then F i q' else 0)]
  by_cases h1 : q < N <;> by_cases h2 : q' < N <;> simp [h1, h2]

/-- The matrix produced by `PressureStiffness` is the symmetric part of the matrix of the
coefficients `forceDeriv`. -/
theorem PressureStiffness_eq_forceDeriv (el : FESurfaceElement R) (ke : matrix R)
    (q q' : Nat) (a b : Fin 3) :
    PressureStiffness el ke (3 * q + a) (3 * q' + b)
      = (forceDeriv el q a q' b + forceDeriv el q' b q a) / 2 := by
  rw [PressureStiffness_entry el ke q q' a b a.2 b.2, forceDeriv, forceDeriv,
    ← Finset.sum_add_distrib, Finset.sum_div]
  refine Finset.sum_congr rfl fun n _ => ?_
  rw [sum_range_ite_and el.neln q q'
    (fun i j => blockEntry (kab el n (gaussPressure el n) (jacobian el n) i j) a b),
    gaussPressure_eq, jacobian_eq]
  by_cases h1 : q < el.neln <;> by_cases h2 : q' < el.neln
  · simp only [h1, h2, and_self, if_true, nodeCoef]
    fin_cases a <;> fin_cases b <;>
      simp [blockEntry, kab, vec3d.comp, vec3d.cross, vec3d.scale, vec3d.add, vec3d.unit] <;>
      ring
  · fin_cases a <;> fin_cases b <;>
      simp [h1, h2, nodeCoef, vec3d.comp, vec3d.cross, vec3d.scale, vec3d.add, vec3d.unit]
  · fin_cases a <;> fin_cases b <;>
      simp [h1, h2, nodeCoef, vec3d.comp, vec3d.cross, vec3d.scale, vec3d.add, vec3d.unit]
  · simp [h1, h2]

end FEPressureSurface

namespace FEPressureSurface

/-- The entry `fe[3q+a]` of `PressureForce`, as a function of component `b` of the current
position of node `j`, has the derivative `forceDeriv el q a j b`. -/
theorem PressureForce_hasDerivAt (el : FESurfaceElement ℝ) (fe : dvector ℝ) (q : Nat)
    (a : Fin 3) (j : Nat) (b : Fin 3) :
    HasDerivAt (fun t => (PressureForce (moveNode el j b t) fe).2 (3 * q + a))
      (forceDeriv el q a j b) 0 := by
  have e : (fun t => (PressureForce (moveNode el j b t) fe).2 (3 * q + a))
      = fun t => (PressureForce el fe).2 (3 * q + a) + t * forceDeriv el q a j b := by
    funext t
    exact PressureForce_moveNode el fe q a j b t
  rw [e]
  have h := ((hasDerivAt_id (0 : ℝ)).mul_const (forceDeriv el q a j b)).const_add
    ((PressureForce el fe).2 (3 * q + a))
  simpa using h

/-- C4 (amended). `PressureStiffness` is the symmetric part of the derivative of the
nonlinear pressure force with respect to the nodal positions: with `D1` the partial
derivative of `fe[3i+a]` with respect to component `b` of the current position of node `j`
and `D2` that of `fe[3j+b]` with respect to component `a` of node `i` (nodal pressures
fixed), `ke[3i+a][3j+b] = (D1 + D2)/2`. -/
theorem PressureStiffness_eq_sym_deriv (el : FESurfaceElement ℝ) (ke : matrix ℝ)
    (fe : dvector ℝ) (i j : Nat) (a b : Fin 3) :
    ∃ D1 D2 : ℝ,
      HasDerivAt (fun t => (PressureForce (moveNode el j b t) fe).2 (3 * i + a)) D1 0 ∧
      HasDerivAt (fun t => (PressureForce (moveNode el i a t) fe).2 (3 * j + b)) D2 0 ∧
      PressureStiffness el ke (3 * i + a) (3 * j + b) = (D1 + D2) / 2 :=
  ⟨forceDeriv el i a j b, forceDeriv el j b i a, PressureForce_hasDerivAt el fe i a j b,
    PressureForce_hasDerivAt el fe j b i a, PressureStiffness_eq_forceDeriv el ke i j a b⟩

theorem forceDeriv_tri3 : forceDeriv (tri3 ℝ) 0 0 0 2 = 1 / 6 := by
  simp [forceDeriv, tangents_eq, tri3, nodeCoef, Finset.sum_range_succ, vec3d.comp,
    vec3d.cross, vec3d.scale, vec3d.add, vec3d.unit]
  norm_num

/-- C4 (as stated, refuted). On the triangle `tri3` the derivative of `fe[0]` with respect
to the `z` coordinate of node 0 is `1/6`, while `ke[0][2]` is 0: with neither sign is
`ke` the matrix of the partial derivatives of the pressure force. -/
theorem PressureStiffness_not_force_derivative :
    HasDerivAt
      (fun t => (PressureForce (moveNode (tri3 ℝ) 0 2 t) (fun _ => 0)).2
        (3 * 0 + (0 : Fin 3))) (1 / 6) 0 ∧
    PressureStiffness (tri3 ℝ) (fun _ => 0) (3 * 0 + (0 : Fin 3)) (3 * 0 + (2 : Fin 3)) = 0 ∧
    ¬ ∃ σ : ℝ, (σ = 1 ∨ σ = -1) ∧ ∀ (i j : Nat) (a b : Fin 3),
      HasDerivAt (fun t => (PressureForce (moveNode (tri3 ℝ) j b t) (fun _ => 0)).2
        (3 * i + a))
        (σ * PressureStiffness (tri3 ℝ) (fun _ => 0) (3 * i + a) (3 * j + b)) 0 := by
  have hD := PressureForce_hasDerivAt (tri3 ℝ) (fun _ => 0) 0 0 0 2
  rw [forceDeriv_tri3] at hD
  have hK : PressureStiffness (tri3 ℝ) (fun _ => 0) (3 * 0 + (0 : Fin 3))
      (3 * 0 + (2 : Fin 3)) = 0 := by
    rw [PressureStiffness_entry _ _ _ _ _ _ (0 : Fin 3).2 (2 : Fin 3).2]
    refine Finset.sum_eq_zero fun n _ => Finset.sum_eq_zero fun i' _ =>
      Finset.sum_eq_zero fun j' _ => ?_
    split_ifs with h
    · obtain ⟨h1, h2⟩ := h
      subst h1
      subst h2
      rw [kab_self]
      simp [blockEntry]
    · rfl
  refine ⟨hD, hK, ?_⟩
  rintro ⟨σ, -, h⟩
  have h0 := h 0 0 0 2
  rw [hK, mul_zero] at h0
  have := h0.unique hD
  norm_num at this

end FEPressureSurface

/-! ## Reactive plasticity: lemmas -/

theorem getD_set_eq {α : Type} (l : List α) (i : Nat) (a d : α) (h : i < l.length) :
    (l.set i a).getD i d = a := by
  simp [List.getD_eq_getElem?_getD, List.getElem?_set, h]

theorem getD_set_ne {α : Type} (l : List α) (i j : Nat) (a d : α) (h : j ≠ i) :
    (l.set i a).getD j d = l.getD j d := by
  simp [List.getD_eq_getElem?_getD, List.getElem?_set, h.symm]

namespace FEReactivePlasticity

variable {R T : Type} [LinearOrderedField R]

theorem LevelFrame.refl (i : Nat) (p : FEReactivePlasticityMaterialPoint R) :
    LevelFrame i p p :=
  ⟨rfl, rfl, rfl, rfl, rfl, rfl, fun _ _ => ⟨rfl, rfl, rfl⟩⟩

theorem LevelFrame.trans {i : Nat} {p q r : FEReactivePlasticityMaterialPoint R}
    (h1 : LevelFrame i p q) (h2 : LevelFrame i q r) : LevelFrame i p r := by
  obtain ⟨a1, a2, a3, a4, a5, a6, a7⟩ := h1
  obtain ⟨b1, b2, b3, b4, b5, b6, b7⟩ := h2
  refine ⟨b1.trans a1, b2.trans a2, b3.trans a3, b4.trans a4, b5.trans a5, b6.trans a6,
    fun j hj => ?_⟩
  obtain ⟨c1, c2, c3⟩ := a7 j hj
  obtain ⟨d1, d2, d3⟩ := b7 j hj
  exact ⟨d1.trans c1, d2.trans c2, d3.trans c3⟩

theorem LevelFrame.setKv (i : Nat) (pt : FEMaterialPoint R) (v : R) :
    LevelFrame i pt.pp (pt.setKv i v).pp :=
  ⟨rfl, rfl, rfl, List.length_set _ _ _, rfl, rfl,
    fun _ hj => ⟨getD_set_ne _ _ _ _ _ hj, rfl, rfl⟩⟩

theorem LevelFrame.setFvsi (i : Nat) (pt : FEMaterialPoint R) (A : mat3d R) :
    LevelFrame i pt.pp (pt.setFvsi i A).pp :=
  ⟨rfl, rfl, rfl, rfl, List.length_set _ _ _, rfl,
    fun _ hj => ⟨rfl, getD_set_ne _ _ _ _ _ hj, rfl⟩⟩

theorem LevelFrame.setw (i : Nat) (pt : FEMaterialPoint R) (v : R) :
    LevelFrame i pt.pp (pt.setw i v).pp :=
  ⟨rfl, rfl, rfl, rfl, rfl, List.length_set _ _ _,
    fun _ hj => ⟨rfl, rfl, getD_set_ne _ _ _ _ _ hj⟩⟩

theorem newtonStep_iter (mat : FEReactivePlasticity R T) (eps : R) (i : Nat) (Fe : mat3d R)
    (s : NewtonState R) : (newtonStep mat eps i Fe s).iter = s.iter := rfl

/-- A Newton step changes, of the plasticity point, only `m_Kv[i]`. -/
theorem newtonStep_pp (mat : FEReactivePlasticity R T) (eps : R) (i : Nat) (Fe : mat3d R)
    (s : NewtonState R) :
    (newtonStep mat eps i Fe s).pt.pp
      = ((s.pt.setF s.Fv s.Fv.det).setKv i
          (mat.m_pCrit.DamageCriterion (s.pt.setF s.Fv s.Fv.det))).pp := rfl

/-- The loop `while (!conv)` changes, of the plasticity point, only `m_Kv[i]`. -/
theorem newtonLoop_frame (mat : FEReactivePlasticity R T) (eps : R) (i : Nat) (Fe : mat3d R)
    (fuel : Nat) (s : NewtonState R) :
    LevelFrame i s.pt.pp (newtonLoop mat eps i Fe fuel s).pt.pp ∧
    (newtonLoop mat eps i Fe fuel s).pt.pp.m_Fvsi = s.pt.pp.m_Fvsi ∧
    (newtonLoop mat eps i Fe fuel s).pt.pp.m_w = s.pt.pp.m_w := by
  induction fuel generalizing s with
  | zero => exact ⟨LevelFrame.refl _ _, rfl, rfl⟩
  | succ fuel ih =>
    rw [newtonLoop]
    dsimp only
    split_ifs
    · exact ⟨LevelFrame.refl _ _, rfl, rfl⟩
    · exact ⟨LevelFrame.refl _ _, rfl, rfl⟩
    · obtain ⟨f1, f2, f3⟩ := ih (newtonStep mat eps i Fe { s with iter := s.iter + 1 })
      refine ⟨LevelFrame.trans ?_ f1, f2.trans ?_, f3.trans ?_⟩
      · rw [newtonStep_pp]
        exact LevelFrame.setKv i ({ s with iter := s.iter + 1 }.pt.setF _ _) _
      · rfl
      · rfl

end FEReactivePlasticity

namespace FEReactivePlasticity

variable {R T : Type} [LinearOrderedField R]

/-- The body of the level loop, in terms of its stages. -/
theorem levelUpdate_eq (mat : FEReactivePlasticity R T) (eps : R) (i : Nat)
    (pt : FEMaterialPoint R) :
    mat.levelUpdate eps i pt
      = if (mat.trialPoint i pt).pp.m_Kv.getD i 0 - mat.Ky.getD i 0 ≤ eps * mat.Ky.getD i 0 then
          (mat.trialPoint i pt).setFvsi i ((mat.trialPoint i pt).pp.m_Fusi.getD i 0)
        else if (mat.levelNewton eps i pt).iter > mat.m_itmax then
          (mat.exitPoint eps i pt).setFvsi i ((mat.exitPoint eps i pt).pp.m_Fusi.getD i 0)
        else
          ((mat.exitPoint eps i pt).setFvsi i
            (mat3d.inverse pt.pe.m_F * (mat.levelNewton eps i pt).Fv)).setKv i
            (mat.Ky.getD i 0) := rfl

theorem trialPoint_eq (mat : FEReactivePlasticity R T) (i : Nat) (pt : FEMaterialPoint R) :
    mat.trialPoint i pt = pt.setKv i (mat.trialKv i pt) := rfl

theorem latchPoint_pe (mat : FEReactivePlasticity R T) (eps : R) (i : Nat)
    (pt : FEMaterialPoint R) : (mat.latchPoint eps i pt).pe = pt.pe := by
  unfold latchPoint
  dsimp only
  split_ifs <;> rfl

theorem latchPoint_frame (mat : FEReactivePlasticity R T) (eps : R) (i : Nat)
    (pt : FEMaterialPoint R) : LevelFrame i pt.pp (mat.latchPoint eps i pt).pp := by
  unfold latchPoint
  dsimp only
  split_ifs
  · exact LevelFrame.trans (LevelFrame.setKv i pt _) (LevelFrame.setw i _ _)
  · exact LevelFrame.setKv i pt _

theorem latchPoint_Fvsi (mat : FEReactivePlasticity R T) (eps : R) (i : Nat)
    (pt : FEMaterialPoint R) : (mat.latchPoint eps i pt).pp.m_Fvsi = pt.pp.m_Fvsi := by
  unfold latchPoint
  dsimp only
  split_ifs <;> rfl

theorem exitPoint_pe (mat : FEReactivePlasticity R T) (eps : R) (i : Nat)
    (pt : FEMaterialPoint R) : (mat.exitPoint eps i pt).pe = pt.pe := by
  have h := latchPoint_pe mat eps i pt
  show (⟨(mat.latchPoint eps i pt).pe.m_F, (mat.latchPoint eps i pt).pe.m_J⟩ :
    FEElasticMaterialPoint R) = pt.pe
  rw [h]

theorem exitPoint_frame (mat : FEReactivePlasticity R T) (eps : R) (i : Nat)
    (pt : FEMaterialPoint R) : LevelFrame i pt.pp (mat.exitPoint eps i pt).pp := by
  have h := (newtonLoop_frame mat eps i (pt.pe.m_F * pt.pp.m_Fusi.getD i 0) (mat.m_itmax + 1)
    { pt := (mat.latchPoint eps i pt).setF (pt.pe.m_F * pt.pp.m_Fusi.getD i 0)
        (pt.pe.m_F * pt.pp.m_Fusi.getD i 0).det,
      conv := false, iter := 0, lam := 0, Fv := pt.pe.m_F * pt.pp.m_Fusi.getD i 0, beta := 1,
      ImN := 1,
      phi := (mat.trialPoint i pt).pp.m_Kv.getD i 0 - mat.Ky.getD i 0 }).1
  exact LevelFrame.trans (LevelFrame.trans (latchPoint_frame mat eps i pt) h)
    (LevelFrame.setKv i ((mat.levelNewton eps i pt).pt.setF _ _) _)

theorem exitPoint_Fvsi (mat : FEReactivePlasticity R T) (eps : R) (i : Nat)
    (pt : FEMaterialPoint R) : (mat.exitPoint eps i pt).pp.m_Fvsi = pt.pp.m_Fvsi := by
  have h := (newtonLoop_frame mat eps i (pt.pe.m_F * pt.pp.m_Fusi.getD i 0) (mat.m_itmax + 1)
    { pt := (mat.latchPoint eps i pt).setF (pt.pe.m_F * pt.pp.m_Fusi.getD i 0)
        (pt.pe.m_F * pt.pp.m_Fusi.getD i 0).det,
      conv := false, iter := 0, lam := 0, Fv := pt.pe.m_F * pt.pp.m_Fusi.getD i 0, beta := 1,
      ImN := 1,
      phi := (mat.trialPoint i pt).pp.m_Kv.getD i 0 - mat.Ky.getD i 0 }).2.1
  exact h.trans (latchPoint_Fvsi mat eps i pt)

/-- A level restores the elastic point. -/
theorem levelUpdate_pe (mat : FEReactivePlasticity R T) (eps : R) (i : Nat)
    (pt : FEMaterialPoint R) : (mat.levelUpdate eps i pt).pe = pt.pe := by
  rw [levelUpdate_eq]
  split_ifs
  · rfl
  · exact exitPoint_pe mat eps i pt
  · exact exitPoint_pe mat eps i pt

/-- Level `i` changes, of the plasticity point, only its own entries of `m_Kv`, `m_Fvsi`
and `m_w`. -/
theorem levelUpdate_frame (mat : FEReactivePlasticity R T) (eps : R) (i : Nat)
    (pt : FEMaterialPoint R) : LevelFrame i pt.pp (mat.levelUpdate eps i pt).pp := by
  rw [levelUpdate_eq]
  split_ifs
  · exact LevelFrame.trans (LevelFrame.setKv i pt _) (LevelFrame.setFvsi i _ _)
  · exact LevelFrame.trans (exitPoint_frame mat eps i pt) (LevelFrame.setFvsi i _ _)
  · exact LevelFrame.trans (LevelFrame.trans (exitPoint_frame mat eps i pt)
      (LevelFrame.setFvsi i _ _)) (LevelFrame.setKv i _ _)

end FEReactivePlasticity

theorem forLoop_split {σ : Type} (n i : Nat) (h : i < n) (body : Nat → σ → σ) (s : σ) :
    forLoop n body s
      = FEReactivePlasticity.forRange (i + 1) n body (body i (forLoop i body s)) := by
  have e : List.range n = List.range (i + 1) ++ List.range' (i + 1) (n - (i + 1)) := by
    have h1 := List.range'_append_1 0 (i + 1) (n - (i + 1))
    rw [Nat.zero_add] at h1
    rw [List.range_eq_range', List.range_eq_range', h1]
    congr 1
    omega
  rw [show body i (forLoop i body s) = forLoop (i + 1) body s from (forLoop_succ i body s).symm]
  unfold forLoop FEReactivePlasticity.forRange
  rw [e, List.foldl_append]

namespace FEReactivePlasticity

variable {R T : Type} [LinearOrderedField R]

/-- The loop over the yield levels restores the elastic point. -/
theorem levels_pe (mat : FEReactivePlasticity R T) (eps : R) (n : Nat)
    (pt : FEMaterialPoint R) :
    (forLoop n (fun i pt => mat.levelUpdate eps i pt) pt).pe = pt.pe := by
  induction n with
  | zero => rfl
  | succ n ih => rw [forLoop_succ, levelUpdate_pe, ih]

/-- The loop over the first `n` yield levels keeps `m_Fusi`, `m_Ku`, `m_gp` and the sizes
of the vectors, and the entries of the levels `j ≥ n`. -/
theorem levels_frame (mat : FEReactivePlasticity R T) (eps : R) (n : Nat)
    (pt : FEMaterialPoint R) :
    (forLoop n (fun i pt => mat.levelUpdate eps i pt) pt).pp.m_Fusi = pt.pp.m_Fusi ∧
    (forLoop n (fun i pt => mat.levelUpdate eps i pt) pt).pp.m_Ku = pt.pp.m_Ku ∧
    (forLoop n (fun i pt => mat.levelUpdate eps i pt) pt).pp.m_gp = pt.pp.m_gp ∧
    (forLoop n (fun i pt => mat.levelUpdate eps i pt) pt).pp.m_Kv.length
      = pt.pp.m_Kv.length ∧
    (forLoop n (fun i pt => mat.levelUpdate eps i pt) pt).pp.m_Fvsi.length
      = pt.pp.m_Fvsi.length ∧
    (forLoop n (fun i pt => mat.levelUpdate eps i pt) pt).pp.m_w.length
      = pt.pp.m_w.length := by
  induction n with
  | zero => exact ⟨rfl, rfl, rfl, rfl, rfl, rfl⟩
  | succ n ih =>
    rw [forLoop_succ]
    obtain ⟨a1, a2, a3, a4, a5, a6, -⟩ := levelUpdate_frame mat eps n
      (forLoop n (fun i pt => mat.levelUpdate eps i pt) pt)
    obtain ⟨b1, b2, b3, b4, b5, b6⟩ := ih
    exact ⟨a1.trans b1, a2.trans b2, a3.trans b3, a4.trans b4, a5.trans b5, a6.trans b6⟩

/-- The entries of level `i` after the loop over `n > i` levels are those written by
level `i`. -/
theorem levels_entry (mat : FEReactivePlasticity R T) (eps : R) (n i : Nat) (h : i < n)
    (pt : FEMaterialPoint R) :
    (forLoop n (fun i pt => mat.levelUpdate eps i pt) pt).pp.m_Kv.getD i 0
      = (mat.levelUpdate eps i
          (forLoop i (fun i pt => mat.levelUpdate eps i pt) pt)).pp.m_Kv.getD i 0 ∧
    (forLoop n (fun i pt => mat.levelUpdate eps i pt) pt).pp.m_Fvsi.getD i 0
      = (mat.levelUpdate eps i
          (forLoop i (fun i pt => mat.levelUpdate eps i pt) pt)).pp.m_Fvsi.getD i 0 ∧
    (forLoop n (fun i pt => mat.levelUpdate eps i pt) pt).pp.m_w.getD i 0
      = (mat.levelUpdate eps i
          (forLoop i (fun i pt => mat.levelUpdate eps i pt) pt)).pp.m_w.getD i 0 := by
  induction n with
  | zero => omega
  | succ n ih =>
    rw [forLoop_succ]
    by_cases hn : i = n
    · subst hn
      exact ⟨rfl, rfl, rfl⟩
    · obtain ⟨b1, b2, b3⟩ := ih (by omega)
      obtain ⟨-, -, -, -, -, -, a7⟩ := levelUpdate_frame mat eps n
        (forLoop n (fun i pt => mat.levelUpdate eps i pt) pt)
      obtain ⟨c1, c2, c3⟩ := a7 i hn
      exact ⟨c1.trans b1, c2.trans b2, c3.trans b3⟩

/-- `OctahedralPlasticStrain` changes only `m_gp`. -/
theorem OctahedralPlasticStrain_frame (mat : FEReactivePlasticity R T)
    (pt : FEMaterialPoint R) :
    (mat.OctahedralPlasticStrain pt).pe = pt.pe ∧
    (mat.OctahedralPlasticStrain pt).pp.m_Fusi = pt.pp.m_Fusi ∧
    (mat.OctahedralPlasticStrain pt).pp.m_Fvsi = pt.pp.m_Fvsi ∧
    (mat.OctahedralPlasticStrain pt).pp.m_Kv = pt.pp.m_Kv ∧
    (mat.OctahedralPlasticStrain pt).pp.m_Ku = pt.pp.m_Ku ∧
    (mat.OctahedralPlasticStrain pt).pp.m_w = pt.pp.m_w := by
  unfold OctahedralPlasticStrain
  generalize mat.m_n = n
  induction n with
  | zero => exact ⟨rfl, rfl, rfl, rfl, rfl, rfl⟩
  | succ n ih =>
    rw [forLoop_succ]
    exact ih

/-- The outcome of level `i`, entered at `pt`, on its own entries. -/
theorem levelUpdate_outcome (mat : FEReactivePlasticity R T) (eps : R) (i : Nat)
    (pt : FEMaterialPoint R) (hKv : i < pt.pp.m_Kv.length) (hFv : i < pt.pp.m_Fvsi.length) :
    ((mat.trialPoint i pt).pp.m_Kv.getD i 0 - mat.Ky.getD i 0 ≤ eps * mat.Ky.getD i 0 ∧
      (mat.levelUpdate eps i pt).pp.m_Kv.getD i 0 = (mat.trialPoint i pt).pp.m_Kv.getD i 0 ∧
      (mat.levelUpdate eps i pt).pp.m_Fvsi.getD i 0 = pt.pp.m_Fusi.getD i 0) ∨
    (¬ (mat.trialPoint i pt).pp.m_Kv.getD i 0 - mat.Ky.getD i 0 ≤ eps * mat.Ky.getD i 0 ∧
      (mat.levelNewton eps i pt).iter > mat.m_itmax ∧
      (mat.levelUpdate eps i pt).pp.m_Kv.getD i 0 = (mat.exitPoint eps i pt).pp.m_Kv.getD i 0 ∧
      (mat.levelUpdate eps i pt).pp.m_Fvsi.getD i 0 = pt.pp.m_Fusi.getD i 0) ∨
    (¬ (mat.trialPoint i pt).pp.m_Kv.getD i 0 - mat.Ky.getD i 0 ≤ eps * mat.Ky.getD i 0 ∧
      ¬ (mat.levelNewton eps i pt).iter > mat.m_itmax ∧
      (mat.levelUpdate eps i pt).pp.m_Kv.getD i 0 = mat.Ky.getD i 0 ∧
      (mat.levelUpdate eps i pt).pp.m_Fvsi.getD i 0
        = mat3d.inverse pt.pe.m_F * (mat.levelNewton eps i pt).Fv) := by
  obtain ⟨e1, -, -, e4, -, -, -⟩ := exitPoint_frame mat eps i pt
  have e5 := exitPoint_Fvsi mat eps i pt
  rw [levelUpdate_eq]
  split_ifs with h1 h2
  · refine Or.inl ⟨h1, rfl, ?_⟩
    exact getD_set_eq _ _ _ _ hFv
  · refine Or.inr (Or.inl ⟨h1, h2, rfl, ?_⟩)
    rw [e1]
    exact getD_set_eq _ _ _ _ (by rw [e5]; exact hFv)
  · refine Or.inr (Or.inr ⟨h1, h2, ?_, ?_⟩)
    · exact getD_set_eq _ _ _ _ (by rw [← e4] at hKv; exact hKv)
    · exact getD_set_eq _ _ _ _ (by rw [e5]; exact hFv)

end FEReactivePlasticity

namespace FEReactivePlasticity

variable {R T : Type} [LinearOrderedField R]

theorem ElasticDeformationGradient_eq (mat : FEReactivePlasticity R T)
    (pt : FEMaterialPoint R) :
    mat.ElasticDeformationGradient pt
      = mat.OctahedralPlasticStrain (mat.levelEntry mat.m_n pt) := rfl

/-- The entries of level `i` on return from `ElasticDeformationGradient` are those written
by level `i`, and `m_Fusi` is the one on entry. -/
theorem ElasticDeformationGradient_entry (mat : FEReactivePlasticity R T)
    (pt : FEMaterialPoint R) (i : Nat) (hi : i < mat.m_n) :
    (mat.ElasticDeformationGradient pt).pp.m_Kv.getD i 0
      = (mat.levelUpdate (1 / 10000) i (mat.levelEntry i pt)).pp.m_Kv.getD i 0 ∧
    (mat.ElasticDeformationGradient pt).pp.m_Fvsi.getD i 0
      = (mat.levelUpdate (1 / 10000) i (mat.levelEntry i pt)).pp.m_Fvsi.getD i 0 ∧
    (mat.ElasticDeformationGradient pt).pp.m_w.getD i 0
      = (mat.levelUpdate (1 / 10000) i (mat.levelEntry i pt)).pp.m_w.getD i 0 ∧
    (mat.ElasticDeformationGradient pt).pp.m_Fusi = pt.pp.m_Fusi ∧
    (mat.levelEntry i pt).pp.m_Fusi = pt.pp.m_Fusi ∧
    (mat.levelEntry i pt).pp.m_Kv.length = pt.pp.m_Kv.length ∧
    (mat.levelEntry i pt).pp.m_Fvsi.length = pt.pp.m_Fvsi.length := by
  obtain ⟨-, o2, o3, o4, -, o6⟩ := OctahedralPlasticStrain_frame mat (mat.levelEntry mat.m_n pt)
  obtain ⟨l1, l2, l3⟩ := levels_entry mat (1 / 10000) mat.m_n i hi pt
  obtain ⟨f1, -, -, -, -, -⟩ := levels_frame mat (1 / 10000) mat.m_n pt
  obtain ⟨g1, -, -, g4, g5, -⟩ := levels_frame mat (1 / 10000) i pt
  rw [ElasticDeformationGradient_eq, o2, o3, o4, o6]
  exact ⟨l1, l2, l3, f1, g1, g4, g5⟩

/-- The test `phi <= eps*Ky[i]` of line 138 in the form of the bound on `Kv[i]`. -/
theorem not_yielding_iff (kv ky eps : R) : kv - ky ≤ eps * ky ↔ kv ≤ ky * (1 + eps) := by
  constructor <;> intro h <;> nlinarith

end FEReactivePlasticity

namespace FEReactivePlasticity

/-- The only level of `matQ` at `ptQ`: the level yields, the weight is latched, the loop
`while (!conv)` stops at `iter = 1 > maxiter = 0`, and the level ends with `Kv[0] = 2`. -/
theorem matQ_levelUpdate :
    matQ.levelUpdate (1 / 10000) 0 ptQ
      = { pe := { m_F := 1, m_J := 1 },
          pp := { m_Fusi := [1], m_Fvsi := [1], m_Kv := [2], m_Ku := [0], m_gp := [0],
                  m_w := [1] } } := by
  simp [levelUpdate, newtonLoop, matQ, ptQ, FEMaterialPoint.setF, FEMaterialPoint.setKv,
    FEMaterialPoint.setFvsi, FEMaterialPoint.setw]
  norm_num

theorem matQ_levelNewton_iter : (matQ.levelNewton (1 / 10000) 0 ptQ).iter = 1 := by
  simp [levelNewton, newtonLoop, matQ]

theorem matQ_trialKv : matQ.trialKv 0 ptQ = 2 := by
  simp [trialKv, matQ, ptQ, FEMaterialPoint.setF]

theorem matQ_ElasticDeformationGradient :
    matQ.ElasticDeformationGradient ptQ
      = { pe := { m_F := 1, m_J := 1 },
          pp := { m_Fusi := [1], m_Fvsi := [1], m_Kv := [2], m_Ku := [0], m_gp := [0],
                  m_w := [1] } } := by
  have h : matQ.m_n = 1 := rfl
  rw [ElasticDeformationGradient_eq, levelEntry, h, forLoop_succ, forLoop_zero,
    matQ_levelUpdate]
  simp [OctahedralPlasticStrain, h, forLoop_succ, forLoop_zero, FEMaterialPoint.setgp, matQ,
    libQ, mat3d.sym]

end FEReactivePlasticity

namespace FEReactivePlasticity

variable {R T : Type} [LinearOrderedField R]

/-- C7 (counterexample): for the one-level material `matQ` (`Ky[0] = 1`, `maxiter = 0`) at
the point `ptQ`, `ElasticDeformationGradient` returns with `Kv[0] = 2`: neither
`Kv[0] ≤ Ky[0]*(1+ε)` nor `Kv[0] == Ky[0]` holds. -/
theorem ElasticDeformationGradient_not_two_outcomes :
    ¬ (((matQ.ElasticDeformationGradient ptQ).pp.m_Kv.getD 0 0
          ≤ matQ.Ky.getD 0 0 * (1 + 1 / 10000) ∧
        (matQ.ElasticDeformationGradient ptQ).pp.m_Fvsi.getD 0 0
          = (matQ.ElasticDeformationGradient ptQ).pp.m_Fusi.getD 0 0) ∨
      (matQ.ElasticDeformationGradient ptQ).pp.m_Kv.getD 0 0 = matQ.Ky.getD 0 0) := by
  rw [matQ_ElasticDeformationGradient]
  simp [matQ]
  norm_num

/-- C7 (amended): for every yield level `i < n`, after `ElasticDeformationGradient` returns,
either `Kv[i] ≤ Ky[i]*(1+ε)` with `Fvsi[i] == Fusi[i]` (not yielding), or `Kv[i] == Ky[i]`
(converged return), or the level was yielding and its Newton loop ran out of iterations
(`iter > maxiter`), with `Fvsi[i] == Fusi[i]` and `Kv[i]` the criterion value at the last
iterate; `ε = 1e-4`. -/
theorem ElasticDeformationGradient_level_outcome (mat : FEReactivePlasticity R T)
    (pt : FEMaterialPoint R) (i : Nat) (hi : i < mat.m_n)
    (hKv : i < pt.pp.m_Kv.length) (hFv : i < pt.pp.m_Fvsi.length) :
    ((mat.ElasticDeformationGradient pt).pp.m_Kv.getD i 0
        ≤ mat.Ky.getD i 0 * (1 + 1 / 10000) ∧
      (mat.ElasticDeformationGradient pt).pp.m_Fvsi.getD i 0
        = (mat.ElasticDeformationGradient pt).pp.m_Fusi.getD i 0) ∨
    (mat.ElasticDeformationGradient pt).pp.m_Kv.getD i 0 = mat.Ky.getD i 0 ∨
    (¬ mat.trialKv i (mat.levelEntry i pt) ≤ mat.Ky.getD i 0 * (1 + 1 / 10000) ∧
      (mat.levelNewton (1 / 10000) i (mat.levelEntry i pt)).iter > mat.m_itmax ∧
      (mat.ElasticDeformationGradient pt).pp.m_Kv.getD i 0
        = (mat.exitPoint (1 / 10000) i (mat.levelEntry i pt)).pp.m_Kv.getD i 0 ∧
      (mat.ElasticDeformationGradient pt).pp.m_Fvsi.getD i 0
        = (mat.ElasticDeformationGradient pt).pp.m_Fusi.getD i 0) := by
  obtain ⟨e1, e2, -, e4, e5, e6, e7⟩ := ElasticDeformationGradient_entry mat pt i hi
  have hk : (mat.trialPoint i (mat.levelEntry i pt)).pp.m_Kv.getD i 0
      = mat.trialKv i (mat.levelEntry i pt) := by
    rw [trialPoint_eq]
    exact getD_set_eq _ _ _ _ (by rw [e6]; exact hKv)
  rw [e1, e2, e4, ← e5]
  rcases levelUpdate_outcome mat (1 / 10000) i (mat.levelEntry i pt) (by rw [e6]; exact hKv)
    (by rw [e7]; exact hFv) with ⟨h1, h2, h3⟩ | ⟨h1, h2, h3, h4⟩ | ⟨-, -, h3, -⟩
  · rw [hk] at h1 h2
    exact Or.inl ⟨by rw [h2]; exact (not_yielding_iff _ _ _).1 h1, h3⟩
  · rw [hk] at h1
    exact Or.inr (Or.inr ⟨fun h => h1 ((not_yielding_iff _ _ _).2 h), h2, h3, h4⟩)
  · exact Or.inr (Or.inl h3)

/-- The material `matQ` at `ptQ`, level 0: the third outcome. -/
theorem ElasticDeformationGradient_level_outcome_witness :
    (0 < matQ.m_n ∧ 0 < ptQ.pp.m_Kv.length ∧ 0 < ptQ.pp.m_Fvsi.length) ∧
    (((matQ.ElasticDeformationGradient ptQ).pp.m_Kv.getD 0 0
        ≤ matQ.Ky.getD 0 0 * (1 + 1 / 10000) ∧
      (matQ.ElasticDeformationGradient ptQ).pp.m_Fvsi.getD 0 0
        = (matQ.ElasticDeformationGradient ptQ).pp.m_Fusi.getD 0 0) ∨
    (matQ.ElasticDeformationGradient ptQ).pp.m_Kv.getD 0 0 = matQ.Ky.getD 0 0 ∨
    (¬ matQ.trialKv 0 (matQ.levelEntry 0 ptQ) ≤ matQ.Ky.getD 0 0 * (1 + 1 / 10000) ∧
      (matQ.levelNewton (1 / 10000) 0 (matQ.levelEntry 0 ptQ)).iter > matQ.m_itmax ∧
      (matQ.ElasticDeformationGradient ptQ).pp.m_Kv.getD 0 0
        = (matQ.exitPoint (1 / 10000) 0 (matQ.levelEntry 0 ptQ)).pp.m_Kv.getD 0 0 ∧
      (matQ.ElasticDeformationGradient ptQ).pp.m_Fvsi.getD 0 0
        = (matQ.ElasticDeformationGradient ptQ).pp.m_Fusi.getD 0 0)) :=
  ⟨⟨by decide, by decide, by decide⟩,
    ElasticDeformationGradient_level_outcome matQ ptQ 0 (by decide) (by decide) (by decide)⟩

/-- C8: when the Newton loop of a yielding level `i` ends with `iter > maxiter` (no
convergence test met within `maxiter` iterations), `ElasticDeformationGradient` leaves
`Fvsi[i] = Fusi[i]` (no flow) and goes on: its result is the octahedral strain update of the
point obtained by running the remaining levels `i+1..n-1` on the outcome of level `i`. The
function is total: there is no error outcome. -/
theorem ElasticDeformationGradient_soft_failure (mat : FEReactivePlasticity R T)
    (pt : FEMaterialPoint R) (i : Nat) (hi : i < mat.m_n)
    (hKv : i < pt.pp.m_Kv.length) (hFv : i < pt.pp.m_Fvsi.length)
    (hy : ¬ mat.trialKv i (mat.levelEntry i pt) - mat.Ky.getD i 0
        ≤ 1 / 10000 * mat.Ky.getD i 0)
    (hit : (mat.levelNewton (1 / 10000) i (mat.levelEntry i pt)).iter > mat.m_itmax) :
    mat.levelUpdate (1 / 10000) i (mat.levelEntry i pt)
      = (mat.exitPoint (1 / 10000) i (mat.levelEntry i pt)).setFvsi i
          (pt.pp.m_Fusi.getD i 0) ∧
    (mat.ElasticDeformationGradient pt).pp.m_Fvsi.getD i 0
      = (mat.ElasticDeformationGradient pt).pp.m_Fusi.getD i 0 ∧
    mat.ElasticDeformationGradient pt
      = mat.OctahedralPlasticStrain
          (forRange (i + 1) mat.m_n (fun j pt => mat.levelUpdate (1 / 10000) j pt)
            (mat.levelUpdate (1 / 10000) i (mat.levelEntry i pt))) := by
  obtain ⟨-, e2, -, e4, e5, e6, e7⟩ := ElasticDeformationGradient_entry mat pt i hi
  obtain ⟨x1, -, -, -, -, -, -⟩ := exitPoint_frame mat (1 / 10000) i (mat.levelEntry i pt)
  have x5 := exitPoint_Fvsi mat (1 / 10000) i (mat.levelEntry i pt)
  have hy' : ¬ (mat.trialPoint i (mat.levelEntry i pt)).pp.m_Kv.getD i 0 - mat.Ky.getD i 0
      ≤ 1 / 10000 * mat.Ky.getD i 0 := by
    rw [trialPoint_eq]
    rwa [show ((mat.levelEntry i pt).setKv i (mat.trialKv i (mat.levelEntry i pt))).pp.m_Kv.getD
      i 0 = mat.trialKv i (mat.levelEntry i pt) from
      getD_set_eq _ _ _ _ (by rw [e6]; exact hKv)]
  have hl : mat.levelUpdate (1 / 10000) i (mat.levelEntry i pt)
      = (mat.exitPoint (1 / 10000) i (mat.levelEntry i pt)).setFvsi i
          (pt.pp.m_Fusi.getD i 0) := by
    rw [levelUpdate_eq, if_neg hy', if_pos hit, x1, e5]
  refine ⟨hl, ?_, ?_⟩
  · rw [e2, e4, hl]
    exact getD_set_eq _ _ _ _ (by rw [x5, e7]; exact hFv)
  · rw [ElasticDeformationGradient_eq, levelEntry, forLoop_split mat.m_n i hi]
    rfl

end FEReactivePlasticity

namespace FEReactivePlasticity

/-- The material `matQ` at `ptQ`, level 0: `maxiter = 0` is exhausted at once. -/
theorem ElasticDeformationGradient_soft_failure_witness :
    (matQ.levelNewton (1 / 10000) 0 (matQ.levelEntry 0 ptQ)).iter > matQ.m_itmax ∧
    (matQ.ElasticDeformationGradient ptQ).pp.m_Fvsi.getD 0 0
      = (matQ.ElasticDeformationGradient ptQ).pp.m_Fusi.getD 0 0 :=
  ⟨by rw [show matQ.levelEntry 0 ptQ = ptQ from rfl, matQ_levelNewton_iter]; decide,
    (ElasticDeformationGradient_soft_failure matQ ptQ 0 (by decide) (by decide) (by decide)
      (by rw [show matQ.levelEntry 0 ptQ = ptQ from rfl, matQ_trialKv]; simp [matQ]; norm_num)
      (by rw [show matQ.levelEntry 0 ptQ = ptQ from rfl, matQ_levelNewton_iter]; decide)).2.1⟩

variable {R T : Type} [LinearOrderedField R]

/-- The mixture loops of `Stress`, `Tangent` and `StrainEnergyDensity` restore the elastic
point in every pass, so the material point is the one the loop was entered with. -/
theorem mixLoop_eq {M : Type} [AddCommMonoid M] (n : Nat) (pt : FEMaterialPoint R)
    (f : Nat → FEMaterialPoint R → M) (s0 : M) :
    forLoop n
      (fun i (st : M × FEMaterialPoint R) =>
        (st.1 + f i (st.2.setF (st.2.pe.m_F * st.2.pp.m_Fvsi.getD i 0)
            (st.2.pe.m_F * st.2.pp.m_Fvsi.getD i 0).det),
          (st.2.setF (st.2.pe.m_F * st.2.pp.m_Fvsi.getD i 0)
            (st.2.pe.m_F * st.2.pp.m_Fvsi.getD i 0).det).setF st.2.pe.m_F st.2.pe.m_J))
      (s0, pt)
    = (s0 + ∑ i in Finset.range n,
          f i (pt.setF (pt.pe.m_F * pt.pp.m_Fvsi.getD i 0)
            (pt.pe.m_F * pt.pp.m_Fvsi.getD i 0).det), pt) := by
  induction n with
  | zero => simp [forLoop_zero]
  | succ n ih =>
    rw [forLoop_succ, ih, Finset.sum_range_succ, add_assoc]
    rfl

/-- The elastic point on return from `ElasticDeformationGradient` is the one on entry. -/
theorem ElasticDeformationGradient_pe (mat : FEReactivePlasticity R T)
    (pt : FEMaterialPoint R) : (mat.ElasticDeformationGradient pt).pe = pt.pe := by
  rw [ElasticDeformationGradient_eq, (OctahedralPlasticStrain_frame mat _).1]
  exact levels_pe mat _ _ pt

end FEReactivePlasticity

namespace FEReactivePlasticity

variable {R T : Type} [LinearOrderedField R]

theorem Stress_eq (mat : FEReactivePlasticity R T) (pt : FEMaterialPoint R) :
    mat.Stress pt
      = ((1 - (mat.ElasticDeformationGradient pt).pp.YieldedBonds)
            • mat.m_pBase.Stress (mat.ElasticDeformationGradient pt)
          + ∑ i in Finset.range mat.m_n,
              (mat.ElasticDeformationGradient pt).pp.m_w.getD i 0
                • mat.m_pBase.Stress
                    ((mat.ElasticDeformationGradient pt).setF
                      ((mat.ElasticDeformationGradient pt).pe.m_F
                        * (mat.ElasticDeformationGradient pt).pp.m_Fvsi.getD i 0)
                      ((mat.ElasticDeformationGradient pt).pe.m_F
                        * (mat.ElasticDeformationGradient pt).pp.m_Fvsi.getD i 0).det),
         mat.ElasticDeformationGradient pt) :=
  mixLoop_eq mat.m_n (mat.ElasticDeformationGradient pt)
    (fun i p => p.pp.m_w.getD i 0 • mat.m_pBase.Stress p) _

theorem StrainEnergyDensity_eq (mat : FEReactivePlasticity R T) (pt : FEMaterialPoint R) :
    mat.StrainEnergyDensity pt
      = (mat.m_pBase.StrainEnergyDensity (mat.ElasticDeformationGradient pt)
            * (1 - (mat.ElasticDeformationGradient pt).pp.YieldedBonds)
          + ∑ i in Finset.range mat.m_n,
              mat.m_pBase.StrainEnergyDensity
                    ((mat.ElasticDeformationGradient pt).setF
                      ((mat.ElasticDeformationGradient pt).pe.m_F
                        * (mat.ElasticDeformationGradient pt).pp.m_Fvsi.getD i 0)
                      ((mat.ElasticDeformationGradient pt).pe.m_F
                        * (mat.ElasticDeformationGradient pt).pp.m_Fvsi.getD i 0).det)
                * (mat.ElasticDeformationGradient pt).pp.m_w.getD i 0,
         mat.ElasticDeformationGradient pt) :=
  mixLoop_eq mat.m_n (mat.ElasticDeformationGradient pt)
    (fun i p => mat.m_pBase.StrainEnergyDensity p * p.pp.m_w.getD i 0) _

variable [AddCommMonoid T] [Module R T]

theorem Tangent_eq (mat : FEReactivePlasticity R T) (pt : FEMaterialPoint R) :
    mat.Tangent pt
      = ((1 - (mat.ElasticDeformationGradient pt).pp.YieldedBonds)
            • mat.m_pBase.Tangent (mat.ElasticDeformationGradient pt)
          + ∑ i in Finset.range mat.m_n,
              (mat.ElasticDeformationGradient pt).pp.m_w.getD i 0
                • mat.m_pBase.Tangent
                    ((mat.ElasticDeformationGradient pt).setF
                      ((mat.ElasticDeformationGradient pt).pe.m_F
                        * (mat.ElasticDeformationGradient pt).pp.m_Fvsi.getD i 0)
                      ((mat.ElasticDeformationGradient pt).pe.m_F
                        * (mat.ElasticDeformationGradient pt).pp.m_Fvsi.getD i 0).det),
         mat.ElasticDeformationGradient pt) :=
  mixLoop_eq mat.m_n (mat.ElasticDeformationGradient pt)
    (fun i p => p.pp.m_w.getD i 0 • mat.m_pBase.Tangent p) _


/-- C10: the elastic point (`m_F` and `m_J`) on return from `ElasticDeformationGradient`,
`Stress`, `Tangent` and `StrainEnergyDensity` is the one on entry, for every material point
and every outcome of every level. -/
theorem elastic_point_restored (mat : FEReactivePlasticity R T) (pt : FEMaterialPoint R) :
    ((mat.ElasticDeformationGradient pt).pe.m_F = pt.pe.m_F ∧
      (mat.ElasticDeformationGradient pt).pe.m_J = pt.pe.m_J) ∧
    ((mat.Stress pt).2.pe.m_F = pt.pe.m_F ∧ (mat.Stress pt).2.pe.m_J = pt.pe.m_J) ∧
    ((mat.Tangent pt).2.pe.m_F = pt.pe.m_F ∧ (mat.Tangent pt).2.pe.m_J = pt.pe.m_J) ∧
    ((mat.StrainEnergyDensity pt).2.pe.m_F = pt.pe.m_F ∧
      (mat.StrainEnergyDensity pt).2.pe.m_J = pt.pe.m_J) := by
  have hpe := ElasticDeformationGradient_pe mat pt
  rw [Stress_eq, Tangent_eq, StrainEnergyDensity_eq, hpe]
  exact ⟨⟨rfl, rfl⟩, ⟨rfl, rfl⟩, ⟨rfl, rfl⟩, ⟨rfl, rfl⟩⟩

end FEReactivePlasticity

namespace FEReactivePlasticity

end FEReactivePlasticity

/-! ## Reactive plasticity: the yield schedule of `Init` -/

namespace FEReactivePlasticity

variable {R T : Type} [LinearOrderedField R]

theorem resize_length (v : List R) (n : Nat) : (resize v n).length = n := by
  simp [resize]
  omega

theorem vset_eq {α : Type} (v : List α) (i : Nat) (x : α) (h : i < v.length) :
    vset v i x = some (v.set i x) := by
  simp [vset, h]

theorem vget_eq (v : List R) (i : Nat) (h : i < v.length) :
    vget v i = some (v.getD i 0) := by
  simp [vget, h]

theorem set_zero_of_length_one {α : Type} (v : List α) (x : α) (h : v.length = 1) :
    v.set 0 x = [x] := by
  match v, h with
  | [_], _ => rfl

/-- The body of the loop of `Init` at an index inside the vectors. -/
theorem initStep_eq (mat : FEReactivePlasticity R T) (i : Nat) (s : InitState R) (h1 : 1 ≤ i)
    (hKy : i < s.Ky.length) (hw : i < s.w.length) (hKp : i < s.Kp.length) :
    initStep mat i s
      = some { Ky := s.Ky.set i (s.Ky.getD (i - 1) 0
                  + (KpAt mat i - s.Kp.getD (i - 1) 0) / (1 - s.sw)),
               w := s.w.set i (wStep mat),
               Kp := s.Kp.set i (KpAt mat i),
               sw := s.sw + wStep mat } := by
  have hi : i ≠ 0 := by omega
  have e1 : vset s.w i (wStep mat) = some (s.w.set i (wStep mat)) := vset_eq _ _ _ hw
  have e2 : vset s.Kp i (KpAt mat i) = some (s.Kp.set i (KpAt mat i)) := vset_eq _ _ _ hKp
  have e3 : vget s.Ky (i - 1) = some (s.Ky.getD (i - 1) 0) := vget_eq _ _ (by omega)
  have e4 : vget (s.Kp.set i (KpAt mat i)) i = some (KpAt mat i) := by
    rw [vget_eq _ _ (by rw [List.length_set]; exact hKp), getD_set_eq _ _ _ _ hKp]
  have e5 : vget (s.Kp.set i (KpAt mat i)) (i - 1) = some (s.Kp.getD (i - 1) 0) := by
    rw [vget_eq _ _ (by rw [List.length_set]; omega), getD_set_ne _ _ _ _ _ (by omega)]
  have e6 : vget (s.w.set i (wStep mat)) i = some (wStep mat) := by
    rw [vget_eq _ _ (by rw [List.length_set]; exact hw), getD_set_eq _ _ _ _ hw]
  have e7 : ∀ x, vset s.Ky i x = some (s.Ky.set i x) := fun x => vset_eq _ _ _ hKy
  have hK : mat.m_Ymin + (mat.m_Ymax - mat.m_Ymin) * (i : R) / (((mat.m_n : Int) - 1 : Int) : R)
      = KpAt mat i := by
    simp [KpAt, hi]
  unfold initStep
  rw [hK]
  change (vset s.w i (wStep mat)).bind _ = _
  rw [e1]
  simp only [Option.some_bind, Option.bind_eq_bind, e2, e3, e4, e5, e6, e7]
  rfl

end FEReactivePlasticity

namespace FEReactivePlasticity

variable {R T : Type} [LinearOrderedField R]

theorem initStep_inv (mat : FEReactivePlasticity R T) (k : Nat) (s : InitState R)
    (hk : k + 1 < mat.m_n) (h : InitInv mat k s) :
    ∃ s', initStep mat (k + 1) s = some s' ∧ InitInv mat (k + 1) s' := by
  obtain ⟨h1, h2, h3, h4, h5⟩ := h
  refine ⟨_, initStep_eq mat (k + 1) s (by omega) (by omega) (by omega) (by omega), ?_⟩
  refine ⟨by simp [h1], by simp [h2], by simp [h3], by simp [h4, swAt], fun j hj => ?_⟩
  by_cases hjk : j = k + 1
  · subst hjk
    obtain ⟨a1, a2, -⟩ := h5 k (by omega)
    refine ⟨?_, ?_, ?_⟩
    · rw [getD_set_eq _ _ _ _ (by omega)]
      simp only [Nat.add_sub_cancel, a1, a2, h4, KyAt]
    · rw [getD_set_eq _ _ _ _ (by omega)]
    · rw [getD_set_eq _ _ _ _ (by omega)]
      simp [wAt]
  · obtain ⟨a1, a2, a3⟩ := h5 j (by omega)
    exact ⟨by rw [getD_set_ne _ _ _ _ _ hjk, a1], by rw [getD_set_ne _ _ _ _ _ hjk, a2],
      by rw [getD_set_ne _ _ _ _ _ hjk, a3]⟩

/-- The loop of `Init` runs through without leaving the vectors. -/
theorem initLoop_inv (mat : FEReactivePlasticity R T) (s0 : InitState R)
    (h0 : InitInv mat 0 s0) (k : Nat) (hk : k < mat.m_n) :
    ∃ s, (List.range' 1 k).foldlM (fun s i => initStep mat i s) s0 = some s ∧
      InitInv mat k s := by
  induction k with
  | zero => exact ⟨s0, rfl, h0⟩
  | succ k ih =>
    obtain ⟨s, e, hs⟩ := ih (by omega)
    obtain ⟨s', e', hs'⟩ := initStep_inv mat k s hk hs
    refine ⟨s', ?_, hs'⟩
    rw [List.range'_1_concat, List.foldlM_append, e]
    simp [Nat.add_comm 1 k, e']

end FEReactivePlasticity

namespace FEReactivePlasticity

variable {R T : Type} [LinearOrderedField R]

/-- With one yield level `Init` writes `Ky = [Ymin]` and `w = [wmin]`. -/
theorem yieldSchedule_one (mat : FEReactivePlasticity R T) (h : mat.m_n = 1) :
    yieldSchedule mat = some { mat with Ky := [mat.m_Ymin], w := [mat.m_wmin] } := by
  have e1 : vset (resize mat.Ky 1) 0 mat.m_Ymin = some [mat.m_Ymin] := by
    rw [vset_eq _ _ _ (by rw [resize_length]; exact Nat.one_pos),
      set_zero_of_length_one _ _ (resize_length _ _)]
  have e2 : vset (resize mat.w 1) 0 mat.m_wmin = some [mat.m_wmin] := by
    rw [vset_eq _ _ _ (by rw [resize_length]; exact Nat.one_pos),
      set_zero_of_length_one _ _ (resize_length _ _)]
  unfold yieldSchedule
  simp only [h, if_true, e1, e2]
  rfl

/-- Without yield levels the write `w[0] = m_wmin` of line 88 falls outside the vector. -/
theorem yieldSchedule_zero (mat : FEReactivePlasticity R T) (h : mat.m_n = 0) :
    yieldSchedule mat = none := by
  have e : vset (resize mat.w 0) 0 mat.m_wmin = none := by
    simp [vset, resize]
  unfold yieldSchedule
  simp only [h, e]
  rfl

/-- With `n ≥ 2` yield levels `Init` stays inside the vectors and writes `Ky[j] = KyAt j`
and `w[j] = wAt j` for all `j < n`; nothing else of the material changes. -/
theorem yieldSchedule_many (mat : FEReactivePlasticity R T) (h : 2 ≤ mat.m_n) :
    ∃ Ky w : List R, yieldSchedule mat = some { mat with Ky := Ky, w := w } ∧
      Ky.length = mat.m_n ∧ w.length = mat.m_n ∧
      ∀ j, j < mat.m_n → Ky.getD j 0 = KyAt mat j ∧ w.getD j 0 = wAt mat j := by
  have hn : mat.m_n ≠ 1 := by omega
  have hpos : 0 < mat.m_n := by omega
  have e1 : vset (resize mat.w mat.m_n) 0 mat.m_wmin
      = some ((resize mat.w mat.m_n).set 0 mat.m_wmin) :=
    vset_eq _ _ _ (by rw [resize_length]; exact hpos)
  have e2 : vset (List.replicate mat.m_n (0 : R)) 0 mat.m_Ymin
      = some ((List.replicate mat.m_n (0 : R)).set 0 mat.m_Ymin) :=
    vset_eq _ _ _ (by rw [List.length_replicate]; exact hpos)
  have e3 : vget ((List.replicate mat.m_n (0 : R)).set 0 mat.m_Ymin) 0 = some mat.m_Ymin := by
    rw [vget_eq _ _ (by rw [List.length_set, List.length_replicate]; exact hpos),
      getD_set_eq _ _ _ _ (by rw [List.length_replicate]; exact hpos)]
  have e4 : ∀ x, vset (resize mat.Ky mat.m_n) 0 x = some ((resize mat.Ky mat.m_n).set 0 x) :=
    fun x => vset_eq _ _ _ (by rw [resize_length]; exact hpos)
  have e5 : vget ((resize mat.w mat.m_n).set 0 mat.m_wmin) 0 = some mat.m_wmin := by
    rw [vget_eq _ _ (by rw [List.length_set, resize_length]; exact hpos),
      getD_set_eq _ _ _ _ (by rw [resize_length]; exact hpos)]
  have h0 : InitInv mat 0
      { Ky := (resize mat.Ky mat.m_n).set 0 mat.m_Ymin,
        w := (resize mat.w mat.m_n).set 0 mat.m_wmin,
        Kp := (List.replicate mat.m_n (0 : R)).set 0 mat.m_Ymin,
        sw := mat.m_wmin } := by
    refine ⟨by simp [resize_length], by simp [resize_length], by simp, rfl, fun j hj => ?_⟩
    obtain rfl : j = 0 := by omega
    exact ⟨getD_set_eq _ _ _ _ (by rw [resize_length]; exact hpos),
      getD_set_eq _ _ _ _ (by rw [List.length_replicate]; exact hpos),
      getD_set_eq _ _ _ _ (by rw [resize_length]; exact hpos)⟩
  obtain ⟨s, es, a1, a2, -, -, a5⟩ := initLoop_inv mat _ h0 (mat.m_n - 1) (by omega)
  refine ⟨s.Ky, s.w, ?_, a1, a2, fun j hj => ?_⟩
  · unfold yieldSchedule
    simp only [hn, if_false, e1, e2, e3, e4, e5, Option.some_bind, Option.bind_eq_bind, es]
    rfl
  · obtain ⟨b1, -, b3⟩ := a5 j (by omega)
    exact ⟨b1, b3⟩

end FEReactivePlasticity

namespace FEReactivePlasticity

variable {R T : Type} [LinearOrderedField R]

theorem cast_n_sub_one (mat : FEReactivePlasticity R T) :
    ((((mat.m_n : Int) - 1 : Int)) : R) = (mat.m_n : R) - 1 := by
  push_cast
  rfl

theorem swAt_eq (mat : FEReactivePlasticity R T) (k : Nat) :
    swAt mat k = mat.m_wmin + (k : R) * wStep mat := by
  induction k with
  | zero => simp [swAt]
  | succ k ih =>
    rw [swAt, ih]
    push_cast
    ring

/-- The divisor `1 - sw` of line 95 in the pass that follows `k` passes. -/
theorem one_sub_swAt (mat : FEReactivePlasticity R T) (h : 2 ≤ mat.m_n) (k : Nat) :
    1 - swAt mat k
      = (1 - mat.m_wmin) * ((mat.m_n : R) - 1 - (k : R)) / ((mat.m_n : R) - 1) := by
  have hn : (mat.m_n : R) - 1 ≠ 0 := by
    have : (2 : R) ≤ (mat.m_n : R) := by exact_mod_cast h
    intro h0
    linarith
  rw [swAt_eq, wStep, cast_n_sub_one]
  field_simp
  ring

/-- The difference `Kp[k+1] - Kp[k]` of line 95. -/
theorem KpAt_diff (mat : FEReactivePlasticity R T) (k : Nat) :
    KpAt mat (k + 1) - KpAt mat k = (mat.m_Ymax - mat.m_Ymin) / ((mat.m_n : R) - 1) := by
  rcases k with _ | k
  · simp [KpAt, cast_n_sub_one]
  · simp only [KpAt, cast_n_sub_one, Nat.succ_ne_zero, if_false]
    push_cast
    ring

theorem KyAt_succ (mat : FEReactivePlasticity R T) (k : Nat) :
    KyAt mat (k + 1)
      = KyAt mat k + (mat.m_Ymax - mat.m_Ymin) / ((mat.m_n : R) - 1) / (1 - swAt mat k) := by
  rw [KyAt, KpAt_diff]

/-- The increment `Ky[k+1] - Ky[k]` in closed form. -/
theorem KyAt_step (mat : FEReactivePlasticity R T) (h : 2 ≤ mat.m_n) (hw : mat.m_wmin ≠ 1)
    (k : Nat) (hk : k + 1 < mat.m_n) :
    KyAt mat (k + 1)
      = KyAt mat k
        + (mat.m_Ymax - mat.m_Ymin) / (1 - mat.m_wmin) * (1 / ((mat.m_n : R) - ((k : R) + 1))) := by
  have hn : (mat.m_n : R) - 1 ≠ 0 := by
    have : (2 : R) ≤ (mat.m_n : R) := by exact_mod_cast h
    intro h0
    linarith
  have hk' : (mat.m_n : R) - ((k : R) + 1) ≠ 0 := by
    have : ((k + 1 : Nat) : R) < (mat.m_n : R) := by exact_mod_cast hk
    push_cast at this
    intro h0
    linarith
  have hk2 : (mat.m_n : R) - 1 - (k : R) ≠ 0 := by
    intro h0
    apply hk'
    linarith
  have hw' : 1 - mat.m_wmin ≠ 0 := fun h0 => hw (by linarith)
  rw [KyAt_succ, one_sub_swAt mat h]
  field_simp
  ring

/-- The yield levels in closed form. -/
theorem KyAt_closed (mat : FEReactivePlasticity R T) (h : 2 ≤ mat.m_n) (hw : mat.m_wmin ≠ 1)
    (j : Nat) (hj : j < mat.m_n) :
    KyAt mat j
      = mat.m_Ymin + (mat.m_Ymax - mat.m_Ymin) / (1 - mat.m_wmin)
          * ∑ k in Finset.range j, 1 / ((mat.m_n : R) - ((k : R) + 1)) := by
  induction j with
  | zero => simp [KyAt]
  | succ j ih =>
    rw [KyAt_step mat h hw j hj, ih (by omega), Finset.sum_range_succ]
    ring

/-- The entry `Ky[j]` of the schedule is `KyAt j`. -/
theorem scheduleKy_eq (mat : FEReactivePlasticity R T) (h : 2 ≤ mat.m_n) (j : Nat)
    (hj : j < mat.m_n) : scheduleKy mat j = KyAt mat j := by
  obtain ⟨Ky, w, e, -, -, a⟩ := yieldSchedule_many mat h
  unfold scheduleKy
  rw [e]
  exact (a j hj).1

/-- The weights written by `Init` for `n ≥ 2` sum to 1. -/
theorem wAt_sum (mat : FEReactivePlasticity R T) (h : 2 ≤ mat.m_n) :
    ∑ i in Finset.range mat.m_n, wAt mat i = 1 := by
  have hn : (mat.m_n : R) - 1 ≠ 0 := by
    have : (2 : R) ≤ (mat.m_n : R) := by exact_mod_cast h
    intro h0
    linarith
  obtain ⟨m, hm⟩ : ∃ m, mat.m_n = m + 1 := ⟨mat.m_n - 1, by omega⟩
  rw [hm, Finset.sum_range_succ']
  have e : ∀ i ∈ Finset.range m, wAt mat (i + 1) = wStep mat := fun i _ => by simp [wAt]
  rw [Finset.sum_congr rfl e, Finset.sum_const, Finset.card_range, nsmul_eq_mul]
  have hm' : (m : R) = (mat.m_n : R) - 1 := by rw [hm]; push_cast; ring
  simp only [wAt, if_true, wStep, cast_n_sub_one, hm']
  field_simp

end FEReactivePlasticity

namespace FEReactivePlasticity

variable {R T : Type} [LinearOrderedField R]

/-- A vector of size `n` is the list of its entries. -/
theorem list_eq_map_getD (l : List R) (n : Nat) (f : Nat → R) (hl : l.length = n)
    (h : ∀ j, j < n → l.getD j 0 = f j) : l = (List.range n).map f := by
  apply List.ext_getElem
  · simp [hl]
  · intro j h1 h2
    have hj : j < n := by rw [← hl]; exact h1
    rw [← List.getD_eq_getElem l 0 h1, h j hj]
    simp

/-- The schedule written by `Init` for `n ≥ 2`. -/
theorem yieldSchedule_eq (mat : FEReactivePlasticity R T) (h : 2 ≤ mat.m_n) :
    yieldSchedule mat
      = some { mat with Ky := (List.range mat.m_n).map (KyAt mat),
                        w := (List.range mat.m_n).map (wAt mat) } := by
  obtain ⟨Ky, w, e, a1, a2, a⟩ := yieldSchedule_many mat h
  rw [e, list_eq_map_getD Ky mat.m_n (KyAt mat) a1 (fun j hj => (a j hj).1),
    list_eq_map_getD w mat.m_n (wAt mat) a2 (fun j hj => (a j hj).2)]

end FEReactivePlasticity

namespace FEReactivePlasticity

theorem schedMat_2_1_0_0 :
    yieldSchedule (schedMat ℚ 2 1 0 0)
      = some { schedMat ℚ 2 1 0 0 with Ky := [1, 0], w := [0, 1] } := by
  rw [yieldSchedule_eq _ (by decide)]
  have h : (schedMat ℚ 2 1 0 0).m_n = 2 := rfl
  simp [h, List.range_succ, KyAt, KpAt, swAt, wAt, wStep, schedMat]

theorem schedMat_3_0_2_0 :
    yieldSchedule (schedMat ℚ 3 0 2 0)
      = some { schedMat ℚ 3 0 2 0 with Ky := [0, 1, 3], w := [0, 1 / 2, 1 / 2] } := by
  rw [yieldSchedule_eq _ (by decide)]
  have h : (schedMat ℚ 3 0 2 0).m_n = 3 := rfl
  simp [h, List.range_succ, KyAt, KpAt, swAt, wAt, wStep, schedMat]
  norm_num

theorem schedMat_1_0_0_2 :
    yieldSchedule (schedMat ℚ 1 0 0 2)
      = some { schedMat ℚ 1 0 0 2 with Ky := [0], w := [2] } := by
  rw [yieldSchedule_one _ rfl]
  rfl

end FEReactivePlasticity

namespace FEReactivePlasticity

variable {R T : Type} [LinearOrderedField R]

/-- C11: for `n == 1`, `Init` produces the single-level schedule `Ky = [Ymin]`, `w = [wmin]`
(so `Ky[0] == Ymin`, `w[0] == wmin`), whatever `Ymin`, `Ymax`, `wmin` and the previous
contents of `Ky` and `w` are; `Ymax` is not read. With a base material that is not
uncoupled, `Init` returns what the base-class `Init` returns on that material. -/
theorem Init_single_level (mat : FEReactivePlasticity R T)
    (baseInit : FEReactivePlasticity R T → Bool × FEReactivePlasticity R T)
    (h : mat.m_n = 1) :
    yieldSchedule mat = some { mat with Ky := [mat.m_Ymin], w := [mat.m_wmin] } ∧
    (∀ m, yieldSchedule mat = some m →
      m.Ky.getD 0 0 = mat.m_Ymin ∧ m.w.getD 0 0 = mat.m_wmin ∧
      m.Ky.length = 1 ∧ m.w.length = 1) ∧
    (∀ y, yieldSchedule { mat with m_Ymax := y }
      = some { mat with m_Ymax := y, Ky := [mat.m_Ymin], w := [mat.m_wmin] }) ∧
    (mat.m_pBase.isUncoupled = false →
      Init mat baseInit
        = some (baseInit { mat with Ky := [mat.m_Ymin], w := [mat.m_wmin] })) := by
  have e := yieldSchedule_one mat h
  refine ⟨e, ?_, ?_, ?_⟩
  · intro m hm
    rw [e] at hm
    cases hm
    exact ⟨rfl, rfl, rfl, rfl⟩
  · intro y
    exact yieldSchedule_one { mat with m_Ymax := y } h
  · intro hu
    unfold Init
    rw [hu, e]
    rfl

/-- C12 (amended): for every `n > 1`, every `Ymin ≤ Ymax` and every `wmin < 1`, `Init`
computes a schedule whose yield levels are non-decreasing: `Ky[i-1] ≤ Ky[i]` for all
`1 ≤ i < n`. -/
theorem Init_Ky_monotone (mat : FEReactivePlasticity R T) (h : 1 < mat.m_n)
    (hY : mat.m_Ymin ≤ mat.m_Ymax) (hw : mat.m_wmin < 1) :
    ∃ m, yieldSchedule mat = some m ∧ m.Ky.length = mat.m_n ∧
      ∀ i, 1 ≤ i → i < mat.m_n → m.Ky.getD (i - 1) 0 ≤ m.Ky.getD i 0 := by
  obtain ⟨Ky, w, e, a1, -, a⟩ := yieldSchedule_many mat h
  refine ⟨_, e, a1, fun i h1 hi => ?_⟩
  obtain ⟨k, rfl⟩ : ∃ k, i = k + 1 := ⟨i - 1, by omega⟩
  have hn : (0 : R) < (mat.m_n : R) - 1 := by
    have : (2 : R) ≤ (mat.m_n : R) := by exact_mod_cast h
    linarith
  have hk : (0 : R) < (mat.m_n : R) - 1 - (k : R) := by
    have : ((k + 1 : Nat) : R) < (mat.m_n : R) := by exact_mod_cast hi
    push_cast at this
    linarith
  show Ky.getD k 0 ≤ Ky.getD (k + 1) 0
  rw [(a k (by omega)).1, (a (k + 1) hi).1, KyAt_succ, one_sub_swAt mat h]
  have hd : 0 ≤ (mat.m_Ymax - mat.m_Ymin) / ((mat.m_n : R) - 1)
      / ((1 - mat.m_wmin) * ((mat.m_n : R) - 1 - (k : R)) / ((mat.m_n : R) - 1)) := by
    apply div_nonneg
    · exact div_nonneg (by linarith) hn.le
    · exact div_nonneg (mul_nonneg (by linarith) hk.le) hn.le
  linarith

end FEReactivePlasticity

namespace FEReactivePlasticity

/-- The material `matQ` has one yield level. -/
theorem Init_single_level_witness :
    matQ.m_n = 1 ∧
    yieldSchedule matQ = some { matQ with Ky := [matQ.m_Ymin], w := [matQ.m_wmin] } :=
  ⟨rfl, (Init_single_level matQ baseInitOk rfl).1⟩

/-- C12 (counterexample): with `n = 2`, `Ymin = 1`, `Ymax = 0`, `wmin = 0`, all accepted by
the declared ranges, `Init` computes `Ky = [1, 0]`, which decreases. -/
theorem Init_Ky_not_monotone :
    (0 : ℚ) ≤ (schedMat ℚ 2 1 0 0).m_Ymin ∧ (0 : ℚ) ≤ (schedMat ℚ 2 1 0 0).m_Ymax ∧
    (0 : ℚ) ≤ (schedMat ℚ 2 1 0 0).m_wmin ∧ 1 < (schedMat ℚ 2 1 0 0).m_n ∧
    ∃ m, yieldSchedule (schedMat ℚ 2 1 0 0) = some m ∧ m.Ky = [1, 0] ∧
      ¬ (m.Ky.getD (1 - 1) 0 ≤ m.Ky.getD 1 0) := by
  refine ⟨?_, ?_, ?_, ?_, _, schedMat_2_1_0_0, rfl, ?_⟩
  · simp [schedMat]
  · simp [schedMat]
  · simp [schedMat]
  · simp [schedMat]
  · simp

/-- With `n = 3`, `Ymin = 0`, `Ymax = 2`, `wmin = 0` the schedule is `Ky = [0, 1, 3]`. -/
theorem Init_Ky_monotone_witness :
    1 < (schedMat ℚ 3 0 2 0).m_n ∧
    ∃ m, yieldSchedule (schedMat ℚ 3 0 2 0) = some m ∧
      m.Ky.length = (schedMat ℚ 3 0 2 0).m_n ∧
      ∀ i, 1 ≤ i → i < (schedMat ℚ 3 0 2 0).m_n → m.Ky.getD (i - 1) 0 ≤ m.Ky.getD i 0 :=
  ⟨by decide, Init_Ky_monotone (schedMat ℚ 3 0 2 0) (by decide) (by simp [schedMat])
    (by simp [schedMat])⟩

end FEReactivePlasticity

namespace FEReactivePlasticity

variable {T : Type}

/-- The highest yield level as a function of `wmin`, and its limit at `wmin = 0`. -/
theorem scheduleKy_tendsto (mat : FEReactivePlasticity ℝ T) (h : 1 < mat.m_n) :
    Filter.Tendsto (fun x : ℝ => scheduleKy { mat with m_wmin := x } (mat.m_n - 1))
      (nhds 0)
      (nhds (mat.m_Ymin + (mat.m_Ymax - mat.m_Ymin)
        * ∑ k in Finset.range (mat.m_n - 1), 1 / ((mat.m_n : ℝ) - ((k : ℝ) + 1)))) := by
  have hg : Filter.Tendsto
      (fun x : ℝ => mat.m_Ymin + (mat.m_Ymax - mat.m_Ymin) / (1 - x)
        * ∑ k in Finset.range (mat.m_n - 1), 1 / ((mat.m_n : ℝ) - ((k : ℝ) + 1)))
      (nhds 0)
      (nhds (mat.m_Ymin + (mat.m_Ymax - mat.m_Ymin) / (1 - 0)
        * ∑ k in Finset.range (mat.m_n - 1), 1 / ((mat.m_n : ℝ) - ((k : ℝ) + 1)))) := by
    apply ContinuousAt.tendsto
    apply ContinuousAt.add continuousAt_const
    apply ContinuousAt.mul _ continuousAt_const
    apply ContinuousAt.div continuousAt_const (continuousAt_const.sub continuousAt_id)
    norm_num
  rw [sub_zero, div_one] at hg
  refine hg.congr' ?_
  have hne : ∀ᶠ x : ℝ in nhds 0, x ≠ 1 :=
    (Filter.tendsto_id (x := nhds (0 : ℝ))).eventually_ne zero_ne_one
  filter_upwards [hne] with x hx
  rw [scheduleKy_eq { mat with m_wmin := x } h (mat.m_n - 1) (by show mat.m_n - 1 < mat.m_n; omega),
    KyAt_closed { mat with m_wmin := x } h hx (mat.m_n - 1) (by show mat.m_n - 1 < mat.m_n; omega)]

end FEReactivePlasticity

namespace FEReactivePlasticity

variable {T : Type}

/-- C13 (amended): for every `n > 1` and every `Ymin`, `Ymax` (in particular `Ymin ≤ Ymax`),
`Init` computes a schedule for every `wmin`, and the highest yield level `Ky[n-1]`
approaches `Ymin + (Ymax − Ymin)·Σ_{k=1..n−1} 1/(n − k)` as `wmin → 0`, which is also its
value at `wmin = 0`; this limit is `Ymax` when `n = 2`. -/
theorem Init_Ky_last_limit (mat : FEReactivePlasticity ℝ T) (h : 1 < mat.m_n) :
    (∀ x : ℝ, ∃ m, yieldSchedule { mat with m_wmin := x } = some m ∧
      scheduleKy { mat with m_wmin := x } (mat.m_n - 1) = m.Ky.getD (mat.m_n - 1) 0) ∧
    Filter.Tendsto (fun x : ℝ => scheduleKy { mat with m_wmin := x } (mat.m_n - 1))
      (nhds 0)
      (nhds (mat.m_Ymin + (mat.m_Ymax - mat.m_Ymin)
        * ∑ k in Finset.range (mat.m_n - 1), 1 / ((mat.m_n : ℝ) - ((k : ℝ) + 1)))) ∧
    scheduleKy { mat with m_wmin := 0 } (mat.m_n - 1)
      = mat.m_Ymin + (mat.m_Ymax - mat.m_Ymin)
        * ∑ k in Finset.range (mat.m_n - 1), 1 / ((mat.m_n : ℝ) - ((k : ℝ) + 1)) ∧
    (mat.m_n = 2 →
      mat.m_Ymin + (mat.m_Ymax - mat.m_Ymin)
        * ∑ k in Finset.range (mat.m_n - 1), 1 / ((mat.m_n : ℝ) - ((k : ℝ) + 1))
      = mat.m_Ymax) := by
  refine ⟨fun x => ?_, scheduleKy_tendsto mat h, ?_, fun h2 => ?_⟩
  · obtain ⟨Ky, w, e, -, -, -⟩ := yieldSchedule_many { mat with m_wmin := x } h
    refine ⟨_, e, ?_⟩
    unfold scheduleKy
    rw [e]
  · have hj : mat.m_n - 1 < mat.m_n := by omega
    rw [scheduleKy_eq { mat with m_wmin := 0 } h (mat.m_n - 1) hj,
      KyAt_closed { mat with m_wmin := 0 } h (zero_ne_one) (mat.m_n - 1) hj]
    show mat.m_Ymin + (mat.m_Ymax - mat.m_Ymin) / (1 - 0) * _ = _
    rw [sub_zero, div_one]
  · rw [h2]
    norm_num

/-- C13 (counterexample): with `n = 3`, `Ymin = 0 ≤ Ymax = 2` and `wmin = 0`, `Init` computes
`Ky = [0, 1, 3]`, so `Ky[n-1] = 3`, not `Ymax = 2`; and `Ky[n-1]` does not tend to `Ymax`
as `wmin → 0`. -/
theorem Init_Ky_last_not_Ymax :
    (schedMat ℚ 3 0 2 0).m_Ymin ≤ (schedMat ℚ 3 0 2 0).m_Ymax ∧
    (∃ m, yieldSchedule (schedMat ℚ 3 0 2 0) = some m ∧ m.Ky = [0, 1, 3] ∧
      m.Ky.getD ((schedMat ℚ 3 0 2 0).m_n - 1) 0 ≠ (schedMat ℚ 3 0 2 0).m_Ymax) ∧
    ¬ Filter.Tendsto (fun x : ℝ => scheduleKy (schedMat ℝ 3 0 2 x) 2) (nhds 0)
        (nhds (schedMat ℝ 3 0 2 0).m_Ymax) := by
  refine ⟨?_, ⟨_, schedMat_3_0_2_0, rfl, ?_⟩, ?_⟩
  · simp [schedMat]
  · simp [schedMat]
  · intro hlim
    have h3 := scheduleKy_tendsto (schedMat ℝ 3 0 2 0) (by simp [schedMat])
    have e := tendsto_nhds_unique hlim h3
    simp [schedMat, Finset.sum_range_succ] at e
    norm_num at e

/-- With `n = 2`, `Ymin = 0`, `Ymax = 1` the limit of `Ky[1]` is `Ymax`. -/
theorem Init_Ky_last_limit_witness :
    1 < (schedMat ℝ 2 0 1 0).m_n ∧
    Filter.Tendsto
      (fun x : ℝ => scheduleKy { schedMat ℝ 2 0 1 0 with m_wmin := x }
        ((schedMat ℝ 2 0 1 0).m_n - 1))
      (nhds 0)
      (nhds ((schedMat ℝ 2 0 1 0).m_Ymin
        + ((schedMat ℝ 2 0 1 0).m_Ymax - (schedMat ℝ 2 0 1 0).m_Ymin)
          * ∑ k in Finset.range ((schedMat ℝ 2 0 1 0).m_n - 1),
              1 / (((schedMat ℝ 2 0 1 0).m_n : ℝ) - ((k : ℝ) + 1)))) :=
  ⟨by simp [schedMat], (Init_Ky_last_limit (schedMat ℝ 2 0 1 0) (by simp [schedMat])).2.1⟩

end FEReactivePlasticity

namespace FEReactivePlasticity

variable {R T : Type} [LinearOrderedField R]

/-- For `n ≥ 1` `Init` stays inside the vectors and writes `w[i] = wAt i`. -/
theorem yieldSchedule_weights (mat : FEReactivePlasticity R T) (h : 1 ≤ mat.m_n) :
    ∃ m, yieldSchedule mat = some m ∧ m.w.length = mat.m_n ∧
      ∀ i, i < mat.m_n → m.w.getD i 0 = wAt mat i := by
  by_cases h1 : mat.m_n = 1
  · refine ⟨_, yieldSchedule_one mat h1, h1.symm, fun i hi => ?_⟩
    obtain rfl : i = 0 := by omega
    rfl
  · obtain ⟨Ky, w, e, -, a2, a⟩ := yieldSchedule_many mat (by omega)
    exact ⟨_, e, a2, fun i hi => (a i hi).2⟩

theorem wAt_nonneg (mat : FEReactivePlasticity R T) (h0 : 0 ≤ mat.m_wmin)
    (h1 : mat.m_wmin ≤ 1) (i : Nat) (hi : i < mat.m_n) : 0 ≤ wAt mat i := by
  unfold wAt
  split_ifs with hz
  · exact h0
  · rw [wStep, cast_n_sub_one]
    apply div_nonneg (by linarith)
    have : ((i + 1 : Nat) : R) ≤ (mat.m_n : R) := by exact_mod_cast hi
    have hi0 : (0 : R) ≤ (i : R) := Nat.cast_nonneg i
    push_cast at this
    linarith

theorem wAt_sum_le (mat : FEReactivePlasticity R T) (h : 1 ≤ mat.m_n) (h1 : mat.m_wmin ≤ 1) :
    ∑ i in Finset.range mat.m_n, wAt mat i ≤ 1 := by
  by_cases hn : mat.m_n = 1
  · rw [hn]
    simpa [wAt] using h1
  · exact (wAt_sum mat (by omega)).le

/-- C14 (amended): in exact arithmetic (the weights as elements of a linear ordered field,
without the rounding of doubles), for every `n ≥ 1` and every `0 ≤ wmin ≤ 1`, the weights
`w[]` computed by `Init` satisfy `Σ_{i∈S} w[i] ≤ 1` for every subset `S` of the levels, so
that weights latched into a material point (each `m_w[i]` either 0 or `w[i]`) never sum to
more than 1 and the unyielded fraction is never negative. The bound is one of exact
arithmetic only: for `n ≥ 2` the weights total exactly 1, so the rounded quotient
`(1 - wmin)/(n - 1)` stored in a double can carry the total above 1 by a rounding error. -/
theorem Init_weights_subset_sum (mat : FEReactivePlasticity R T) (h : 1 ≤ mat.m_n)
    (h0 : 0 ≤ mat.m_wmin) (h1 : mat.m_wmin ≤ 1) :
    ∃ m, yieldSchedule mat = some m ∧ m.w.length = mat.m_n ∧
      (∀ S : Finset Nat, S ⊆ Finset.range mat.m_n → ∑ i in S, m.w.getD i 0 ≤ 1) ∧
      (∀ mw : List R, (∀ i, i < mat.m_n → mw.getD i 0 = 0 ∨ mw.getD i 0 = m.w.getD i 0) →
        ∑ i in Finset.range mat.m_n, mw.getD i 0 ≤ 1 ∧
        0 ≤ 1 - ∑ i in Finset.range mat.m_n, mw.getD i 0) := by
  obtain ⟨m, e, hl, a⟩ := yieldSchedule_weights mat h
  have hsum : ∑ i in Finset.range mat.m_n, m.w.getD i 0 ≤ 1 := by
    rw [Finset.sum_congr rfl (fun i hi => a i (Finset.mem_range.1 hi))]
    exact wAt_sum_le mat h h1
  have hnn : ∀ i, i ∈ Finset.range mat.m_n → 0 ≤ m.w.getD i 0 := fun i hi => by
    rw [a i (Finset.mem_range.1 hi)]
    exact wAt_nonneg mat h0 h1 i (Finset.mem_range.1 hi)
  refine ⟨m, e, hl, fun S hS => ?_, fun mw hmw => ?_⟩
  · exact le_trans (Finset.sum_le_sum_of_subset_of_nonneg hS (fun i hi _ => hnn i hi)) hsum
  · have hle : ∑ i in Finset.range mat.m_n, mw.getD i 0 ≤ 1 := by
      refine le_trans (Finset.sum_le_sum (fun i hi => ?_)) hsum
      rcases hmw i (Finset.mem_range.1 hi) with h' | h'
      · rw [h']
        exact hnn i hi
      · exact h'.le
    exact ⟨hle, by linarith⟩

end FEReactivePlasticity

namespace FEReactivePlasticity

/-- C14 (counterexample): with `n = 1` and `wmin = 2`, accepted by the declared range
`wmin ≥ 0`, `Init` computes `w = [2]`, and the subset `S = {0}` has weight 2 > 1. -/
theorem Init_weights_exceed_one :
    1 ≤ (schedMat ℚ 1 0 0 2).m_n ∧ (0 : ℚ) ≤ (schedMat ℚ 1 0 0 2).m_wmin ∧
    (0 : ℚ) ≤ (schedMat ℚ 1 0 0 2).m_Ymin ∧ (0 : ℚ) ≤ (schedMat ℚ 1 0 0 2).m_Ymax ∧
    ({0} : Finset Nat) ⊆ Finset.range (schedMat ℚ 1 0 0 2).m_n ∧
    ∃ m, yieldSchedule (schedMat ℚ 1 0 0 2) = some m ∧ m.w = [2] ∧
      ¬ (∑ i in ({0} : Finset Nat), m.w.getD i 0 ≤ 1) := by
  refine ⟨?_, ?_, ?_, ?_, ?_, _, schedMat_1_0_0_2, rfl, ?_⟩
  · simp [schedMat]
  · simp [schedMat]
  · simp [schedMat]
  · simp [schedMat]
  · simp [schedMat]
  · simp

/-- With `n = 3` and `wmin = 0` the weights are `[0, 1/2, 1/2]`. -/
theorem Init_weights_subset_sum_witness :
    (1 ≤ (schedMat ℚ 3 0 2 0).m_n ∧ (0 : ℚ) ≤ (schedMat ℚ 3 0 2 0).m_wmin ∧
      (schedMat ℚ 3 0 2 0).m_wmin ≤ 1) ∧
    ∃ m, yieldSchedule (schedMat ℚ 3 0 2 0) = some m ∧
      m.w.length = (schedMat ℚ 3 0 2 0).m_n ∧
      (∀ S : Finset Nat, S ⊆ Finset.range (schedMat ℚ 3 0 2 0).m_n →
        ∑ i in S, m.w.getD i 0 ≤ 1) ∧
      (∀ mw : List ℚ,
        (∀ i, i < (schedMat ℚ 3 0 2 0).m_n → mw.getD i 0 = 0 ∨ mw.getD i 0 = m.w.getD i 0) →
        ∑ i in Finset.range (schedMat ℚ 3 0 2 0).m_n, mw.getD i 0 ≤ 1 ∧
        0 ≤ 1 - ∑ i in Finset.range (schedMat ℚ 3 0 2 0).m_n, mw.getD i 0) :=
  ⟨⟨by simp [schedMat], by simp [schedMat], by simp [schedMat]⟩,
    Init_weights_subset_sum (schedMat ℚ 3 0 2 0) (by simp [schedMat]) (by simp [schedMat])
      (by simp [schedMat])⟩

end FEReactivePlasticity

/-! ## Reactive plasticity: the Newton loop -/

namespace FEReactivePlasticity

variable {R T : Type} [LinearOrderedField R]

theorem levelNewton_eq (mat : FEReactivePlasticity R T) (eps : R) (i : Nat)
    (pt : FEMaterialPoint R) :
    mat.levelNewton eps i pt
      = newtonLoop mat eps i (pt.pe.m_F * pt.pp.m_Fusi.getD i 0) (mat.m_itmax + 1)
          (mat.newtonInit eps i pt) := rfl

theorem newtonLoop_of_conv (mat : FEReactivePlasticity R T) (eps : R) (i : Nat) (Fe : mat3d R)
    (fuel : Nat) (s : NewtonState R) (h : s.conv = true) :
    newtonLoop mat eps i Fe fuel s = s := by
  cases fuel with
  | zero => rfl
  | succ fuel => rw [newtonLoop, if_pos h]

theorem newtonCount_of_conv (mat : FEReactivePlasticity R T) (eps : R) (i : Nat)
    (Fe : mat3d R) (fuel : Nat) (s : NewtonState R) (h : s.conv = true) :
    newtonCount mat eps i Fe fuel s = 0 := by
  cases fuel with
  | zero => rfl
  | succ fuel => rw [newtonCount, if_pos h]

theorem newtonIterate_succ (mat : FEReactivePlasticity R T) (eps : R) (i : Nat)
    (Fe : mat3d R) (k : Nat) (s : NewtonState R) :
    newtonIterate mat eps i Fe (k + 1) s
      = newtonIterate mat eps i Fe k
          (newtonStep mat eps i Fe { s with iter := s.iter + 1 }) := by
  induction k with
  | zero => rfl
  | succ k ih =>
    rw [newtonIterate, ih]
    rfl

theorem newtonStep_lam (mat : FEReactivePlasticity R T) (eps : R) (i : Nat) (Fe : mat3d R)
    (s : NewtonState R) :
    (newtonStep mat eps i Fe s).lam = s.lam + newtonDlam mat i Fe s := rfl

theorem newtonStep_conv_eq (mat : FEReactivePlasticity R T) (eps : R) (i : Nat)
    (Fe : mat3d R) (s : NewtonState R) :
    (newtonStep mat eps i Fe s).conv
      = if |(newtonStep mat eps i Fe s).phi| ≤ eps * eps * mat.Ky.getD i 0 then true
        else if |newtonDlam mat i Fe s| ≤ eps * |(newtonStep mat eps i Fe s).lam| then true
        else s.conv := rfl

/-- A pass of the loop body sets `conv` exactly when one of the two tests holds. -/
theorem newtonStep_conv (mat : FEReactivePlasticity R T) (eps : R) (i : Nat) (Fe : mat3d R)
    (s : NewtonState R) :
    (newtonStep mat eps i Fe s).conv = true
      ↔ s.conv = true ∨ metTest mat eps i s (newtonStep mat eps i Fe s) := by
  have hl : (newtonStep mat eps i Fe s).lam - s.lam = newtonDlam mat i Fe s := by
    rw [newtonStep_lam, add_sub_cancel_left]
  unfold metTest
  rw [hl, newtonStep_conv_eq]
  split_ifs with h1 h2
  · exact ⟨fun _ => Or.inr (Or.inr h1), fun _ => rfl⟩
  · exact ⟨fun _ => Or.inr (Or.inl h2), fun _ => rfl⟩
  · constructor
    · intro h
      exact Or.inl h
    · rintro (h | h | h)
      · exact h
      · exact absurd h h2
      · exact absurd h h1

end FEReactivePlasticity

namespace FEReactivePlasticity

variable {R T : Type} [LinearOrderedField R]

/-- The loop `while (!conv)`, entered with `conv = false` and `iter ≤ maxiter` and given
enough fuel, executes its body `c ≤ maxiter - iter` times and then leaves: either the last
pass set `conv`, or `iter` has passed `maxiter` and no pass set `conv`. -/
theorem newtonLoop_char (mat : FEReactivePlasticity R T) (eps : R) (i : Nat) (Fe : mat3d R)
    (fuel : Nat) (s : NewtonState R) (hc : s.conv = false) (hi : s.iter ≤ mat.m_itmax)
    (hf : mat.m_itmax + 1 ≤ fuel + s.iter) :
    newtonCount mat eps i Fe fuel s + s.iter ≤ mat.m_itmax ∧
    (((newtonLoop mat eps i Fe fuel s).conv = true ∧
        1 ≤ newtonCount mat eps i Fe fuel s ∧
        newtonLoop mat eps i Fe fuel s
          = newtonIterate mat eps i Fe (newtonCount mat eps i Fe fuel s) s ∧
        (newtonIterate mat eps i Fe (newtonCount mat eps i Fe fuel s - 1) s).conv = false ∧
        (newtonLoop mat eps i Fe fuel s).iter = s.iter + newtonCount mat eps i Fe fuel s) ∨
      ((newtonLoop mat eps i Fe fuel s).conv = false ∧
        newtonCount mat eps i Fe fuel s + s.iter = mat.m_itmax ∧
        (newtonLoop mat eps i Fe fuel s).iter = mat.m_itmax + 1 ∧
        newtonLoop mat eps i Fe fuel s
          = { newtonIterate mat eps i Fe (newtonCount mat eps i Fe fuel s) s with
              iter := mat.m_itmax + 1 })) := by
  induction fuel generalizing s with
  | zero => omega
  | succ fuel ih =>
    have hcn : ¬ s.conv = true := by simp [hc]
    rw [newtonLoop, newtonCount, if_neg hcn, if_neg hcn]
    dsimp only
    by_cases hx : s.iter + 1 > mat.m_itmax
    · rw [if_pos hx, if_pos hx]
      have e : s.iter = mat.m_itmax := by omega
      refine ⟨by omega, Or.inr ⟨hc, by omega, by simp [e], ?_⟩⟩
      simp [newtonIterate, e]
    · rw [if_neg hx, if_neg hx]
      have hit : (newtonStep mat eps i Fe { s with iter := s.iter + 1 }).iter = s.iter + 1 := rfl
      by_cases ht : (newtonStep mat eps i Fe { s with iter := s.iter + 1 }).conv = true
      · rw [newtonLoop_of_conv _ _ _ _ _ _ ht, newtonCount_of_conv _ _ _ _ _ _ ht]
        refine ⟨by omega, Or.inl ⟨ht, by omega, rfl, hc, ?_⟩⟩
        rw [hit]
      · have ht' : (newtonStep mat eps i Fe { s with iter := s.iter + 1 }).conv = false := by
          simpa using ht
        obtain ⟨b, h⟩ := ih (newtonStep mat eps i Fe { s with iter := s.iter + 1 }) ht'
          (by rw [hit]; omega) (by rw [hit]; omega)
        rw [hit] at b h
        refine ⟨by omega, ?_⟩
        rcases h with ⟨h1, h2, h3, h4, h5⟩ | ⟨h1, h2, h3, h4⟩
        · refine Or.inl ⟨h1, by omega, ?_, ?_, by omega⟩
          · rw [Nat.add_comm 1, newtonIterate_succ]
            exact h3
          · obtain ⟨c, hc'⟩ : ∃ c, newtonCount mat eps i Fe fuel
                (newtonStep mat eps i Fe { s with iter := s.iter + 1 }) = c + 1 :=
              ⟨_, (Nat.sub_add_cancel h2).symm⟩
            rw [hc', Nat.add_sub_cancel] at h4
            rw [hc', Nat.add_comm 1, Nat.add_sub_cancel, newtonIterate_succ]
            exact h4
        · refine Or.inr ⟨h1, by omega, h3, ?_⟩
          rw [Nat.add_comm 1, newtonIterate_succ]
          exact h4

end FEReactivePlasticity

namespace FEReactivePlasticity

variable {R T : Type} [LinearOrderedField R]

/-- The loop of a yielding level, entered from line 147 with `conv = false`, `iter = 0`. -/
theorem levelNewton_char (mat : FEReactivePlasticity R T) (eps : R) (i : Nat)
    (pt : FEMaterialPoint R) :
    newtonCount mat eps i (pt.pe.m_F * pt.pp.m_Fusi.getD i 0) (mat.m_itmax + 1)
        (mat.newtonInit eps i pt) ≤ mat.m_itmax ∧
    (((mat.levelNewton eps i pt).conv = true ∧
        (mat.levelNewton eps i pt).iter ≤ mat.m_itmax ∧
        ∃ k, 1 ≤ k ∧ k ≤ mat.m_itmax ∧
          newtonCount mat eps i (pt.pe.m_F * pt.pp.m_Fusi.getD i 0) (mat.m_itmax + 1)
            (mat.newtonInit eps i pt) = k ∧
          mat.levelNewton eps i pt
            = newtonIterate mat eps i (pt.pe.m_F * pt.pp.m_Fusi.getD i 0) k
                (mat.newtonInit eps i pt) ∧
          metTest mat eps i
            (newtonIterate mat eps i (pt.pe.m_F * pt.pp.m_Fusi.getD i 0) (k - 1)
              (mat.newtonInit eps i pt))
            (newtonIterate mat eps i (pt.pe.m_F * pt.pp.m_Fusi.getD i 0) k
              (mat.newtonInit eps i pt))) ∨
      ((mat.levelNewton eps i pt).conv = false ∧
        (mat.levelNewton eps i pt).iter = mat.m_itmax + 1 ∧
        newtonCount mat eps i (pt.pe.m_F * pt.pp.m_Fusi.getD i 0) (mat.m_itmax + 1)
          (mat.newtonInit eps i pt) = mat.m_itmax)) := by
  have hi0 : (mat.newtonInit eps i pt).iter = 0 := rfl
  obtain ⟨b, h⟩ := newtonLoop_char mat eps i (pt.pe.m_F * pt.pp.m_Fusi.getD i 0)
    (mat.m_itmax + 1) (mat.newtonInit eps i pt) rfl (by rw [hi0]; omega) (by omega)
  rw [hi0] at b h
  rw [levelNewton_eq]
  refine ⟨by omega, ?_⟩
  rcases h with ⟨h1, h2, h3, h4, h5⟩ | ⟨h1, h2, h3, -⟩
  · refine Or.inl ⟨h1, by omega, _, h2, by omega, rfl, h3, ?_⟩
    obtain ⟨c, hc⟩ : ∃ c, newtonCount mat eps i (pt.pe.m_F * pt.pp.m_Fusi.getD i 0)
        (mat.m_itmax + 1) (mat.newtonInit eps i pt) = c + 1 :=
      ⟨_, (Nat.sub_add_cancel h2).symm⟩
    rw [hc, Nat.add_sub_cancel] at h4
    rw [h3, hc] at h1
    rw [hc, Nat.add_sub_cancel]
    rcases (newtonStep_conv mat eps i (pt.pe.m_F * pt.pp.m_Fusi.getD i 0) _).1 h1 with h | h
    · exact absurd (h4.symm.trans h) (by decide)
    · exact h
  · exact Or.inr ⟨h1, h3, by omega⟩

end FEReactivePlasticity

namespace FEReactivePlasticity

theorem sym_one : mat3d.sym (1 : mat3d ℚ) = 1 := by
  ext a b
  simp [mat3d.sym, Matrix.one_apply]
  split_ifs <;> norm_num

theorem matY_YieldSurfaceNormal (pt : FEMaterialPoint ℚ) (h : pt.pe.m_F = 1) :
    matY.YieldSurfaceNormal pt = 1 := by
  simp [YieldSurfaceNormal, matY, matY0, libQ, h, sym_one]

theorem matY_newtonInit :
    matY.newtonInit (1 / 10000) 0 ptQ
      = { pt := { pe := { m_F := 1, m_J := 1 },
                  pp := { m_Fusi := [1], m_Fvsi := [1], m_Kv := [2], m_Ku := [0], m_gp := [0],
                          m_w := [0] } },
          conv := false, iter := 0, lam := 0, Fv := 1, beta := 1, ImN := 1, phi := 2 } := by
  simp [newtonInit, latchPoint, trialPoint, matY, matY0, ptQ, FEMaterialPoint.setF,
    FEMaterialPoint.setKv, FEMaterialPoint.setw]

theorem matY_dlam :
    matY.newtonDlam 0 1 (matY.newtonInit (1 / 10000) 0 ptQ) = 2 / 3 := by
  rw [matY_newtonInit]
  unfold newtonDlam
  simp only [FEMaterialPoint.setF, Matrix.det_one]
  rw [matY_YieldSurfaceNormal _ rfl]
  simp [matY, matY0, libQ, FEMaterialPoint.setKv, Matrix.trace_fin_three]

end FEReactivePlasticity

namespace FEReactivePlasticity

theorem one_sub_smul_one : (1 : mat3d ℚ) - (2 / 3 : ℚ) • (1 : mat3d ℚ) = (1 / 3 : ℚ) • 1 := by
  ext a b
  simp [Matrix.one_apply]
  split_ifs <;> norm_num

theorem det_third : ((1 / 3 : ℚ) • (1 : mat3d ℚ)).det = 1 / 27 := by
  rw [Matrix.det_smul, Matrix.det_one, Fintype.card_fin]
  norm_num

/-- The first pass of the loop body for `matY` at `ptQ`: `phi = 2`, `dlam = lam = 2/3`,
neither test holds and `conv` stays `false`; `Fv = (1/3)·I`. -/
theorem matY_step1 :
    newtonIterate matY (1 / 10000) 0 1 1 (matY.newtonInit (1 / 10000) 0 ptQ)
      = { pt := { pe := { m_F := 1, m_J := 1 },
                  pp := { m_Fusi := [1], m_Fvsi := [1], m_Kv := [2], m_Ku := [0], m_gp := [0],
                          m_w := [0] } },
          conv := false, iter := 1, lam := 2 / 3, Fv := (1 / 3 : ℚ) • 1, beta := 1,
          ImN := (1 / 3 : ℚ) • 1, phi := 2 } := by
  rw [newtonIterate, newtonIterate, matY_newtonInit]
  unfold newtonStep
  simp only [FEMaterialPoint.setF, Matrix.det_one]
  rw [matY_YieldSurfaceNormal _ rfl]
  simp [matY, matY0, libQ, FEMaterialPoint.setKv, Matrix.trace_fin_three]
  refine ⟨by norm_num, ?_⟩
  rw [one_sub_smul_one, one_div]

theorem matY_levelNewton :
    matY.levelNewton (1 / 10000) 0 ptQ
      = { pt := { pe := { m_F := 1, m_J := 1 },
                  pp := { m_Fusi := [1], m_Fvsi := [1], m_Kv := [2], m_Ku := [0], m_gp := [0],
                          m_w := [0] } },
          conv := false, iter := 2, lam := 2 / 3, Fv := (1 / 3 : ℚ) • 1, beta := 1,
          ImN := (1 / 3 : ℚ) • 1, phi := 2 } := by
  have h1 := matY_step1
  rw [newtonIterate, newtonIterate] at h1
  have hFe : ptQ.pe.m_F * ptQ.pp.m_Fusi.getD 0 0 = 1 := by simp [ptQ]
  rw [levelNewton_eq, hFe]
  show newtonLoop matY (1 / 10000) 0 1 (1 + 1) _ = _
  rw [newtonLoop, if_neg (by simp [newtonInit])]
  dsimp only
  rw [if_neg (by simp [newtonInit, matY, matY0]), h1, newtonLoop]
  simp [matY, matY0]

theorem matY_levelUpdate :
    matY.levelUpdate (1 / 10000) 0 ptQ
      = { pe := { m_F := 1, m_J := 1 },
          pp := { m_Fusi := [1], m_Fvsi := [1], m_Kv := [2 / 27], m_Ku := [0], m_gp := [0],
                  m_w := [0] } } := by
  have hy : ¬ (matY.trialPoint 0 ptQ).pp.m_Kv.getD 0 0 - matY.Ky.getD 0 0
      ≤ 1 / 10000 * matY.Ky.getD 0 0 := by
    simp [trialPoint, matY, matY0, ptQ, FEMaterialPoint.setF, FEMaterialPoint.setKv]
  have hit : (matY.levelNewton (1 / 10000) 0 ptQ).iter > matY.m_itmax := by
    rw [matY_levelNewton]
    decide
  rw [levelUpdate_eq, if_neg hy, if_pos hit]
  unfold exitPoint
  rw [matY_levelNewton]
  dsimp only [FEMaterialPoint.setF, FEMaterialPoint.setKv]
  rw [det_third]
  simp [latchPoint, trialPoint, matY, matY0, ptQ, FEMaterialPoint.setF, FEMaterialPoint.setKv,
    FEMaterialPoint.setw, FEMaterialPoint.setFvsi]
  norm_num

end FEReactivePlasticity

namespace FEReactivePlasticity

theorem matY_ElasticDeformationGradient :
    matY.ElasticDeformationGradient ptQ
      = { pe := { m_F := 1, m_J := 1 },
          pp := { m_Fusi := [1], m_Fvsi := [1], m_Kv := [2 / 27], m_Ku := [0], m_gp := [0],
                  m_w := [0] } } := by
  have h : matY.m_n = 1 := rfl
  rw [ElasticDeformationGradient_eq, levelEntry, h, forLoop_succ, forLoop_zero,
    matY_levelUpdate]
  simp [OctahedralPlasticStrain, h, forLoop_succ, forLoop_zero, FEMaterialPoint.setgp, matY,
    matY0, libQ, mat3d.sym]

/-- C15 (counterexample): the material `matY0` has `n = 1`, `Ymin = Ymax = 0`, and `Init`
gives it the schedule `Ky = [0]`; at the point `ptQ` the trial criterion value is 2 > 0, the
first pass of the Newton loop leaves `conv = false` (`dlam = lam = 2/3`, `phi = 2`), and with
`maxiter = 1` the level ends with `Kv[0] = 2/27`, not `Ky[0] = 0`. -/
theorem always_yielding_not_one_iteration :
    matY0.m_n = 1 ∧ matY0.m_Ymin = 0 ∧ matY0.m_Ymax = 0 ∧
    yieldSchedule matY0 = some matY ∧
    0 < matY.trialKv 0 ptQ ∧
    (newtonIterate matY (1 / 10000) 0 (ptQ.pe.m_F * ptQ.pp.m_Fusi.getD 0 0) 1
      (matY.newtonInit (1 / 10000) 0 ptQ)).conv = false ∧
    (matY.ElasticDeformationGradient ptQ).pp.m_Kv.getD 0 0 = 2 / 27 ∧
    matY.Ky.getD 0 0 = 0 ∧
    (matY.ElasticDeformationGradient ptQ).pp.m_Kv.getD 0 0 ≠ matY.Ky.getD 0 0 := by
  have hFe : ptQ.pe.m_F * ptQ.pp.m_Fusi.getD 0 0 = 1 := by simp [ptQ]
  refine ⟨rfl, rfl, rfl, ?_, ?_, ?_, ?_, rfl, ?_⟩
  · rw [yieldSchedule_one matY0 rfl]
    rfl
  · simp [trialKv, matY, matY0, ptQ, FEMaterialPoint.setF]
  · rw [hFe, matY_step1]
  · rw [matY_ElasticDeformationGradient]
    rfl
  · rw [matY_ElasticDeformationGradient]
    simp [matY]

variable {R T : Type} [LinearOrderedField R]

/-- C15 (amended): with `n = 1` and `Ymin = Ymax = 0`, for every material point whose trial
criterion value is positive, `Ky[0] = 0`, the level yields and the Newton loop is run; if
the loop declares convergence within `maxiter` iterations (`iter ≤ maxiter` on exit), some
pass `k` with `1 ≤ k ≤ maxiter` met a convergence test and the level ends with
`Kv[0] == Ky[0] == 0`; otherwise it ends with `Fvsi[0] == Fusi[0]` and `Kv[0]` the criterion
value at the last iterate. -/
theorem always_yielding_outcome (mat0 mat : FEReactivePlasticity R T) (pt : FEMaterialPoint R)
    (hn : mat0.m_n = 1) (hYmin : mat0.m_Ymin = 0) (_hYmax : mat0.m_Ymax = 0)
    (hInit : yieldSchedule mat0 = some mat) (htrial : 0 < mat.trialKv 0 pt)
    (hKv : 0 < pt.pp.m_Kv.length) (hFv : 0 < pt.pp.m_Fvsi.length) :
    mat.Ky.getD 0 0 = 0 ∧
    ¬ mat.trialKv 0 pt - mat.Ky.getD 0 0 ≤ 1 / 10000 * mat.Ky.getD 0 0 ∧
    ((mat.levelNewton (1 / 10000) 0 pt).iter ≤ mat.m_itmax →
      (mat.ElasticDeformationGradient pt).pp.m_Kv.getD 0 0 = 0 ∧
      ∃ k, 1 ≤ k ∧ k ≤ mat.m_itmax ∧
        mat.levelNewton (1 / 10000) 0 pt
          = newtonIterate mat (1 / 10000) 0 (pt.pe.m_F * pt.pp.m_Fusi.getD 0 0) k
              (mat.newtonInit (1 / 10000) 0 pt) ∧
        metTest mat (1 / 10000) 0
          (newtonIterate mat (1 / 10000) 0 (pt.pe.m_F * pt.pp.m_Fusi.getD 0 0) (k - 1)
            (mat.newtonInit (1 / 10000) 0 pt))
          (newtonIterate mat (1 / 10000) 0 (pt.pe.m_F * pt.pp.m_Fusi.getD 0 0) k
            (mat.newtonInit (1 / 10000) 0 pt))) ∧
    ((mat.levelNewton (1 / 10000) 0 pt).iter > mat.m_itmax →
      (mat.ElasticDeformationGradient pt).pp.m_Fvsi.getD 0 0 = pt.pp.m_Fusi.getD 0 0 ∧
      (mat.ElasticDeformationGradient pt).pp.m_Kv.getD 0 0
        = (mat.exitPoint (1 / 10000) 0 pt).pp.m_Kv.getD 0 0) := by
  rw [yieldSchedule_one mat0 hn] at hInit
  have hmat := Option.some.inj hInit
  have hKy : mat.Ky.getD 0 0 = 0 := by
    rw [← hmat]
    exact hYmin
  have hmn : mat.m_n = 1 := by
    rw [← hmat]
    exact hn
  have hk : (mat.trialPoint 0 pt).pp.m_Kv.getD 0 0 = mat.trialKv 0 pt := by
    rw [trialPoint_eq]
    exact getD_set_eq _ _ _ _ hKv
  have hy : ¬ mat.trialKv 0 pt - mat.Ky.getD 0 0 ≤ 1 / 10000 * mat.Ky.getD 0 0 := by
    rw [hKy]
    simp
    exact htrial
  obtain ⟨e1, e2, -, -, -, -, -⟩ := ElasticDeformationGradient_entry mat pt 0 (by omega)
  rw [show mat.levelEntry 0 pt = pt from rfl] at e1 e2
  refine ⟨hKy, hy, fun hit => ?_, fun hit => ?_⟩
  · refine ⟨?_, ?_⟩
    · rcases levelUpdate_outcome mat (1 / 10000) 0 pt hKv hFv with
        ⟨h1, -, -⟩ | ⟨-, h2, -, -⟩ | ⟨-, -, h3, -⟩
      · rw [hk] at h1
        exact absurd h1 hy
      · omega
      · rw [e1, h3, hKy]
    · rcases (levelNewton_char mat (1 / 10000) 0 pt).2 with ⟨-, -, k, a1, a2, -, a4, a5⟩ |
        ⟨-, h2, -⟩
      · exact ⟨k, a1, a2, a4, a5⟩
      · omega
  · rcases levelUpdate_outcome mat (1 / 10000) 0 pt hKv hFv with
      ⟨h1, -, -⟩ | ⟨-, -, h3, h4⟩ | ⟨-, h2, -, -⟩
    · rw [hk] at h1
      exact absurd h1 hy
    · exact ⟨by rw [e2, h4], by rw [e1, h3]⟩
    · exact absurd hit h2

end FEReactivePlasticity

namespace FEReactivePlasticity

/-- The material `matY0` at `ptQ`: `maxiter = 1` is exhausted and `Fvsi[0] = Fusi[0]`. -/
theorem always_yielding_outcome_witness :
    (matY0.m_n = 1 ∧ matY0.m_Ymin = 0 ∧ matY0.m_Ymax = 0 ∧ yieldSchedule matY0 = some matY ∧
      0 < matY.trialKv 0 ptQ) ∧
    matY.Ky.getD 0 0 = 0 ∧
    ¬ matY.trialKv 0 ptQ - matY.Ky.getD 0 0 ≤ 1 / 10000 * matY.Ky.getD 0 0 :=
  have hs : yieldSchedule matY0 = some matY := by
    rw [yieldSchedule_one matY0 rfl]
    rfl
  have ht : 0 < matY.trialKv 0 ptQ := by
    simp [trialKv, matY, matY0, ptQ, FEMaterialPoint.setF]
  ⟨⟨rfl, rfl, rfl, hs, ht⟩,
    (always_yielding_outcome matY0 matY ptQ rfl rfl rfl hs ht (by decide) (by decide)).1,
    (always_yielding_outcome matY0 matY ptQ rfl rfl rfl hs ht (by decide) (by decide)).2.1⟩

end FEReactivePlasticity

/-! ## CompactSymmMatrix: lemmas -/

/-- A loop whose passes change nothing changes nothing. -/
theorem forLoop_id {σ : Type} (n : Nat) (body : Nat → σ → σ) (s : σ)
    (h : ∀ i, i < n → ∀ t, body i t = t) : forLoop n body s = s := by
  induction n with
  | zero => rfl
  | succ n ih =>
    rw [forLoop_succ, h n (Nat.lt_succ_self n), ih (fun i hi t => h i (Nat.lt_succ_of_lt hi) t)]

/-- Two loops whose passes agree agree. -/
theorem forLoop_congr {σ : Type} (n : Nat) (body body2 : Nat → σ → σ) (s : σ)
    (h : ∀ i, i < n → ∀ t, body i t = body2 i t) : forLoop n body s = forLoop n body2 s := by
  induction n with
  | zero => rfl
  | succ n ih =>
    rw [forLoop_succ, forLoop_succ, h n (Nat.lt_succ_self n),
      ih (fun i hi t => h i (Nat.lt_succ_of_lt hi) t)]

namespace CompactSymmMatrix

variable {R : Type}

/-- The sparsity structure of the matrix: everything but the values. -/
theorem set_structure (A : CompactSymmMatrix R) (i j : Int) (v : R) :
    (A.set i j v).m_pindices = A.m_pindices ∧ (A.set i j v).m_ppointers = A.m_ppointers ∧
    (A.set i j v).m_offset = A.m_offset := by
  unfold set
  dsimp only
  split <;> exact ⟨rfl, rfl, rfl⟩

/-- A loop whose passes keep the sparsity structure keeps it. -/
theorem forLoop_structure (n : Nat) (body : Nat → CompactSymmMatrix R → CompactSymmMatrix R)
    (A : CompactSymmMatrix R)
    (h : ∀ i B, (body i B).m_pindices = B.m_pindices ∧
      (body i B).m_ppointers = B.m_ppointers ∧ (body i B).m_offset = B.m_offset) :
    (forLoop n body A).m_pindices = A.m_pindices ∧
    (forLoop n body A).m_ppointers = A.m_ppointers ∧
    (forLoop n body A).m_offset = A.m_offset := by
  induction n with
  | zero => exact ⟨rfl, rfl, rfl⟩
  | succ n ih =>
    rw [forLoop_succ]
    obtain ⟨a1, a2, a3⟩ := h n (forLoop n body A)
    obtain ⟨b1, b2, b3⟩ := ih
    exact ⟨a1.trans b1, a2.trans b2, a3.trans b3⟩

/-- The position of an entry depends only on the sparsity structure. -/
theorem position_congr (A B : CompactSymmMatrix R) (h1 : B.m_pindices = A.m_pindices)
    (h2 : B.m_ppointers = A.m_ppointers) (h3 : B.m_offset = A.m_offset) (i j : Int) :
    B.position i j = A.position i j := by
  unfold position run
  rw [h1, h2, h3]

theorem run_head (A : CompactSymmMatrix R) (i : Int)
    (h : A.m_ppointers i < A.m_ppointers (i + 1)) :
    ∃ l, A.run i = (A.m_ppointers i - A.m_offset) :: l := by
  obtain ⟨n, hn⟩ : ∃ n, (A.m_ppointers (i + 1) - A.m_ppointers i).toNat = n + 1 :=
    ⟨(A.m_ppointers (i + 1) - A.m_ppointers i).toNat - 1, by omega⟩
  unfold run
  rw [hn, List.range_succ_eq_map, List.map_cons]
  exact ⟨_, by rw [Nat.cast_zero, add_zero]⟩

end CompactSymmMatrix

namespace CompactSymmMatrix

variable {R : Type} [Field R]

theorem get_comm (A : CompactSymmMatrix R) (i j : Int) : A.get i j = A.get j i := by
  unfold get
  rcases lt_trichotomy i j with h | h | h
  · simp [h, not_lt.2 h.le]
  · subst h
    rfl
  · simp [h, not_lt.2 h.le]

theorem add_structure (A : CompactSymmMatrix R) (i j : Int) (v : R) :
    (A.add i j v).m_pindices = A.m_pindices ∧ (A.add i j v).m_ppointers = A.m_ppointers ∧
    (A.add i j v).m_offset = A.m_offset := by
  unfold add
  dsimp only
  split <;> exact ⟨rfl, rfl, rfl⟩

theorem assembleEntry_structure (A : CompactSymmMatrix R) (ke : matrix R) (lm : List Int)
    (i j : Nat) :
    (A.assembleEntry ke lm i j).m_pindices = A.m_pindices ∧
    (A.assembleEntry ke lm i j).m_ppointers = A.m_ppointers ∧
    (A.assembleEntry ke lm i j).m_offset = A.m_offset := by
  unfold assembleEntry
  split_ifs
  · exact ⟨rfl, rfl, rfl⟩
  · exact add_structure A _ _ _
  · exact ⟨rfl, rfl, rfl⟩

theorem Assemble_structure (A : CompactSymmMatrix R) (ke : matrix R) (lm : List Int) :
    (A.Assemble ke lm).m_pindices = A.m_pindices ∧
    (A.Assemble ke lm).m_ppointers = A.m_ppointers ∧
    (A.Assemble ke lm).m_offset = A.m_offset :=
  forLoop_structure _ _ A (fun i B =>
    forLoop_structure _ _ B (fun j C => assembleEntry_structure C ke lm i j))

theorem calls_structure (A : CompactSymmMatrix R) (cs : List (Call R)) :
    (A.calls cs).m_pindices = A.m_pindices ∧ (A.calls cs).m_ppointers = A.m_ppointers ∧
    (A.calls cs).m_offset = A.m_offset := by
  induction cs generalizing A with
  | nil => exact ⟨rfl, rfl, rfl⟩
  | cons c cs ih =>
    obtain ⟨b1, b2, b3⟩ := ih (A.call c)
    have hc : (A.call c).m_pindices = A.m_pindices ∧ (A.call c).m_ppointers = A.m_ppointers ∧
        (A.call c).m_offset = A.m_offset := by
      cases c with
      | add i j v => exact add_structure A i j v
      | set i j v => exact set_structure A i j v
      | Assemble ke lm => exact Assemble_structure A ke lm
    obtain ⟨a1, a2, a3⟩ := hc
    exact ⟨b1.trans a1, b2.trans a2, b3.trans a3⟩

end CompactSymmMatrix

namespace CompactSymmMatrix

variable {R : Type} [Field R]

/-- C17: for every `CompactSymmMatrix`, after any sequence of `add`, `set` and `Assemble`
calls, `get(i,j) == get(j,i)` for all `i`, `j` (in particular for the pairs of the sparsity
profile), and the calls leave the sparsity profile as it is: the position of every entry is
the one before the calls. -/
theorem get_symmetric (A : CompactSymmMatrix R) (cs : List (Call R)) (i j : Int) :
    (A.calls cs).get i j = (A.calls cs).get j i ∧
    (A.calls cs).position i j = A.position i j := by
  obtain ⟨h1, h2, h3⟩ := calls_structure A cs
  exact ⟨get_comm _ i j, position_congr A _ h1 h2 h3 i j⟩

theorem assembleEntry_skip (A : CompactSymmMatrix R) (ke : matrix R) (lm : List Int)
    (i j : Nat) (h : lm.getD i 0 < 0 ∨ lm.getD j 0 < 0) : A.assembleEntry ke lm i j = A := by
  unfold assembleEntry
  rw [if_pos h]

/-- C18: `Assemble(ke, lm)` skips negative equation numbers. A local entry `ke[i][j]` whose
row or column equation number `lm[i]` or `lm[j]` is negative leaves the matrix as it is; its
value has no influence on the assembled matrix; and a call in which every equation number
is negative (for instance -1) changes nothing. The function is total: there is no error
outcome. -/
theorem Assemble_skips_negative (A : CompactSymmMatrix R) (ke : matrix R) (lm : List Int) :
    (∀ i j : Nat, lm.getD i 0 < 0 ∨ lm.getD j 0 < 0 → A.assembleEntry ke lm i j = A) ∧
    (∀ ke2 : matrix R,
      (∀ i j : Nat, 0 ≤ lm.getD i 0 → 0 ≤ lm.getD j 0 → ke2 i j = ke i j) →
      A.Assemble ke2 lm = A.Assemble ke lm) ∧
    ((∀ k : Nat, k < lm.length → lm.getD k 0 < 0) → A.Assemble ke lm = A) := by
  refine ⟨fun i j h => assembleEntry_skip A ke lm i j h, fun ke2 h => ?_, fun h => ?_⟩
  · unfold Assemble
    refine forLoop_congr _ _ _ _ (fun i _ B => forLoop_congr _ _ _ _ (fun j _ C => ?_))
    unfold assembleEntry
    split_ifs with h1 h2
    · rfl
    · rw [h i j (not_lt.1 (fun hh => h1 (Or.inl hh))) (not_lt.1 (fun hh => h1 (Or.inr hh)))]
    · rfl
  · unfold Assemble
    exact forLoop_id _ _ _ (fun i hi B =>
      forLoop_id _ _ _ (fun j _ C => assembleEntry_skip C ke lm i j (Or.inl (h i hi))))

/-- C19: for every column `i`, `diag(i)` is `m_pd[m_ppointers[i] − m_offset]`, whatever the
index offset (0 or 1); when the run of column `i` is not empty this is the first stored
entry of the run; and it equals `get(i,i)` whenever that first stored entry is the diagonal
one (its row index is `i`). -/
theorem diag_first_stored (A : CompactSymmMatrix R) (i : Int) :
    A.diag i = A.m_pd (A.m_ppointers i - A.m_offset) ∧
    (A.m_ppointers i < A.m_ppointers (i + 1) →
      (A.run i).head? = some (A.m_ppointers i - A.m_offset) ∧
      ((A.run i).map A.m_pd).head? = some (A.diag i)) ∧
    (A.m_ppointers i < A.m_ppointers (i + 1) →
      A.m_pindices (A.m_ppointers i - A.m_offset) = i + A.m_offset →
      A.diag i = A.get i i) := by
  refine ⟨rfl, fun h => ?_, fun h hd => ?_⟩
  · obtain ⟨l, hl⟩ := run_head A i h
    rw [hl]
    exact ⟨rfl, rfl⟩
  · obtain ⟨l, hl⟩ := run_head A i h
    unfold get position
    simp only [lt_irrefl, if_false]
    rw [hl, List.find?_cons_of_pos _ (by simp [hd])]
    rfl

end CompactSymmMatrix

namespace CompactSymmMatrix

/-- The matrix `csm2 1` and the equation numbers `[-1, -1]`. -/
theorem Assemble_skips_negative_witness :
    (∀ k : Nat, k < ([-1, -1] : List Int).length → ([-1, -1] : List Int).getD k 0 < 0) ∧
    (csm2 1).Assemble (fun _ _ => 10) [-1, -1] = csm2 1 :=
  have h : ∀ k : Nat, k < ([-1, -1] : List Int).length → ([-1, -1] : List Int).getD k 0 < 0 := by
    intro k hk
    have hk2 : k < 2 := hk
    interval_cases k <;> simp
  ⟨h, (Assemble_skips_negative (csm2 1) (fun _ _ => 10) [-1, -1]).2.2 h⟩

/-- The matrices `csm2 0` and `csm2 1` (index offsets 0 and 1), column 1: the first stored
entry of the column is the diagonal one, 3. -/
theorem diag_first_stored_witness :
    ((csm2 0).m_ppointers 1 < (csm2 0).m_ppointers (1 + 1) ∧
      (csm2 0).m_pindices ((csm2 0).m_ppointers 1 - (csm2 0).m_offset)
        = 1 + (csm2 0).m_offset ∧
      (csm2 0).diag 1 = (csm2 0).get 1 1) ∧
    ((csm2 1).m_ppointers 1 < (csm2 1).m_ppointers (1 + 1) ∧
      (csm2 1).m_pindices ((csm2 1).m_ppointers 1 - (csm2 1).m_offset)
        = 1 + (csm2 1).m_offset ∧
      (csm2 1).diag 1 = (csm2 1).get 1 1) :=
  ⟨⟨by decide, by decide, (diag_first_stored (csm2 0) 1).2.2 (by decide) (by decide)⟩,
    ⟨by decide, by decide, (diag_first_stored (csm2 1) 1).2.2 (by decide) (by decide)⟩⟩

end CompactSymmMatrix

/-! ## Further properties of the pressure stiffness and of the reactive plasticity -/

namespace FEPressureSurface

variable {R : Type} [Field R]

theorem PressureStiffness_entry_symm (el : FESurfaceElement R) (ke : matrix R)
    (q q' a b : Nat) (ha : a < 3) (hb : b < 3) :
    PressureStiffness el ke (3 * q + a) (3 * q' + b)
      = PressureStiffness el ke (3 * q' + b) (3 * q + a) := by
  rw [PressureStiffness_entry el ke q q' a b ha hb,
    PressureStiffness_entry el ke q' q b a hb ha]
  refine Finset.sum_congr rfl fun n _ => ?_
  rw [Finset.sum_comm]
  refine Finset.sum_congr rfl fun j' _ => Finset.sum_congr rfl fun i' _ => ?_
  by_cases h : q = i' ∧ q' = j'
  · rw [if_pos h, if_pos ⟨h.2, h.1⟩]
    obtain ⟨hx, hy, hz⟩ := kab_swap el n (gaussPressure el n) (jacobian el n) i' j'
    rw [blockEntry_neg _ _ hx hy hz, blockEntry_swap _ a b ha hb]
  · rw [if_neg h, if_neg (fun h' => h ⟨h'.2, h'.1⟩)]

/-- C22: the matrix produced by `PressureStiffness` is symmetric: `ke[r][c] == ke[c][r]` for
all rows `r` and columns `c`, for every surface element and every pressure field;
equivalently `block(i,j) == block(j,i)ᵀ`, entry by entry
`ke[3i+a][3j+b] == ke[3j+b][3i+a]`. -/
theorem PressureStiffness_symmetric (el : FESurfaceElement R) (ke : matrix R) :
    (∀ r c : Nat, PressureStiffness el ke r c = PressureStiffness el ke c r) ∧
    (∀ (i j : Nat) (a b : Fin 3),
      PressureStiffness el ke (3 * i + a) (3 * j + b)
        = PressureStiffness el ke (3 * j + b) (3 * i + a)) := by
  refine ⟨fun r c => ?_, fun i j a b => PressureStiffness_entry_symm el ke i j a b a.2 b.2⟩
  have hr : r = 3 * (r / 3) + r % 3 := by omega
  have hc : c = 3 * (c / 3) + c % 3 := by omega
  rw [hr, hc]
  exact PressureStiffness_entry_symm el ke _ _ _ _ (by omega) (by omega)

end FEPressureSurface

namespace FEReactivePlasticity

variable {R T : Type} [LinearOrderedField R]

theorem initEntry_inv (mat : FEReactivePlasticity R T) (hpos : 0 < mat.m_n) :
    InitInv mat 0 (initEntry mat) := by
  refine ⟨by simp [initEntry, resize_length], by simp [initEntry, resize_length],
    by simp [initEntry], rfl, fun j hj => ?_⟩
  obtain rfl : j = 0 := by omega
  exact ⟨getD_set_eq _ _ _ _ (by rw [resize_length]; exact hpos),
    getD_set_eq _ _ _ _ (by rw [List.length_replicate]; exact hpos),
    getD_set_eq _ _ _ _ (by rw [resize_length]; exact hpos)⟩

/-- For `n ≥ 2` the schedule of `Init` is the outcome of its loop, entered at
`initEntry`. -/
theorem yieldSchedule_loop (mat : FEReactivePlasticity R T) (h : 2 ≤ mat.m_n) :
    yieldSchedule mat
      = ((List.range' 1 (mat.m_n - 1)).foldlM (fun s i => initStep mat i s)
          (initEntry mat)).map (fun s => { mat with Ky := s.Ky, w := s.w }) := by
  have hn : mat.m_n ≠ 1 := by omega
  have hpos : 0 < mat.m_n := by omega
  have e1 : vset (resize mat.w mat.m_n) 0 mat.m_wmin
      = some ((resize mat.w mat.m_n).set 0 mat.m_wmin) :=
    vset_eq _ _ _ (by rw [resize_length]; exact hpos)
  have e2 : vset (List.replicate mat.m_n (0 : R)) 0 mat.m_Ymin
      = some ((List.replicate mat.m_n (0 : R)).set 0 mat.m_Ymin) :=
    vset_eq _ _ _ (by rw [List.length_replicate]; exact hpos)
  have e3 : vget ((List.replicate mat.m_n (0 : R)).set 0 mat.m_Ymin) 0 = some mat.m_Ymin := by
    rw [vget_eq _ _ (by rw [List.length_set, List.length_replicate]; exact hpos),
      getD_set_eq _ _ _ _ (by rw [List.length_replicate]; exact hpos)]
  have e4 : ∀ x, vset (resize mat.Ky mat.m_n) 0 x = some ((resize mat.Ky mat.m_n).set 0 x) :=
    fun x => vset_eq _ _ _ (by rw [resize_length]; exact hpos)
  have e5 : vget ((resize mat.w mat.m_n).set 0 mat.m_wmin) 0 = some mat.m_wmin := by
    rw [vget_eq _ _ (by rw [List.length_set, resize_length]; exact hpos),
      getD_set_eq _ _ _ _ (by rw [resize_length]; exact hpos)]
  unfold yieldSchedule
  simp only [hn, if_false, e1, e2, e3, e4, e5, Option.some_bind, Option.bind_eq_bind]
  show Option.bind ((List.range' 1 (mat.m_n - 1)).foldlM (fun s i => initStep mat i s)
    (initEntry mat)) _ = _
  cases (List.range' 1 (mat.m_n - 1)).foldlM (fun s i => initStep mat i s) (initEntry mat) <;>
    rfl

/-- C23: closed form of the yield schedule. For every `n ≥ 2`, `Init` computes a schedule
with `w[0] = wmin`, `w[i] = (1 − wmin)/(n − 1)` for `1 ≤ i < n`, the weights summing to
exactly 1; the divisor `1 − sw` used at step `i` of the loop equals
`(1 − wmin)·(n − i)/(n − 1)`, so it is zero exactly when `wmin = 1`, the constructor
default; and for `wmin ≠ 1`,
`Ky[i] = Ymin + (Ymax − Ymin)/(1 − wmin) · Σ_{k=1..i} 1/(n − k)` for all `0 ≤ i < n`. -/
theorem yield_schedule_closed_form (mat : FEReactivePlasticity R T) (h : 2 ≤ mat.m_n) :
    (∃ Ky w : List R, yieldSchedule mat = some { mat with Ky := Ky, w := w } ∧
      Ky.length = mat.m_n ∧ w.length = mat.m_n ∧
      w.getD 0 0 = mat.m_wmin ∧
      (∀ i, 1 ≤ i → i < mat.m_n → w.getD i 0 = (1 - mat.m_wmin) / ((mat.m_n : R) - 1)) ∧
      ∑ i in Finset.range mat.m_n, w.getD i 0 = 1 ∧
      (mat.m_wmin ≠ 1 → ∀ i, i < mat.m_n →
        Ky.getD i 0
          = mat.m_Ymin + (mat.m_Ymax - mat.m_Ymin) / (1 - mat.m_wmin)
              * ∑ k in Finset.range i, 1 / ((mat.m_n : R) - ((k : R) + 1)))) ∧
    (∀ i, 1 ≤ i → i < mat.m_n →
      ∃ s, (List.range' 1 (i - 1)).foldlM (fun s i => initStep mat i s) (initEntry mat)
          = some s ∧
        1 - s.sw = (1 - mat.m_wmin) * ((mat.m_n : R) - (i : R)) / ((mat.m_n : R) - 1) ∧
        (1 - s.sw = 0 ↔ mat.m_wmin = 1)) ∧
    (∀ (base : FEElasticMaterial R T) (crit : FEDamageCriterion R) (lib : TensorLib R T),
      (construct base crit lib).m_wmin = 1) := by
  have hn : (0 : R) < (mat.m_n : R) - 1 := by
    have : (2 : R) ≤ (mat.m_n : R) := by exact_mod_cast h
    linarith
  refine ⟨?_, fun i h1 hi => ?_, fun _ _ _ => rfl⟩
  · obtain ⟨Ky, w, e, a1, a2, a⟩ := yieldSchedule_many mat h
    refine ⟨Ky, w, e, a1, a2, ?_, fun i h1 hi => ?_, ?_, fun hw i hi => ?_⟩
    · rw [(a 0 (by omega)).2]
      simp [wAt]
    · rw [(a i hi).2]
      have : i ≠ 0 := by omega
      simp [wAt, this, wStep, cast_n_sub_one]
    · rw [Finset.sum_congr rfl (fun i hi => (a i (Finset.mem_range.1 hi)).2)]
      exact wAt_sum mat h
    · rw [(a i hi).1]
      exact KyAt_closed mat h hw i hi
  · obtain ⟨s, es, -, -, -, hsw, -⟩ :=
      initLoop_inv mat (initEntry mat) (initEntry_inv mat (by omega)) (i - 1) (by omega)
    have hi' : (0 : R) < (mat.m_n : R) - (i : R) := by
      have : (i : R) < (mat.m_n : R) := by exact_mod_cast hi
      linarith
    have hc : ((i - 1 : Nat) : R) = (i : R) - 1 := by
      rw [Nat.cast_sub h1, Nat.cast_one]
    have hd : 1 - s.sw
        = (1 - mat.m_wmin) * ((mat.m_n : R) - (i : R)) / ((mat.m_n : R) - 1) := by
      rw [hsw, one_sub_swAt mat h, hc]
      congr 2
      ring
    refine ⟨s, es, hd, ?_⟩
    rw [hd]
    constructor
    · intro h0
      rcases div_eq_zero_iff.1 h0 with h0 | h0
      · rcases mul_eq_zero.1 h0 with h0 | h0
        · linarith
        · linarith
      · linarith
    · intro hw
      rw [hw]
      simp

end FEReactivePlasticity

namespace FEReactivePlasticity

/-- With `n = 3`, `Ymin = 0`, `Ymax = 2`, `wmin = 0`: `w = [0, 1/2, 1/2]`, `Ky = [0, 1, 3]`. -/
theorem yield_schedule_closed_form_witness :
    2 ≤ (schedMat ℚ 3 0 2 0).m_n ∧
    ∃ Ky w : List ℚ,
      yieldSchedule (schedMat ℚ 3 0 2 0) = some { schedMat ℚ 3 0 2 0 with Ky := Ky, w := w } ∧
      ∑ i in Finset.range (schedMat ℚ 3 0 2 0).m_n, w.getD i 0 = 1 := by
  obtain ⟨Ky, w, e, -, -, -, -, hs, -⟩ :=
    (yield_schedule_closed_form (schedMat ℚ 3 0 2 0) (by decide)).1
  exact ⟨by decide, Ky, w, e, hs⟩

/-- C24 (the failing input): with `n = 0`, accepted by the range `n ≥ 0`, the vectors are
resized to 0 entries and the write `w[0] = m_wmin` of line 88 falls outside the vector:
`Init` has no defined behaviour. -/
theorem Init_zero_levels_out_of_bounds :
    0 ≤ (schedMat ℚ 0 0 0 1).m_n ∧
    (resize (schedMat ℚ 0 0 0 1).w (schedMat ℚ 0 0 0 1).m_n).length = 0 ∧
    vset (resize (schedMat ℚ 0 0 0 1).w (schedMat ℚ 0 0 0 1).m_n) 0
      (schedMat ℚ 0 0 0 1).m_wmin = none ∧
    yieldSchedule (schedMat ℚ 0 0 0 1) = none ∧
    Init (schedMat ℚ 0 0 0 1) baseInitOk = none := by
  have hz : yieldSchedule (schedMat ℚ 0 0 0 1) = none := yieldSchedule_zero _ rfl
  refine ⟨Nat.zero_le _, rfl, rfl, hz, ?_⟩
  unfold Init
  rw [hz]
  rfl

end FEReactivePlasticity

namespace FEReactivePlasticity

variable {R T : Type} [LinearOrderedField R]

/-- The levels before `j` leave the entries of level `j` as they are. -/
theorem levels_untouched (mat : FEReactivePlasticity R T) (eps : R) (n j : Nat) (h : n ≤ j)
    (pt : FEMaterialPoint R) :
    (forLoop n (fun i pt => mat.levelUpdate eps i pt) pt).pp.m_Kv.getD j 0
      = pt.pp.m_Kv.getD j 0 ∧
    (forLoop n (fun i pt => mat.levelUpdate eps i pt) pt).pp.m_Fvsi.getD j 0
      = pt.pp.m_Fvsi.getD j 0 ∧
    (forLoop n (fun i pt => mat.levelUpdate eps i pt) pt).pp.m_w.getD j 0
      = pt.pp.m_w.getD j 0 := by
  induction n with
  | zero => exact ⟨rfl, rfl, rfl⟩
  | succ n ih =>
    rw [forLoop_succ]
    obtain ⟨b1, b2, b3⟩ := ih (by omega)
    obtain ⟨-, -, -, -, -, -, a7⟩ := levelUpdate_frame mat eps n
      (forLoop n (fun i pt => mat.levelUpdate eps i pt) pt)
    obtain ⟨c1, c2, c3⟩ := a7 j (by omega)
    exact ⟨c1.trans b1, c2.trans b2, c3.trans b3⟩

theorem exitPoint_w (mat : FEReactivePlasticity R T) (eps : R) (i : Nat)
    (pt : FEMaterialPoint R) :
    (mat.exitPoint eps i pt).pp.m_w = (mat.latchPoint eps i pt).pp.m_w :=
  (newtonLoop_frame mat eps i (pt.pe.m_F * pt.pp.m_Fusi.getD i 0) (mat.m_itmax + 1)
    (mat.newtonInit eps i pt)).2.2

/-- The weights after level `i`: those after line 144 when the level yields, those on
entry when it does not. -/
theorem levelUpdate_w (mat : FEReactivePlasticity R T) (eps : R) (i : Nat)
    (pt : FEMaterialPoint R) :
    (mat.levelUpdate eps i pt).pp.m_w
      = if (mat.trialPoint i pt).pp.m_Kv.getD i 0 - mat.Ky.getD i 0 ≤ eps * mat.Ky.getD i 0
        then pt.pp.m_w else (mat.latchPoint eps i pt).pp.m_w := by
  rw [levelUpdate_eq]
  split_ifs
  · rfl
  · exact exitPoint_w mat eps i pt
  · exact exitPoint_w mat eps i pt

theorem latchPoint_w (mat : FEReactivePlasticity R T) (eps : R) (i : Nat)
    (pt : FEMaterialPoint R) :
    (mat.latchPoint eps i pt).pp.m_w
      = if (mat.trialPoint i pt).pp.m_Kv.getD i 0 > pt.pp.m_Ku.getD i 0 ∧
          pt.pp.m_Ku.getD i 0 < mat.Ky.getD i 0 * (1 + eps)
        then pt.pp.m_w.set i (mat.w.getD i 0) else pt.pp.m_w := by
  have hKu : (mat.trialPoint i pt).pp.m_Ku = pt.pp.m_Ku := rfl
  unfold latchPoint
  dsimp only
  rw [hKu]
  split_ifs <;> rfl

/-- C21 (amended): weight latching on a yield transition. For every level `i` that is
yielding (`Kv[i] − Ky[i] > ε·Ky[i]`, `Kv[i]` the trial value) and whose previous yield value
was strictly below the bound (`Ku[i] < Ky[i]·(1+ε)`), `ElasticDeformationGradient` sets
`m_w[i] = w[i]`; in every other case (level not yielding, or previous value at or above the
bound) `m_w[i]` is left unchanged. -/
theorem weight_latching (mat : FEReactivePlasticity R T) (pt : FEMaterialPoint R) (i : Nat)
    (hi : i < mat.m_n) (hKv : i < pt.pp.m_Kv.length) (hw : i < pt.pp.m_w.length) :
    ((mat.trialKv i (mat.levelEntry i pt) - mat.Ky.getD i 0 > 1 / 10000 * mat.Ky.getD i 0 ∧
        pt.pp.m_Ku.getD i 0 < mat.Ky.getD i 0 * (1 + 1 / 10000)) →
      (mat.ElasticDeformationGradient pt).pp.m_w.getD i 0 = mat.w.getD i 0) ∧
    (¬ (mat.trialKv i (mat.levelEntry i pt) - mat.Ky.getD i 0 > 1 / 10000 * mat.Ky.getD i 0 ∧
        pt.pp.m_Ku.getD i 0 < mat.Ky.getD i 0 * (1 + 1 / 10000)) →
      (mat.ElasticDeformationGradient pt).pp.m_w.getD i 0 = pt.pp.m_w.getD i 0) := by
  obtain ⟨-, -, e3, -, -, e6, -⟩ := ElasticDeformationGradient_entry mat pt i hi
  obtain ⟨-, g2, -, -, -, g6⟩ := levels_frame mat (1 / 10000) i pt
  obtain ⟨-, -, u3⟩ := levels_untouched mat (1 / 10000) i i (le_refl i) pt
  have hk : (mat.trialPoint i (mat.levelEntry i pt)).pp.m_Kv.getD i 0
      = mat.trialKv i (mat.levelEntry i pt) := by
    rw [trialPoint_eq]
    exact getD_set_eq _ _ _ _ (by rw [e6]; exact hKv)
  have hKu : (mat.levelEntry i pt).pp.m_Ku = pt.pp.m_Ku := g2
  have hwl : i < (mat.levelEntry i pt).pp.m_w.length := by
    rw [show (mat.levelEntry i pt).pp.m_w.length = pt.pp.m_w.length from g6]
    exact hw
  have hwe : (mat.levelEntry i pt).pp.m_w.getD i 0 = pt.pp.m_w.getD i 0 := u3
  rw [e3, levelUpdate_w, latchPoint_w, hk, hKu]
  constructor
  · rintro ⟨hy, hu⟩
    have hy' : ¬ mat.trialKv i (mat.levelEntry i pt) - mat.Ky.getD i 0
        ≤ 1 / 10000 * mat.Ky.getD i 0 := not_le.2 hy
    have hgt : mat.trialKv i (mat.levelEntry i pt) > pt.pp.m_Ku.getD i 0 := by
      have := (not_yielding_iff (mat.trialKv i (mat.levelEntry i pt)) (mat.Ky.getD i 0)
        (1 / 10000)).not.1 hy'
      linarith [not_le.1 this]
    rw [if_neg hy', if_pos ⟨hgt, hu⟩]
    exact getD_set_eq _ _ _ _ hwl
  · intro hn
    by_cases hy : mat.trialKv i (mat.levelEntry i pt) - mat.Ky.getD i 0
        ≤ 1 / 10000 * mat.Ky.getD i 0
    · rw [if_pos hy]
      exact hwe
    · rw [if_neg hy, if_neg (fun hc => hn ⟨not_le.1 hy, hc.2⟩)]
      exact hwe

end FEReactivePlasticity

namespace FEReactivePlasticity

/-- C21 (counterexample): for the material `matY` (`Ky[0] = 0`, `w[0] = 1`) at the point
`ptQ` (`Ku[0] = 0`, `m_w[0] = 0`) the level is yielding (`Kv[0] = 2`) and the previous yield
value is at the bound, `Ku[0] = 0 ≤ Ky[0]·(1+ε) = 0`, yet `m_w[0]` stays 0 and is not set to
`w[0] = 1`. -/
theorem weight_not_latched_at_bound :
    matY.trialKv 0 (matY.levelEntry 0 ptQ) - matY.Ky.getD 0 0
      > 1 / 10000 * matY.Ky.getD 0 0 ∧
    ptQ.pp.m_Ku.getD 0 0 ≤ matY.Ky.getD 0 0 * (1 + 1 / 10000) ∧
    matY.w.getD 0 0 = 1 ∧
    (matY.ElasticDeformationGradient ptQ).pp.m_w.getD 0 0 = 0 ∧
    (matY.ElasticDeformationGradient ptQ).pp.m_w.getD 0 0 ≠ matY.w.getD 0 0 := by
  rw [matY_ElasticDeformationGradient]
  refine ⟨?_, ?_, rfl, rfl, ?_⟩
  · simp [levelEntry, forLoop_zero, trialKv, matY, matY0, ptQ, FEMaterialPoint.setF]
  · simp [matY, ptQ]
  · simp [matY]

/-- The material `matQ` at `ptQ`: `Ky[0] = 1`, `Ku[0] = 0 < 1·(1+ε)`, the trial value is 2,
and the weight `w[0] = 1` is latched. -/
theorem weight_latching_witness :
    (0 < matQ.m_n ∧ 0 < ptQ.pp.m_Kv.length ∧ 0 < ptQ.pp.m_w.length) ∧
    (matQ.trialKv 0 (matQ.levelEntry 0 ptQ) - matQ.Ky.getD 0 0
        > 1 / 10000 * matQ.Ky.getD 0 0 ∧
      ptQ.pp.m_Ku.getD 0 0 < matQ.Ky.getD 0 0 * (1 + 1 / 10000)) ∧
    (matQ.ElasticDeformationGradient ptQ).pp.m_w.getD 0 0 = matQ.w.getD 0 0 :=
  have hc : matQ.trialKv 0 (matQ.levelEntry 0 ptQ) - matQ.Ky.getD 0 0
        > 1 / 10000 * matQ.Ky.getD 0 0 ∧
      ptQ.pp.m_Ku.getD 0 0 < matQ.Ky.getD 0 0 * (1 + 1 / 10000) := by
    rw [show matQ.levelEntry 0 ptQ = ptQ from rfl, matQ_trialKv]
    simp [matQ, ptQ]
    norm_num
  ⟨⟨by decide, by decide, by decide⟩, hc,
    (weight_latching matQ ptQ 0 (by decide) (by decide) (by decide)).1 hc⟩

end FEReactivePlasticity

namespace FEReactivePlasticity

variable {R T : Type} [LinearOrderedField R]

theorem newtonDlam_eq (mat : FEReactivePlasticity R T) (eps : R) (i : Nat) (Fe : mat3d R)
    (s : NewtonState R) :
    newtonDlam mat i Fe s
      = -(newtonStep mat eps i Fe s).phi / newtonDenom mat i Fe s := rfl

theorem latchPoint_Kv_length (mat : FEReactivePlasticity R T) (eps : R) (i : Nat)
    (pt : FEMaterialPoint R) :
    (mat.latchPoint eps i pt).pp.m_Kv.length = pt.pp.m_Kv.length :=
  (latchPoint_frame mat eps i pt).2.2.2.1

/-- In the first pass of the loop body `phi` is the trial value, when the criterion depends
on the elastic point only. -/
theorem first_pass_phi (mat : FEReactivePlasticity R T) (eps : R) (i : Nat)
    (pt : FEMaterialPoint R) (hKv : i < pt.pp.m_Kv.length)
    (hpure : ∀ p q : FEMaterialPoint R, p.pe = q.pe →
      mat.m_pCrit.DamageCriterion p = mat.m_pCrit.DamageCriterion q) :
    (newtonIterate mat eps i (pt.pe.m_F * pt.pp.m_Fusi.getD i 0) 1
        (mat.newtonInit eps i pt)).phi
      = mat.trialKv i pt - mat.Ky.getD i 0 := by
  have hl : i < (((mat.latchPoint eps i pt).setF (pt.pe.m_F * pt.pp.m_Fusi.getD i 0)
      (pt.pe.m_F * pt.pp.m_Fusi.getD i 0).det).setF (pt.pe.m_F * pt.pp.m_Fusi.getD i 0)
      (pt.pe.m_F * pt.pp.m_Fusi.getD i 0).det).pp.m_Kv.length := by
    show i < (mat.latchPoint eps i pt).pp.m_Kv.length
    rw [latchPoint_Kv_length]
    exact hKv
  show ((((mat.latchPoint eps i pt).setF (pt.pe.m_F * pt.pp.m_Fusi.getD i 0)
      (pt.pe.m_F * pt.pp.m_Fusi.getD i 0).det).setF (pt.pe.m_F * pt.pp.m_Fusi.getD i 0)
      (pt.pe.m_F * pt.pp.m_Fusi.getD i 0).det).pp.m_Kv.set i _).getD i 0 - mat.Ky.getD i 0 = _
  rw [getD_set_eq _ _ _ _ hl]
  congr 1
  exact hpure _ _ rfl

/-- C25: the return map never converges in its first iteration. For a yielding level `i`
with `Ky[i] ≥ 0`, a criterion that depends on the substituted elastic point only and a
non-zero Newton denominator, in the first pass of the loop `phi` is still the trial value,
`lam = dlam ≠ 0`, neither convergence test holds and `conv` stays `false`; consequently
with `maxiter ≤ 1` the level takes the fallback and `ElasticDeformationGradient` returns
with `Fvsi[i] = Fusi[i]`. -/
theorem no_first_iteration_convergence (mat : FEReactivePlasticity R T)
    (pt : FEMaterialPoint R) (i : Nat) (hi : i < mat.m_n)
    (hKv : i < pt.pp.m_Kv.length) (hFv : i < pt.pp.m_Fvsi.length)
    (hy : mat.trialKv i (mat.levelEntry i pt) - mat.Ky.getD i 0
      > 1 / 10000 * mat.Ky.getD i 0)
    (hKy : 0 ≤ mat.Ky.getD i 0)
    (hpure : ∀ p q : FEMaterialPoint R, p.pe = q.pe →
      mat.m_pCrit.DamageCriterion p = mat.m_pCrit.DamageCriterion q)
    (hden : newtonDenom mat i
      ((mat.levelEntry i pt).pe.m_F * (mat.levelEntry i pt).pp.m_Fusi.getD i 0)
      (mat.newtonInit (1 / 10000) i (mat.levelEntry i pt)) ≠ 0) :
    (newtonIterate mat (1 / 10000) i
        ((mat.levelEntry i pt).pe.m_F * (mat.levelEntry i pt).pp.m_Fusi.getD i 0) 1
        (mat.newtonInit (1 / 10000) i (mat.levelEntry i pt))).phi
      = mat.trialKv i (mat.levelEntry i pt) - mat.Ky.getD i 0 ∧
    (newtonIterate mat (1 / 10000) i
        ((mat.levelEntry i pt).pe.m_F * (mat.levelEntry i pt).pp.m_Fusi.getD i 0) 1
        (mat.newtonInit (1 / 10000) i (mat.levelEntry i pt))).lam
      = newtonDlam mat i
          ((mat.levelEntry i pt).pe.m_F * (mat.levelEntry i pt).pp.m_Fusi.getD i 0)
          (mat.newtonInit (1 / 10000) i (mat.levelEntry i pt)) ∧
    newtonDlam mat i
        ((mat.levelEntry i pt).pe.m_F * (mat.levelEntry i pt).pp.m_Fusi.getD i 0)
        (mat.newtonInit (1 / 10000) i (mat.levelEntry i pt)) ≠ 0 ∧
    ¬ metTest mat (1 / 10000) i (mat.newtonInit (1 / 10000) i (mat.levelEntry i pt))
        (newtonIterate mat (1 / 10000) i
          ((mat.levelEntry i pt).pe.m_F * (mat.levelEntry i pt).pp.m_Fusi.getD i 0) 1
          (mat.newtonInit (1 / 10000) i (mat.levelEntry i pt))) ∧
    (newtonIterate mat (1 / 10000) i
        ((mat.levelEntry i pt).pe.m_F * (mat.levelEntry i pt).pp.m_Fusi.getD i 0) 1
        (mat.newtonInit (1 / 10000) i (mat.levelEntry i pt))).conv = false ∧
    (mat.m_itmax ≤ 1 →
      (mat.ElasticDeformationGradient pt).pp.m_Fvsi.getD i 0
        = (mat.ElasticDeformationGradient pt).pp.m_Fusi.getD i 0) := by
  obtain ⟨-, e2, -, e4, e5, e6, e7⟩ := ElasticDeformationGradient_entry mat pt i hi
  have hKv' : i < (mat.levelEntry i pt).pp.m_Kv.length := by rw [e6]; exact hKv
  have hFv' : i < (mat.levelEntry i pt).pp.m_Fvsi.length := by rw [e7]; exact hFv
  generalize mat.levelEntry i pt = p at *
  have hphi := first_pass_phi mat (1 / 10000) i p hKv' hpure
  have hpos : 0 < mat.trialKv i p - mat.Ky.getD i 0 := by
    have : (0 : R) ≤ 1 / 10000 * mat.Ky.getD i 0 := mul_nonneg (by norm_num) hKy
    linarith
  have hlam : (newtonIterate mat (1 / 10000) i (p.pe.m_F * p.pp.m_Fusi.getD i 0) 1
      (mat.newtonInit (1 / 10000) i p)).lam
      = newtonDlam mat i (p.pe.m_F * p.pp.m_Fusi.getD i 0) (mat.newtonInit (1 / 10000) i p) := by
    show (0 : R) + _ = _
    rw [zero_add]
    rfl
  have hd : newtonDlam mat i (p.pe.m_F * p.pp.m_Fusi.getD i 0) (mat.newtonInit (1 / 10000) i p)
      ≠ 0 := by
    have e : newtonDlam mat i (p.pe.m_F * p.pp.m_Fusi.getD i 0)
        (mat.newtonInit (1 / 10000) i p)
        = -(mat.trialKv i p - mat.Ky.getD i 0)
          / newtonDenom mat i (p.pe.m_F * p.pp.m_Fusi.getD i 0)
              (mat.newtonInit (1 / 10000) i p) := by
      rw [← hphi]
      rfl
    rw [e]
    exact div_ne_zero (neg_ne_zero.2 hpos.ne') hden
  have hmet : ¬ metTest mat (1 / 10000) i (mat.newtonInit (1 / 10000) i p)
      (newtonIterate mat (1 / 10000) i (p.pe.m_F * p.pp.m_Fusi.getD i 0) 1
        (mat.newtonInit (1 / 10000) i p)) := by
    unfold metTest
    rw [hphi, hlam]
    have h0 : (mat.newtonInit (1 / 10000) i p).lam = 0 := rfl
    rw [h0, sub_zero]
    rintro (h | h)
    · have hp : 0 < |newtonDlam mat i (p.pe.m_F * p.pp.m_Fusi.getD i 0)
          (mat.newtonInit (1 / 10000) i p)| := abs_pos.2 hd
      nlinarith
    · rw [abs_of_pos hpos] at h
      nlinarith
  have hconv : (newtonIterate mat (1 / 10000) i (p.pe.m_F * p.pp.m_Fusi.getD i 0) 1
      (mat.newtonInit (1 / 10000) i p)).conv = false := by
    by_contra hc
    have hc' : (newtonIterate mat (1 / 10000) i (p.pe.m_F * p.pp.m_Fusi.getD i 0) 1
        (mat.newtonInit (1 / 10000) i p)).conv = true := by simpa using hc
    rcases (newtonStep_conv mat (1 / 10000) i (p.pe.m_F * p.pp.m_Fusi.getD i 0) _).1 hc'
      with h | h
    · exact absurd (show (false : Bool) = true from h) (by decide)
    · exact hmet h
  refine ⟨hphi, hlam, hd, hmet, hconv, fun hit => ?_⟩
  rw [e2, e4, ← e5]
  have hk : (mat.trialPoint i p).pp.m_Kv.getD i 0 = mat.trialKv i p := by
    rw [trialPoint_eq]
    exact getD_set_eq _ _ _ _ hKv'
  rcases levelUpdate_outcome mat (1 / 10000) i p hKv' hFv' with
    ⟨h1, -, -⟩ | ⟨-, -, -, h4⟩ | ⟨-, h2, -, -⟩
  · rw [hk] at h1
    exact absurd h1 (not_le.2 hy)
  · exact h4
  · exfalso
    rcases (levelNewton_char mat (1 / 10000) i p).2 with ⟨c1, -, k, k1, k2, -, k4, -⟩ |
      ⟨-, c2, -⟩
    · obtain rfl : k = 1 := by omega
      rw [k4, hconv] at c1
      exact absurd c1 (by decide)
    · omega

end FEReactivePlasticity

namespace FEReactivePlasticity

theorem matY_denom :
    matY.newtonDenom 0 (ptQ.pe.m_F * ptQ.pp.m_Fusi.getD 0 0)
      (matY.newtonInit (1 / 10000) 0 ptQ) = -3 := by
  have hFe : ptQ.pe.m_F * ptQ.pp.m_Fusi.getD 0 0 = 1 := by simp [ptQ]
  rw [hFe, matY_newtonInit]
  unfold newtonDenom
  simp only [FEMaterialPoint.setF, Matrix.det_one]
  rw [matY_YieldSurfaceNormal _ rfl]
  simp [matY, matY0, libQ, FEMaterialPoint.setKv, Matrix.trace_fin_three]

/-- The material `matY` (`Ky[0] = 0`, `maxiter = 1`, criterion `2·J`) at `ptQ`: the trial
value is 2, the Newton denominator is −3, and the level ends with `Fvsi[0] = Fusi[0]`. -/
theorem no_first_iteration_convergence_witness :
    (matY.trialKv 0 (matY.levelEntry 0 ptQ) - matY.Ky.getD 0 0
        > 1 / 10000 * matY.Ky.getD 0 0 ∧
      0 ≤ matY.Ky.getD 0 0 ∧
      matY.newtonDenom 0
        ((matY.levelEntry 0 ptQ).pe.m_F * (matY.levelEntry 0 ptQ).pp.m_Fusi.getD 0 0)
        (matY.newtonInit (1 / 10000) 0 (matY.levelEntry 0 ptQ)) ≠ 0 ∧
      matY.m_itmax ≤ 1) ∧
    (newtonIterate matY (1 / 10000) 0
        ((matY.levelEntry 0 ptQ).pe.m_F * (matY.levelEntry 0 ptQ).pp.m_Fusi.getD 0 0) 1
        (matY.newtonInit (1 / 10000) 0 (matY.levelEntry 0 ptQ))).conv = false ∧
    (matY.ElasticDeformationGradient ptQ).pp.m_Fvsi.getD 0 0
      = (matY.ElasticDeformationGradient ptQ).pp.m_Fusi.getD 0 0 :=
  have he : matY.levelEntry 0 ptQ = ptQ := rfl
  have hy : matY.trialKv 0 (matY.levelEntry 0 ptQ) - matY.Ky.getD 0 0
      > 1 / 10000 * matY.Ky.getD 0 0 := by
    simp [levelEntry, forLoop_zero, trialKv, matY, matY0, ptQ, FEMaterialPoint.setF]
  have hKy : 0 ≤ matY.Ky.getD 0 0 := by simp [matY]
  have hpure : ∀ p q : FEMaterialPoint ℚ, p.pe = q.pe →
      matY.m_pCrit.DamageCriterion p = matY.m_pCrit.DamageCriterion q := by
    intro p q h
    simp [matY, matY0, h]
  have hden : matY.newtonDenom 0
      ((matY.levelEntry 0 ptQ).pe.m_F * (matY.levelEntry 0 ptQ).pp.m_Fusi.getD 0 0)
      (matY.newtonInit (1 / 10000) 0 (matY.levelEntry 0 ptQ)) ≠ 0 := by
    rw [he, matY_denom]
    norm_num
  ⟨⟨hy, hKy, hden, by decide⟩,
    (no_first_iteration_convergence matY ptQ 0 (by decide) (by decide) (by decide) hy hKy
      hpure hden).2.2.2.2.1,
    (no_first_iteration_convergence matY ptQ 0 (by decide) (by decide) (by decide) hy hKy
      hpure hden).2.2.2.2.2 (by decide)⟩

end FEReactivePlasticity

/-! ## FEDomainMap and FEMesh::GetFace: lemmas -/

namespace FEDomainMap

variable {R : Type} [Zero R]

/-- The loop of `setValue` after `m` passes. -/
theorem setValue_loop (map : FEDomainMap R) (index : Nat) (v : R) (m : Nat) :
    (forLoop m (fun i (map : FEDomainMap R) => map.set (index + i) v) map).m_maxElemNodes
      = map.m_maxElemNodes ∧
    (forLoop m (fun i (map : FEDomainMap R) => map.set (index + i) v) map).m_val.length
      = map.m_val.length ∧
    ∀ k, (forLoop m (fun i (map : FEDomainMap R) => map.set (index + i) v) map).m_val.getD k 0
      = if index ≤ k ∧ k < index + m ∧ k < map.m_val.length then v else map.m_val.getD k 0 := by
  induction m with
  | zero =>
    refine ⟨rfl, rfl, fun k => ?_⟩
    rw [forLoop_zero, if_neg (by omega)]
  | succ m ih =>
    obtain ⟨h1, h2, h3⟩ := ih
    rw [forLoop_succ]
    refine ⟨h1, ?_, fun k => ?_⟩
    · show (List.set _ _ _).length = _
      rw [List.length_set, h2]
    · show (List.set _ _ _).getD k 0 = _
      by_cases hk : k = index + m
      · subst hk
        by_cases hl : index + m < map.m_val.length
        · rw [getD_set_eq _ _ _ _ (by rw [h2]; exact hl), if_pos ⟨by omega, by omega, hl⟩]
        · rw [if_neg (by omega), List.set_eq_of_length_le (by rw [h2]; omega), h3,
            if_neg (by omega)]
      · rw [getD_set_ne _ _ _ _ _ hk, h3 k]
        by_cases hc : index ≤ k ∧ k < index + m ∧ k < map.m_val.length
        · rw [if_pos hc, if_pos ⟨hc.1, by omega, hc.2.2⟩]
        · rw [if_neg hc, if_neg (by omega)]

/-- `setValue(n, v)` writes `v` to the `m_maxElemNodes` entries of element `n` and changes
nothing else. -/
theorem setValue_entries (map : FEDomainMap R) (n : Nat) (v : R) :
    (map.setValue n v).m_maxElemNodes = map.m_maxElemNodes ∧
    (map.setValue n v).m_val.length = map.m_val.length ∧
    ∀ k, (map.setValue n v).m_val.getD k 0
      = if n * map.m_maxElemNodes ≤ k ∧ k < n * map.m_maxElemNodes + map.m_maxElemNodes ∧
          k < map.m_val.length then v else map.m_val.getD k 0 :=
  setValue_loop map (n * map.m_maxElemNodes) v map.m_maxElemNodes

/-- With one entry per element `value` reads what `setValue` wrote. -/
theorem value_setValue_one (map : FEDomainMap R) (n : Nat) (v : R)
    (hm : map.m_maxElemNodes = 1) (hn : n < map.m_val.length) :
    (map.setValue n v).value n = v := by
  show (map.setValue n v).m_val.getD n 0 = v
  rw [(setValue_entries map n v).2.2 n, hm, if_pos ⟨by omega, by omega, hn⟩]

end FEDomainMap

namespace FEDomainMap

/-- C26 (the failing input): a map created on a domain of two elements with two nodes each
has `m_maxElemNodes = 2` and four entries; `setValue(1, 5)` writes the entries 2 and 3 of
element 1, but `value` for a material point of the element with local id 1 reads entry 1,
which belongs to element 0, and returns 0 instead of 5. The assertion
`lid < DataCount()` holds there. -/
theorem value_after_setValue_two_nodes :
    ((⟨[], 0⟩ : FEDomainMap ℚ).Create twoLineElements 0).m_maxElemNodes = 2 ∧
    ((⟨[], 0⟩ : FEDomainMap ℚ).Create twoLineElements 0).m_val = [0, 0, 0, 0] ∧
    (((⟨[], 0⟩ : FEDomainMap ℚ).Create twoLineElements 0).setValue 1 5).m_val
      = [0, 0, 5, 5] ∧
    1 < (((⟨[], 0⟩ : FEDomainMap ℚ).Create twoLineElements 0).setValue 1 5).DataCount ∧
    (((⟨[], 0⟩ : FEDomainMap ℚ).Create twoLineElements 0).setValue 1 5).value 1 = 0 ∧
    (((⟨[], 0⟩ : FEDomainMap ℚ).Create twoLineElements 0).setValue 1 5).value 1 ≠ 5 := by
  have hc : (⟨[], 0⟩ : FEDomainMap ℚ).Create twoLineElements 0 = ⟨[0, 0, 0, 0], 2⟩ := by
    simp [Create, twoLineElements, forLoop, resize, List.range_succ, List.replicate]
  have hs : (⟨[0, 0, 0, 0], 2⟩ : FEDomainMap ℚ).setValue 1 5 = ⟨[0, 0, 5, 5], 2⟩ := by
    simp [setValue, forLoop, set, List.range_succ]
  rw [hc, hs]
  refine ⟨rfl, rfl, rfl, by decide, rfl, ?_⟩
  show (0 : ℚ) ≠ 5
  norm_num

end FEDomainMap

namespace FEMesh

open FE_Element_Type

/-- The tables of `GetFace` pass the check for every solid element type. -/
theorem closedOriented_solid (t : FE_Element_Type) (h : isSolid t = true) :
    closedOriented t (Faces { elemType := t, m_node := [] }) (typeNodes t) = true := by
  cases t <;> first | exact absurd h (by decide) | decide

theorem Faces_eq (el : FEElement) : Faces el = Faces { elemType := el.elemType, m_node := [] } := rfl

theorem cyclicEdges_map {α β : Type} (f : α → β) (l : List α) :
    cyclicEdges (l.map f) = (cyclicEdges l).map (Prod.map f f) := by
  unfold cyclicEdges
  rw [← List.map_rotate, List.zip_map]

theorem assign_initial (nf en : Nat → Int) (l : List Nat) (c : Nat) (h : c ≤ l.length) :
    (List.range c).map (assign nf en l) = (l.take c).map en := by
  apply List.ext_getElem
  · simp [h]
  · intro k h1 h2
    have hk : k < c := by simpa using h1
    have hkl : k < l.length := by omega
    simp [assign, List.getElem_take, List.get?_eq_getElem?, List.getElem?_eq_getElem hkl]

/-- The corner edges of a face are the images of the index edges. -/
theorem faceEdges_eq (el : FEElement) (n : Nat)
    (h : faceCorners (faceCount el.elemType n) ≤ (faceList el.elemType n).length) :
    faceEdges el n
      = (indexEdges el.elemType n).map
          (Prod.map (fun k => el.m_node.getD k 0) (fun k => el.m_node.getD k 0)) := by
  unfold faceEdges indexEdges GetFace
  dsimp only
  rw [assign_initial _ _ _ _ h, cyclicEdges_map]

theorem getD_inj (l : List Int) (hd : l.Nodup) (i j : Nat) (hi : i < l.length)
    (hj : j < l.length) (h : l.getD i 0 = l.getD j 0) : i = j := by
  rw [List.getD_eq_getElem l 0 hi, List.getD_eq_getElem l 0 hj] at h
  exact (List.Nodup.getElem_inj_iff hd).1 h

theorem mem_cyclicEdges {α : Type} (l : List α) (e : α × α) (h : e ∈ cyclicEdges l) :
    e.1 ∈ l ∧ e.2 ∈ l := by
  unfold cyclicEdges at h
  have h1 := List.of_mem_zip h
  exact ⟨h1.1, List.mem_rotate.1 h1.2⟩

/-- Membership of an image edge, for a map that is injective on the indices below `N`. -/
theorem mem_map_edges (f : Nat → Int) (N : Nat)
    (hf : ∀ i j, i < N → j < N → f i = f j → i = j) (E : List (Nat × Nat))
    (hE : ∀ e ∈ E, e.1 < N ∧ e.2 < N) (a b : Nat) (ha : a < N) (hb : b < N) :
    (f a, f b) ∈ E.map (Prod.map f f) ↔ (a, b) ∈ E := by
  constructor
  · intro h
    obtain ⟨⟨a', b'⟩, hm, he⟩ := List.mem_map.1 h
    obtain ⟨h1, h2⟩ := hE _ hm
    have e1 : f a' = f a := congrArg Prod.fst he
    have e2 : f b' = f b := congrArg Prod.snd he
    rw [← hf a' a h1 ha e1, ← hf b' b h2 hb e2]
    exact hm
  · intro h
    exact List.mem_map.2 ⟨(a, b), h, rfl⟩

theorem filter_length_one (F : Nat) (p : Nat → Bool)
    (h : ((List.range F).filter p).length = 1) :
    ∃! n2, n2 < F ∧ p n2 = true := by
  have hnd : ((List.range F).filter p).Nodup := (List.nodup_range F).filter _
  obtain ⟨x, hx⟩ := List.length_eq_one.1 h
  have hmem : ∀ y, y ∈ (List.range F).filter p ↔ y < F ∧ p y = true := by
    intro y
    simp [List.mem_filter]
  refine ⟨x, (hmem x).1 (by rw [hx]; exact List.mem_singleton_self x), fun y hy => ?_⟩
  have := (hmem y).2 hy
  rw [hx] at this
  exact List.mem_singleton.1 this

end FEMesh

namespace FEMesh

open FE_Element_Type

/-- What the check says about one face. -/
theorem closedOriented_face (t : FE_Element_Type) (F N : Nat)
    (h : closedOriented t F N = true) (n : Nat) (hn : n < F) :
    (∀ k ∈ faceList t n, k < N) ∧
    3 ≤ faceCount t n ∧
    (faceCount t n).toNat ≤ (faceList t n).length ∧
    ((faceList t n).take (faceCount t n).toNat).Nodup ∧
    (∀ k ∈ faceList t n, k ∈ (faceList t n).take (faceCount t n).toNat) ∧
    faceCorners (faceCount t n) ≤ (faceList t n).length ∧
    ∀ e ∈ indexEdges t n,
      ((List.range F).filter fun n2 =>
        decide (n2 ≠ n) && decide ((e.2, e.1) ∈ indexEdges t n2)).length = 1 ∧
      ∀ n2, n2 < F → n2 = n ∨ e ∉ indexEdges t n2 := by
  rw [closedOriented, List.all_eq_true] at h
  have h1 := h n (List.mem_range.2 hn)
  simp only [Bool.and_eq_true, Bool.or_eq_true, decide_eq_true_eq, List.all_eq_true,
    List.mem_range] at h1
  obtain ⟨⟨⟨⟨⟨⟨a1, a2⟩, a3⟩, a4⟩, a5⟩, a6⟩, a7⟩ := h1
  exact ⟨a1, a2, a3, a4, a5, a6, a7⟩

theorem indexEdges_lt (t : FE_Element_Type) (n N : Nat) (h : ∀ k ∈ faceList t n, k < N)
    (e : Nat × Nat) (he : e ∈ indexEdges t n) : e.1 < N ∧ e.2 < N := by
  obtain ⟨h1, h2⟩ := mem_cyclicEdges _ e he
  exact ⟨h _ (List.mem_of_mem_take h1), h _ (List.mem_of_mem_take h2)⟩

theorem assign_eq (nf en : Nat → Int) (l : List Nat) (k : Nat) (h : k < l.length) :
    assign nf en l k = en (l.get ⟨k, h⟩) := by
  simp [assign, List.get?_eq_getElem?, List.getElem?_eq_getElem h]

theorem assign_out (nf en : Nat → Int) (l : List Nat) (k : Nat) (h : l.length ≤ k) :
    assign nf en l k = nf k := by
  simp [assign, List.get?_eq_getElem?, List.getElem?_eq_none h]

end FEMesh

namespace FEMesh

open FE_Element_Type

/-- C27: the face tables of `GetFace` describe a closed, consistently oriented boundary.
For every solid element type handled (hex8, hex20, hex27, penta6, tet4, tet10, tet15) with
pairwise distinct element nodes and every face index `n < Faces(el)`: `GetFace` returns the
face's node count `nn ≥ 3`, the entries `nf[0..nn-1]` are pairwise distinct entries of
`el.m_node`, every entry of `nf` that is written is one of them, the other entries of `nf`
are left as they are; and every directed corner edge `(a, b)` of the face occurs reversed,
`(b, a)`, in exactly one other face of the element and in the same direction in no other
face. -/
theorem GetFace_closed_oriented (el : FEElement) (hs : isSolid el.elemType = true)
    (hlen : el.m_node.length = typeNodes el.elemType) (hd : el.m_node.Nodup)
    (n : Nat) (hn : n < Faces el) (nf : Nat → Int) :
    (∃ nn : Nat, (GetFace el n nf).1 = (nn : Int) ∧ 3 ≤ nn ∧
      ((List.range nn).map (GetFace el n nf).2).Nodup ∧
      (∀ k, k < nn → (GetFace el n nf).2 k ∈ el.m_node) ∧
      ∀ k, (GetFace el n nf).2 k = nf k ∨
        ∃ j, j < nn ∧ (GetFace el n nf).2 k = (GetFace el n nf).2 j) ∧
    (∀ e ∈ faceEdges el n,
      (∃! n2, n2 < Faces el ∧ n2 ≠ n ∧ (e.2, e.1) ∈ faceEdges el n2) ∧
      (∀ n2, n2 < Faces el → n2 ≠ n → e ∉ faceEdges el n2)) := by
  have hc := closedOriented_solid el.elemType hs
  rw [← Faces_eq el] at hc
  have hinj : ∀ i j, i < typeNodes el.elemType → j < typeNodes el.elemType →
      el.m_node.getD i 0 = el.m_node.getD j 0 → i = j := fun i j hi hj h =>
    getD_inj el.m_node hd i j (by rw [hlen]; exact hi) (by rw [hlen]; exact hj) h
  obtain ⟨a1, a2, a3, a4, a5, a6, a7⟩ := closedOriented_face _ _ _ hc n hn
  obtain ⟨nn, hnn⟩ : ∃ nn : Nat, faceCount el.elemType n = (nn : Int) :=
    ⟨(faceCount el.elemType n).toNat, (Int.toNat_of_nonneg (by omega)).symm⟩
  have hnn' : (faceCount el.elemType n).toNat = nn := by rw [hnn]; rfl
  rw [hnn'] at a3 a4 a5
  have hpre : (List.range nn).map (GetFace el n nf).2
      = ((faceList el.elemType n).take nn).map (fun k => el.m_node.getD k 0) :=
    assign_initial _ _ _ _ a3
  refine ⟨⟨nn, hnn, by omega, ?_, fun k hk => ?_, fun k => ?_⟩, fun e he => ?_⟩
  · rw [hpre]
    refine List.Nodup.map_on (fun x hx y hy hxy => ?_) a4
    exact hinj x y (a1 x (List.mem_of_mem_take hx)) (a1 y (List.mem_of_mem_take hy)) hxy
  · have hkl : k < (faceList el.elemType n).length := by omega
    show assign nf _ _ k ∈ el.m_node
    rw [assign_eq _ _ _ k hkl, List.getD_eq_getElem _ 0
      (by rw [hlen]; exact a1 _ (List.get_mem _ _ _))]
    exact List.getElem_mem _
  · by_cases hkl : k < (faceList el.elemType n).length
    · right
      have hm := a5 _ (List.get_mem (faceList el.elemType n) k hkl)
      obtain ⟨j, hj, hje⟩ := List.getElem_of_mem hm
      have hj' : j < nn := by
        rw [List.length_take] at hj
        omega
      have hjl : j < (faceList el.elemType n).length := by omega
      refine ⟨j, hj', ?_⟩
      show assign nf _ _ k = assign nf _ _ j
      rw [assign_eq _ _ _ k hkl, assign_eq _ _ _ j hjl]
      congr 1
      rw [List.getElem_take] at hje
      exact hje.symm
    · left
      exact assign_out _ _ _ k (by omega)
  · rw [faceEdges_eq el n a6] at he
    obtain ⟨⟨a, b⟩, hab, rfl⟩ := List.mem_map.1 he
    obtain ⟨b1, b2⟩ := a7 (a, b) hab
    obtain ⟨ha, hb⟩ := indexEdges_lt _ _ _ a1 (a, b) hab
    have key : ∀ n2, n2 < Faces el → ∀ x y, x < typeNodes el.elemType →
        y < typeNodes el.elemType →
        ((el.m_node.getD x 0, el.m_node.getD y 0) ∈ faceEdges el n2
          ↔ (x, y) ∈ indexEdges el.elemType n2) := by
      intro n2 hn2 x y hx hy
      obtain ⟨c1, -, -, -, -, c6, -⟩ := closedOriented_face _ _ _ hc n2 hn2
      rw [faceEdges_eq el n2 c6]
      exact mem_map_edges _ _ hinj _ (fun e he => indexEdges_lt _ _ _ c1 e he) x y hx hy
    constructor
    · obtain ⟨m, hm, hu⟩ := filter_length_one _ _ b1
      simp only [Bool.and_eq_true, decide_eq_true_eq] at hm hu
      refine ⟨m, ⟨hm.1, hm.2.1, (key m hm.1 b a hb ha).2 hm.2.2⟩, fun y hy => ?_⟩
      exact hu y ⟨hy.1, hy.2.1, (key y hy.1 b a hb ha).1 hy.2.2⟩
    · intro n2 hn2 hne hmem
      rcases b2 n2 hn2 with h | h
      · exact hne h
      · exact h ((key n2 hn2 a b ha hb).1 hmem)

end FEMesh

namespace FEMesh

/-- The hexahedron `hexEl`, face 0: the nodes 10, 11, 15, 14. -/
theorem GetFace_closed_oriented_witness :
    (isSolid hexEl.elemType = true ∧ hexEl.m_node.length = typeNodes hexEl.elemType ∧
      hexEl.m_node.Nodup ∧ 0 < Faces hexEl) ∧
    faceEdges hexEl 0 = [(10, 11), (11, 15), (15, 14), (14, 10)] ∧
    ∀ e ∈ faceEdges hexEl 0,
      (∃! n2, n2 < Faces hexEl ∧ n2 ≠ 0 ∧ (e.2, e.1) ∈ faceEdges hexEl n2) ∧
      (∀ n2, n2 < Faces hexEl → n2 ≠ 0 → e ∉ faceEdges hexEl n2) :=
  ⟨⟨by decide, by decide, by decide, by decide⟩, by decide,
    (GetFace_closed_oriented hexEl (by decide) (by decide) (by decide) 0 (by decide)
      (fun _ => 0)).2⟩

end FEMesh


namespace FEErosionAdaptor

theorem markSelection_loop (selection : List Int) (m k : Nat) :
    forLoop m (fun i elemList => setAt elemList (selection.getD i 0).toNat 1) (fun _ => 0) k
      = if ∃ i, i < m ∧ (selection.getD i 0).toNat = k then 1 else 0 := by
  induction m with
  | zero => simp [forLoop_zero]
  | succ m ih =>
    rw [forLoop_succ, setAt]
    by_cases h : k = (selection.getD m 0).toNat
    · rw [if_pos h, if_pos ⟨m, Nat.lt_succ_self m, h.symm⟩]
    · rw [if_neg h, ih]
      by_cases h2 : ∃ i, i < m ∧ (selection.getD i 0).toNat = k
      · obtain ⟨i, hi, he⟩ := h2
        rw [if_pos ⟨i, hi, he⟩, if_pos ⟨i, Nat.lt_succ_of_lt hi, he⟩]
      · rw [if_neg h2, if_neg]
        rintro ⟨i, hi, he⟩
        rcases Nat.lt_succ_iff_lt_or_eq.1 hi with h3 | h3
        · exact h2 ⟨i, h3, he⟩
        · subst h3
          exact h he.symm

/-- `elemList[k]` is 1 for the selected indices and 0 elsewhere. -/
theorem markSelection_eq (selection : List Int) (k : Nat) :
    markSelection selection k = if ∃ s ∈ selection, s.toNat = k then 1 else 0 := by
  unfold markSelection
  rw [markSelection_loop]
  have : (∃ i, i < selection.length ∧ (selection.getD i 0).toNat = k)
      ↔ ∃ s ∈ selection, s.toNat = k := by
    constructor
    · rintro ⟨i, hi, he⟩
      refine ⟨selection.getD i 0, ?_, he⟩
      rw [List.getD_eq_getElem _ 0 hi]
      exact List.getElem_mem _
    · rintro ⟨s, hs, he⟩
      obtain ⟨i, hi, rfl⟩ := List.getElem_of_mem hs
      exact ⟨i, hi, by rw [List.getD_eq_getElem _ 0 hi]; exact he⟩
  simp only [this]

theorem deactivateElements_eq (elemList : Nat → Int) (els : List FEElement) (st : Nat × Nat) :
    (deactivateElements elemList els st).1 = erodeList elemList els st.2 ∧
    (deactivateElements elemList els st).2.1 = st.1 + countMarked elemList st.2 els.length ∧
    (deactivateElements elemList els st).2.2 = st.2 + els.length := by
  induction els generalizing st with
  | nil => exact ⟨rfl, rfl, rfl⟩
  | cons el els ih =>
    rw [deactivateElements]
    dsimp only
    by_cases h : elemList st.2 = 1
    · rw [if_pos h]
      obtain ⟨a1, a2, a3⟩ := ih (st.1 + 1, st.2 + 1)
      dsimp only at a1 a2 a3
      refine ⟨?_, ?_, ?_⟩
      · show _ :: _ = _
        rw [a1, erodeList, erode, if_pos h]
      · show (deactivateElements elemList els (st.1 + 1, st.2 + 1)).2.1 = _
        rw [a2, List.length_cons, countMarked, if_pos h]
        omega
      · show (deactivateElements elemList els (st.1 + 1, st.2 + 1)).2.2 = _
        rw [a3, List.length_cons]
        omega
    · rw [if_neg h]
      obtain ⟨a1, a2, a3⟩ := ih (st.1, st.2 + 1)
      dsimp only at a1 a2 a3
      refine ⟨?_, ?_, ?_⟩
      · show _ :: _ = _
        rw [a1, erodeList, erode, if_neg h]
      · show (deactivateElements elemList els (st.1, st.2 + 1)).2.1 = _
        rw [a2, List.length_cons, countMarked, if_neg h]
        omega
      · show (deactivateElements elemList els (st.1, st.2 + 1)).2.2 = _
        rw [a3, List.length_cons]
        omega

theorem erodeList_append (elemList : Nat → Int) (l1 l2 : List FEElement) (k : Nat) :
    erodeList elemList (l1 ++ l2) k
      = erodeList elemList l1 k ++ erodeList elemList l2 (k + l1.length) := by
  induction l1 generalizing k with
  | nil => rfl
  | cons el l1 ih =>
    have e : k + 1 + l1.length = k + (l1.length + 1) := by omega
    rw [List.cons_append, erodeList, erodeList, ih, List.cons_append, List.length_cons, e]

theorem erodeList_length (elemList : Nat → Int) (l : List FEElement) (k : Nat) :
    (erodeList elemList l k).length = l.length := by
  induction l generalizing k with
  | nil => rfl
  | cons el l ih => rw [erodeList, List.length_cons, List.length_cons, ih]

theorem erodeList_get? (elemList : Nat → Int) (l : List FEElement) (k j : Nat) :
    (erodeList elemList l k).get? j = (l.get? j).map (erode elemList (k + j)) := by
  induction l generalizing k j with
  | nil => rfl
  | cons el l ih =>
    cases j with
    | zero => rfl
    | succ j =>
      have e : k + 1 + j = k + (j + 1) := by omega
      rw [erodeList, List.get?_cons_succ, List.get?_cons_succ, ih, e]

theorem countMarked_add (elemList : Nat → Int) (k n m : Nat) :
    countMarked elemList k (n + m)
      = countMarked elemList k n + countMarked elemList (k + n) m := by
  induction n generalizing k with
  | zero => simp [countMarked]
  | succ n ih =>
    rw [Nat.succ_add, countMarked, countMarked, ih]
    have : k + 1 + n = k + (n + 1) := by omega
    rw [this]
    omega

theorem countMarked_pos (elemList : Nat → Int) (k n j : Nat) (hj : j < n)
    (h : elemList (k + j) = 1) : 0 < countMarked elemList k n := by
  induction n generalizing k j with
  | zero => omega
  | succ n ih =>
    rw [countMarked]
    cases j with
    | zero =>
      rw [Nat.add_zero] at h
      rw [if_pos h]
      omega
    | succ j =>
      have := ih (k + 1) j (by omega) (by rw [← h]; congr 1; omega)
      omega

theorem deactivateDomains_eq (elemList : Nat → Int) (doms : List (List FEElement))
    (st : Nat × Nat) :
    (deactivateDomains elemList doms st).1.flatten = erodeList elemList doms.flatten st.2 ∧
    (deactivateDomains elemList doms st).1.map List.length = doms.map List.length ∧
    (deactivateDomains elemList doms st).2.1
      = st.1 + countMarked elemList st.2 doms.flatten.length := by
  induction doms generalizing st with
  | nil => exact ⟨rfl, rfl, rfl⟩
  | cons dom doms ih =>
    rw [deactivateDomains]
    dsimp only
    obtain ⟨a1, a2, a3⟩ := deactivateElements_eq elemList dom st
    obtain ⟨b1, b2, b3⟩ := ih (deactivateElements elemList dom st).2
    refine ⟨?_, ?_, ?_⟩
    · rw [List.flatten_cons, List.flatten_cons, b1, a1, a3, erodeList_append]
    · rw [List.map_cons, List.map_cons, b2, a1, erodeList_length]
    · rw [b3, a2, a3, List.flatten_cons, List.length_append, countMarked_add]
      omega

end FEErosionAdaptor

namespace FEErosionAdaptor

/-- The call of `Apply` that passes the three early returns. -/
theorem Apply_run (ad : FEErosionAdaptor) (ops : FENodeDofs)
    (activate : List FELinearConstraint → List FELinearConstraint) (fem : FEModel)
    (iteration : Int) (selection : List Int)
    (h1 : ¬ (ad.m_maxIters ≥ 0 ∧ iteration ≥ ad.m_maxIters))
    (h2 : ad.m_criterion = some selection) (h3 : selection ≠ []) :
    ad.Apply ops activate fem iteration
      = (decide ((deactivateDomains (markSelection selection) fem.domains (0, 0)).2.1 = 0),
          { domains := (deactivateDomains (markSelection selection) fem.domains (0, 0)).1
            nodes := excludeOrphans ops
              (tagNodes (deactivateDomains (markSelection selection) fem.domains (0, 0)).1)
              fem.nodes 0
            lcm := activate
              (removeLoop
                (fun lc => slaveExcluded
                  (excludeOrphans ops
                    (tagNodes (deactivateDomains (markSelection selection) fem.domains
                      (0, 0)).1) fem.nodes 0) lc.slave)
                (removeLoop
                  (fun lc => nodeExcluded
                    (excludeOrphans ops
                      (tagNodes (deactivateDomains (markSelection selection) fem.domains
                        (0, 0)).1) fem.nodes 0) lc.master)
                  fem.lcm.length 0 fem.lcm).length 0
                (removeLoop
                  (fun lc => nodeExcluded
                    (excludeOrphans ops
                      (tagNodes (deactivateDomains (markSelection selection) fem.domains
                        (0, 0)).1) fem.nodes 0) lc.master)
                  fem.lcm.length 0 fem.lcm)) }) := by
  have h4 : selection.isEmpty = false := by
    cases selection with
    | nil => exact absurd rfl h3
    | cons s l => rfl
  unfold Apply
  rw [if_neg h1, h2]
  simp only [h4, Bool.false_eq_true, if_false]

/-- C28: `Apply` returns `true` exactly when it deactivated no element. If the iteration
limit is reached (`max_iters ≥ 0` and `iteration ≥ max_iters`), no criterion is set, or the
criterion's selection is empty, it returns `true` and the model is unchanged (no element,
node or linear constraint changes); otherwise, for a selection of valid global element
indices, it returns `false`, the domains keep their sizes, and the element with the global
index `k` is inactive when `k` is selected and is unchanged when it is not. -/
theorem Apply_returns (ad : FEErosionAdaptor) (ops : FENodeDofs)
    (activate : List FELinearConstraint → List FELinearConstraint) (fem : FEModel)
    (iteration : Int) :
    (((ad.m_maxIters ≥ 0 ∧ iteration ≥ ad.m_maxIters) ∨ ad.m_criterion = none ∨
        ad.m_criterion = some []) →
      ad.Apply ops activate fem iteration = (true, fem)) ∧
    (∀ selection : List Int, ¬ (ad.m_maxIters ≥ 0 ∧ iteration ≥ ad.m_maxIters) →
      ad.m_criterion = some selection → selection ≠ [] →
      (∀ s ∈ selection, 0 ≤ s ∧ s < (fem.domains.flatten.length : Int)) →
      (ad.Apply ops activate fem iteration).1 = false ∧
      (ad.Apply ops activate fem iteration).2.domains.map List.length
        = fem.domains.map List.length ∧
      ∀ k : Nat, (ad.Apply ops activate fem iteration).2.domains.flatten.get? k
        = (fem.domains.flatten.get? k).map
            (fun el => if (k : Int) ∈ selection then { el with active := false } else el)) := by
  constructor
  · intro h
    unfold Apply
    by_cases h1 : ad.m_maxIters ≥ 0 ∧ iteration ≥ ad.m_maxIters
    · rw [if_pos h1]
    · rw [if_neg h1]
      rcases h with h | h | h
      · exact absurd h h1
      · rw [h]
      · rw [h]
        rfl
  · intro selection h1 h2 h3 hv
    obtain ⟨a1, a2, a3⟩ := deactivateDomains_eq (markSelection selection) fem.domains (0, 0)
    rw [Apply_run ad ops activate fem iteration selection h1 h2 h3]
    have hmark : ∀ k : Nat, markSelection selection k = 1 ↔ (k : Int) ∈ selection := by
      intro k
      rw [markSelection_eq]
      constructor
      · intro h
        by_cases hc : ∃ s ∈ selection, s.toNat = k
        · obtain ⟨s, hs, he⟩ := hc
          have := (hv s hs).1
          have e : s = (k : Int) := by omega
          rw [← e]
          exact hs
        · rw [if_neg hc] at h
          exact absurd h (by decide)
      · intro h
        rw [if_pos ⟨(k : Int), h, Int.toNat_ofNat k⟩]
    refine ⟨?_, a2, fun k => ?_⟩
    · obtain ⟨s, hs⟩ := List.exists_mem_of_ne_nil selection h3
      obtain ⟨hs0, hs1⟩ := hv s hs
      have hpos := countMarked_pos (markSelection selection) 0 fem.domains.flatten.length
        s.toNat (by omega)
        (by rw [Nat.zero_add]; exact (hmark s.toNat).2 (by rw [Int.toNat_of_nonneg hs0]; exact hs))
      show decide _ = false
      rw [a3]
      simp only [decide_eq_false_iff_not]
      omega
    · show (deactivateDomains (markSelection selection) fem.domains (0, 0)).1.flatten.get? k = _
      rw [a1, erodeList_get?]
      congr 1
      funext el
      show erode (markSelection selection) (0 + k) el = _
      rw [Nat.zero_add, erode]
      by_cases hk : (k : Int) ∈ selection
      · rw [if_pos ((hmark k).2 hk), if_pos hk]
      · rw [if_neg (fun h => hk ((hmark k).1 h)), if_neg hk]

end FEErosionAdaptor

namespace FEErosionAdaptor

/-- The adaptor `adaptorOne` on the mesh `femLine`: the element 1 is selected. -/
theorem Apply_returns_witness :
    (¬ (adaptorOne.m_maxIters ≥ 0 ∧ (0 : Int) ≥ adaptorOne.m_maxIters) ∧
      adaptorOne.m_criterion = some [1] ∧
      ∀ s ∈ ([1] : List Int), 0 ≤ s ∧ s < (femLine.domains.flatten.length : Int)) ∧
    (adaptorOne.Apply idDofs id femLine 0).1 = false :=
  have h1 : ¬ (adaptorOne.m_maxIters ≥ 0 ∧ (0 : Int) ≥ adaptorOne.m_maxIters) := by decide
  have hv : ∀ s ∈ ([1] : List Int), 0 ≤ s ∧ s < (femLine.domains.flatten.length : Int) := by
    intro s hs
    rw [List.mem_singleton.1 hs]
    decide
  ⟨⟨h1, rfl, hv⟩,
    ((Apply_returns adaptorOne idDofs id femLine 0).2 [1] h1 rfl (by decide) hv).1⟩

end FEErosionAdaptor

namespace FEErosionAdaptor

theorem tagLoop (l : List Int) (tag : Nat → Int) (m i : Nat) :
    forLoop m (fun n tag => setAt tag (l.getD n 0).toNat 1) tag i
      = if ∃ n, n < m ∧ (l.getD n 0).toNat = i then 1 else tag i := by
  induction m with
  | zero => simp [forLoop_zero]
  | succ m ih =>
    rw [forLoop_succ, setAt]
    by_cases h : i = (l.getD m 0).toNat
    · rw [if_pos h, if_pos ⟨m, Nat.lt_succ_self m, h.symm⟩]
    · rw [if_neg h, ih]
      by_cases h2 : ∃ n, n < m ∧ (l.getD n 0).toNat = i
      · obtain ⟨n, hn, he⟩ := h2
        rw [if_pos ⟨n, hn, he⟩, if_pos ⟨n, Nat.lt_succ_of_lt hn, he⟩]
      · rw [if_neg h2, if_neg]
        rintro ⟨n, hn, he⟩
        rcases Nat.lt_succ_iff_lt_or_eq.1 hn with h3 | h3
        · exact h2 ⟨n, h3, he⟩
        · subst h3
          exact h he.symm

/-- The tags after the element `el` (lines 97-102): the nodes of an active element are
tagged 1, the other tags are kept. -/
theorem tagElement_eq (tag : Nat → Int) (el : FEElement) (i : Nat) :
    tagElement tag el i
      = if el.active = true ∧ ∃ v ∈ el.m_node, v.toNat = i then 1 else tag i := by
  unfold tagElement
  by_cases ha : el.active = true
  · rw [if_pos ha, tagLoop]
    have : (∃ n, n < el.m_node.length ∧ (el.m_node.getD n 0).toNat = i)
        ↔ (el.active = true ∧ ∃ v ∈ el.m_node, v.toNat = i) := by
      constructor
      · rintro ⟨n, hn, he⟩
        refine ⟨ha, el.m_node.getD n 0, ?_, he⟩
        rw [List.getD_eq_getElem _ 0 hn]
        exact List.getElem_mem _
      · rintro ⟨_, v, hv, he⟩
        obtain ⟨n, hn, rfl⟩ := List.getElem_of_mem hv
        exact ⟨n, hn, by rw [List.getD_eq_getElem _ 0 hn]; exact he⟩
    simp only [this]
  · rw [if_neg ha, if_neg (fun h => ha h.1)]

theorem tagList_eq (dom : List FEElement) (tag : Nat → Int) (i : Nat) :
    dom.foldl tagElement tag i
      = if ∃ el ∈ dom, el.active = true ∧ ∃ v ∈ el.m_node, v.toNat = i then 1 else tag i := by
  induction dom generalizing tag with
  | nil => simp
  | cons el dom ih =>
    rw [List.foldl_cons, ih, tagElement_eq]
    by_cases h1 : ∃ e ∈ dom, e.active = true ∧ ∃ v ∈ e.m_node, v.toNat = i
    · obtain ⟨e, he, hp⟩ := h1
      rw [if_pos ⟨e, he, hp⟩, if_pos ⟨e, List.mem_cons_of_mem _ he, hp⟩]
    · rw [if_neg h1]
      by_cases h2 : el.active = true ∧ ∃ v ∈ el.m_node, v.toNat = i
      · rw [if_pos h2, if_pos ⟨el, List.mem_cons_self _ _, h2⟩]
      · rw [if_neg h2, if_neg]
        rintro ⟨e, he, hp⟩
        rcases List.mem_cons.1 he with h3 | h3
        · exact h2 (h3 ▸ hp)
        · exact h1 ⟨e, h3, hp⟩

theorem tagDomains_eq (domains : List (List FEElement)) (tag : Nat → Int) (i : Nat) :
    domains.foldl (fun tag dom => dom.foldl tagElement tag) tag i
      = if ∃ el ∈ domains.flatten, el.active = true ∧ ∃ v ∈ el.m_node, v.toNat = i
        then 1 else tag i := by
  induction domains generalizing tag with
  | nil => simp
  | cons dom domains ih =>
    rw [List.foldl_cons, ih, tagList_eq, List.flatten_cons]
    by_cases h1 : ∃ e ∈ domains.flatten, e.active = true ∧ ∃ v ∈ e.m_node, v.toNat = i
    · obtain ⟨e, he, hp⟩ := h1
      rw [if_pos ⟨e, he, hp⟩, if_pos ⟨e, List.mem_append_right _ he, hp⟩]
    · rw [if_neg h1]
      by_cases h2 : ∃ e ∈ dom, e.active = true ∧ ∃ v ∈ e.m_node, v.toNat = i
      · obtain ⟨e, he, hp⟩ := h2
        rw [if_pos ⟨e, he, hp⟩, if_pos ⟨e, List.mem_append_left _ he, hp⟩]
      · rw [if_neg h2, if_neg]
        rintro ⟨e, he, hp⟩
        rcases List.mem_append.1 he with h3 | h3
        · exact h2 ⟨e, h3, hp⟩
        · exact h1 ⟨e, h3, hp⟩

/-- The tag of the node `i` after the loop of lines 91-104 is 0 exactly when the node
belongs to no active element, for elements with node numbers `≥ 0`. -/
theorem tagNodes_eq_zero (domains : List (List FEElement)) (i : Nat)
    (hn : ∀ el ∈ domains.flatten, ∀ v ∈ el.m_node, (0 : Int) ≤ v) :
    tagNodes domains i = 0 ↔ ¬ inActiveElement domains i := by
  unfold tagNodes inActiveElement
  rw [tagDomains_eq]
  have : (∃ el ∈ domains.flatten, el.active = true ∧ ∃ v ∈ el.m_node, v.toNat = i)
      ↔ ∃ el ∈ domains.flatten, el.active = true ∧ (i : Int) ∈ el.m_node := by
    constructor
    · rintro ⟨el, hel, ha, v, hv, he⟩
      refine ⟨el, hel, ha, ?_⟩
      have := hn el hel v hv
      have e : v = (i : Int) := by omega
      rw [← e]
      exact hv
    · rintro ⟨el, hel, ha, hv⟩
      exact ⟨el, hel, ha, (i : Int), hv, Int.toNat_ofNat i⟩
  simp only [this]
  by_cases h : ∃ el ∈ domains.flatten, el.active = true ∧ (i : Int) ∈ el.m_node
  · rw [if_pos h]
    exact ⟨fun h0 => absurd h0 (by decide), fun h0 => absurd h h0⟩
  · rw [if_neg h]
    exact ⟨fun _ => h, fun _ => rfl⟩

theorem erodeList_nodes (elemList : Nat → Int) (l : List FEElement) (k : Nat)
    (el : FEElement) (h : el ∈ erodeList elemList l k) :
    ∃ el0 ∈ l, el.m_node = el0.m_node := by
  induction l generalizing k with
  | nil => simp [erodeList] at h
  | cons a l ih =>
    rw [erodeList] at h
    rcases List.mem_cons.1 h with h1 | h1
    · refine ⟨a, List.mem_cons_self _ _, ?_⟩
      rw [h1, erode]
      split_ifs <;> rfl
    · obtain ⟨el0, h2, h3⟩ := ih (k + 1) h1
      exact ⟨el0, List.mem_cons_of_mem _ h2, h3⟩

theorem excludeOrphans_length (ops : FENodeDofs) (tag : Nat → Int) (nodes : List FENode)
    (k : Nat) : (excludeOrphans ops tag nodes k).length = nodes.length := by
  induction nodes generalizing k with
  | nil => rfl
  | cons nd nodes ih => simp [excludeOrphans, ih]

theorem excludeOrphans_get? (ops : FENodeDofs) (tag : Nat → Int) (nodes : List FENode)
    (k i : Nat) :
    (excludeOrphans ops tag nodes k).get? i
      = (nodes.get? i).map (fun nd => if tag (k + i) = 0 then excludeNode ops nd else nd) := by
  induction nodes generalizing k i with
  | nil => simp [excludeOrphans]
  | cons nd nodes ih =>
    cases i with
    | zero => simp [excludeOrphans]
    | succ i =>
      have e : k + 1 + i = k + (i + 1) := by omega
      simp only [excludeOrphans, List.get?_cons_succ]
      rw [ih, e]

/-- The loop of lines 113-114 under the laws of the dof methods: the flags and the number
of dofs are kept and the dofs below `m` are inactive. -/
theorem inactiveLoop (ops : FENodeDofs)
    (hoff : ∀ nd j, j < ops.dofs nd → ops.is_active (ops.set_inactive nd j) j = false)
    (hkeep : ∀ nd j k, ops.is_active nd k = false →
      ops.is_active (ops.set_inactive nd j) k = false)
    (hdofs : ∀ nd j, ops.dofs (ops.set_inactive nd j) = ops.dofs nd)
    (hflag : ∀ nd j, (ops.set_inactive nd j).m_nstate = nd.m_nstate)
    (nd : FENode) (m : Nat) :
    (forLoop m (fun j node => ops.set_inactive node j) nd).m_nstate = nd.m_nstate ∧
    ops.dofs (forLoop m (fun j node => ops.set_inactive node j) nd) = ops.dofs nd ∧
    ∀ j, j < m → j < ops.dofs nd →
      ops.is_active (forLoop m (fun j node => ops.set_inactive node j) nd) j = false := by
  induction m with
  | zero =>
    rw [forLoop_zero]
    exact ⟨rfl, rfl, fun j hj => absurd hj (Nat.not_lt_zero j)⟩
  | succ m ih =>
    obtain ⟨i1, i2, i3⟩ := ih
    rw [forLoop_succ]
    refine ⟨by rw [hflag, i1], by rw [hdofs, i2], fun j hj hd => ?_⟩
    rcases Nat.lt_succ_iff_lt_or_eq.1 hj with h | h
    · exact hkeep _ _ _ (i3 j h hd)
    · subst h
      exact hoff _ _ (by rw [i2]; exact hd)

/-- An orphaned node after lines 111-114: the EXCLUDE flag is set and every dof is
inactive. -/
theorem excludeNode_spec (ops : FENodeDofs)
    (hoff : ∀ nd j, j < ops.dofs nd → ops.is_active (ops.set_inactive nd j) j = false)
    (hkeep : ∀ nd j k, ops.is_active nd k = false →
      ops.is_active (ops.set_inactive nd j) k = false)
    (hdofs : ∀ nd j, ops.dofs (ops.set_inactive nd j) = ops.dofs nd)
    (hflag : ∀ nd j, (ops.set_inactive nd j).m_nstate = nd.m_nstate)
    (nd : FENode) :
    (excludeNode ops nd).HasFlags FENode.EXCLUDE = true ∧
    ∀ j, j < ops.dofs (excludeNode ops nd) → ops.is_active (excludeNode ops nd) j = false := by
  obtain ⟨i1, i2, i3⟩ := inactiveLoop ops hoff hkeep hdofs hflag
    (nd.SetFlags FENode.EXCLUDE) (ops.dofs (nd.SetFlags FENode.EXCLUDE))
  have e : excludeNode ops nd
      = forLoop (ops.dofs (nd.SetFlags FENode.EXCLUDE))
          (fun j node => ops.set_inactive node j) (nd.SetFlags FENode.EXCLUDE) := rfl
  rw [e]
  refine ⟨?_, fun j hj => i3 j (by rw [i2] at hj; exact hj) (by rw [i2] at hj; exact hj)⟩
  unfold FENode.HasFlags
  rw [i1]
  show decide ((1 : Nat) &&& 1 ≠ 0) = true
  decide

theorem slaveExcluded_eq (nodes : List FENode) (l : List Int) :
    slaveExcluded nodes l = l.any (nodeExcluded nodes) := by
  induction l with
  | nil => rfl
  | cons s l ih =>
    rw [slaveExcluded, List.any_cons, ih]
    cases nodeExcluded nodes s <;> simp

/-- The removal loops of lines 120-128 and 131-146 with enough fuel: the constraints before
`j` are kept and, from `j` on, those that are not to be deleted are kept, in their order. -/
theorem removeLoop_spec (del : FELinearConstraint → Bool) (fuel j : Nat)
    (l : List FELinearConstraint) (h : l.length - j ≤ fuel) :
    removeLoop del fuel j l = l.take j ++ (l.drop j).filter (fun lc => !del lc) := by
  induction fuel generalizing j l with
  | zero =>
    have hj : l.length ≤ j := by omega
    rw [removeLoop, List.take_of_length_le hj, List.drop_of_length_le hj]
    simp
  | succ fuel ih =>
    rw [removeLoop]
    by_cases hj : j < l.length
    · rw [List.get?_eq_get hj]
      have hd : l.drop j = l.get ⟨j, hj⟩ :: l.drop (j + 1) := by
        simp
      by_cases hdel : del (l.get ⟨j, hj⟩) = true
      · simp only [hdel, if_true]
        rw [ih j (l.eraseIdx j) (by rw [List.length_eraseIdx]; simp only [hj, if_true]; omega)]
        rw [hd, List.filter_cons]
        simp only [hdel, Bool.not_true, Bool.false_eq_true, if_false]
        rw [List.eraseIdx_eq_take_drop_succ]
        have hl : (l.take j).length = j := by
          rw [List.length_take]; omega
        congr 1
        · rw [List.take_append_eq_append_take, hl, Nat.sub_self, List.take_zero,
            List.append_nil, List.take_take, Nat.min_self]
        · congr 1
          rw [List.drop_append_eq_append_drop, hl, Nat.sub_self, List.drop_zero,
            List.drop_of_length_le (by rw [hl]), List.nil_append]
      · simp only [hdel, Bool.false_eq_true, if_false]
        rw [ih (j + 1) l (by omega), hd, List.filter_cons]
        simp only [hdel, Bool.not_false, if_true]
        rw [List.take_succ, List.getElem?_eq_getElem hj, List.append_assoc]
        rfl
    · have hj2 : l.length ≤ j := by omega
      rw [List.get?_eq_none.2 hj2, List.take_of_length_le hj2, List.drop_of_length_le hj2]
      simp

end FEErosionAdaptor

namespace FEErosionAdaptor

/-- C29: orphan handling in `Apply`. After a call that passes the early returns, on a mesh
whose element node numbers are `≥ 0` and with dof methods that obey their laws
(`set_inactive(j)` makes dof `j` inactive, keeps inactive dofs inactive, keeps the number of
dofs and the flags), the node list keeps its length; every node that belongs to at least one
active element is unchanged; every node that belongs to no active element has the EXCLUDE
flag and all its dofs inactive; and the constraint list handed to `Activate` is the original
list, in its order, restricted to the constraints whose master node and slave nodes are all
not excluded. -/
theorem Apply_orphans (ad : FEErosionAdaptor) (ops : FENodeDofs)
    (activate : List FELinearConstraint → List FELinearConstraint) (fem : FEModel)
    (iteration : Int) (selection : List Int)
    (h1 : ¬ (ad.m_maxIters ≥ 0 ∧ iteration ≥ ad.m_maxIters))
    (h2 : ad.m_criterion = some selection) (h3 : selection ≠ [])
    (hn : ∀ el ∈ fem.domains.flatten, ∀ v ∈ el.m_node, (0 : Int) ≤ v)
    (hoff : ∀ nd j, j < ops.dofs nd → ops.is_active (ops.set_inactive nd j) j = false)
    (hkeep : ∀ nd j k, ops.is_active nd k = false →
      ops.is_active (ops.set_inactive nd j) k = false)
    (hdofs : ∀ nd j, ops.dofs (ops.set_inactive nd j) = ops.dofs nd)
    (hflag : ∀ nd j, (ops.set_inactive nd j).m_nstate = nd.m_nstate) :
    (ad.Apply ops activate fem iteration).2.nodes.length = fem.nodes.length ∧
    (∀ (i : Nat) (nd : FENode), fem.nodes.get? i = some nd →
      (inActiveElement (ad.Apply ops activate fem iteration).2.domains i →
        (ad.Apply ops activate fem iteration).2.nodes.get? i = some nd) ∧
      (¬ inActiveElement (ad.Apply ops activate fem iteration).2.domains i →
        ∃ nd2, (ad.Apply ops activate fem iteration).2.nodes.get? i = some nd2 ∧
          nd2.HasFlags FENode.EXCLUDE = true ∧
          ∀ j, j < ops.dofs nd2 → ops.is_active nd2 j = false)) ∧
    (ad.Apply ops activate fem iteration).2.lcm
      = activate (fem.lcm.filter (fun lc =>
          !nodeExcluded (ad.Apply ops activate fem iteration).2.nodes lc.master &&
          !lc.slave.any (nodeExcluded (ad.Apply ops activate fem iteration).2.nodes))) := by
  rw [Apply_run ad ops activate fem iteration selection h1 h2 h3]
  dsimp only
  obtain ⟨a1, -, -⟩ := deactivateDomains_eq (markSelection selection) fem.domains (0, 0)
  generalize (deactivateDomains (markSelection selection) fem.domains (0, 0)).1 = D at a1 ⊢
  have hD : ∀ el ∈ D.flatten, ∀ v ∈ el.m_node, (0 : Int) ≤ v := by
    intro el hel v hv
    rw [a1] at hel
    obtain ⟨el0, h4, h5⟩ := erodeList_nodes _ _ _ el hel
    exact hn el0 h4 v (h5 ▸ hv)
  refine ⟨excludeOrphans_length _ _ _ _, fun i nd hi => ⟨fun hin => ?_, fun hout => ?_⟩, ?_⟩
  · rw [excludeOrphans_get?, hi, Nat.zero_add, Option.map_some']
    rw [if_neg (fun h0 => (tagNodes_eq_zero D i hD).1 h0 hin)]
  · refine ⟨excludeNode ops nd, ?_, excludeNode_spec ops hoff hkeep hdofs hflag nd⟩
    rw [excludeOrphans_get?, hi, Nat.zero_add, Option.map_some']
    rw [if_pos ((tagNodes_eq_zero D i hD).2 hout)]
  · generalize excludeOrphans ops (tagNodes D) fem.nodes 0 = N
    rw [removeLoop_spec _ _ 0 _ (by omega), removeLoop_spec _ _ 0 _ (by omega)]
    simp only [List.take_zero, List.drop_zero, List.nil_append, List.filter_filter]
    congr 2
    funext lc
    rw [slaveExcluded_eq, Bool.and_comm]

end FEErosionAdaptor

namespace FEErosionAdaptor

theorem idDofs_off (nd : FENode) (j : Nat) :
    idDofs.is_active (idDofs.set_inactive nd j) j = false := by
  show decide ((0 : Int) ≤ (nd.m_ID.set j _).getD j (-1)) = false
  rw [decide_eq_false_iff_not]
  by_cases hj : j < nd.m_ID.length
  · rw [List.getD_eq_getElem _ _ (by rw [List.length_set]; exact hj), List.getElem_set_self]
    split_ifs with h <;> omega
  · rw [List.getD_eq_default _ _ (by rw [List.length_set]; omega)]
    decide

theorem idDofs_keep (nd : FENode) (j k : Nat) (h : idDofs.is_active nd k = false) :
    idDofs.is_active (idDofs.set_inactive nd j) k = false := by
  by_cases hjk : j = k
  · subst hjk
    exact idDofs_off nd j
  · have h0 : ¬ (0 : Int) ≤ nd.m_ID.getD k (-1) := by
      have : decide ((0 : Int) ≤ nd.m_ID.getD k (-1)) = false := h
      exact of_decide_eq_false this
    show decide ((0 : Int) ≤ (nd.m_ID.set j _).getD k (-1)) = false
    rw [decide_eq_false_iff_not]
    by_cases hk : k < nd.m_ID.length
    · rw [List.getD_eq_getElem _ _ (by rw [List.length_set]; exact hk),
        List.getElem_set_ne hjk]
      rw [List.getD_eq_getElem _ _ hk] at h0
      exact h0
    · rw [List.getD_eq_default _ _ (by rw [List.length_set]; omega)]
      decide

/-- The adaptor `adaptorOne` on the mesh `femLine` with the dofs of `idDofs`: node 2 is
orphaned and the constraint with the master node 2 is removed. -/
theorem Apply_orphans_witness :
    (¬ (adaptorOne.m_maxIters ≥ 0 ∧ (0 : Int) ≥ adaptorOne.m_maxIters) ∧
      adaptorOne.m_criterion = some [1] ∧
      (∀ el ∈ femLine.domains.flatten, ∀ v ∈ el.m_node, (0 : Int) ≤ v)) ∧
    (adaptorOne.Apply idDofs id femLine 0).2.nodes.length = femLine.nodes.length :=
  have h1 : ¬ (adaptorOne.m_maxIters ≥ 0 ∧ (0 : Int) ≥ adaptorOne.m_maxIters) := by decide
  have hn : ∀ el ∈ femLine.domains.flatten, ∀ v ∈ el.m_node, (0 : Int) ≤ v := by
    simp [femLine]
  ⟨⟨h1, rfl, hn⟩,
    (Apply_orphans adaptorOne idDofs id femLine 0 [1] h1 rfl (by decide) hn
      (fun nd j _ => idDofs_off nd j) idDofs_keep
      (fun nd j => by show (nd.m_ID.set j _).length = nd.m_ID.length; rw [List.length_set])
      (fun _ _ => rfl)).1⟩

end FEErosionAdaptor

namespace DumpStream

variable {R : Type}

/-- An array of 6 entries overwritten entry by entry is the array of the new entries. -/
theorem update6 {α : Type} (p q : Fin 6 → α) :
    Function.update (Function.update (Function.update (Function.update (Function.update
      (Function.update p 0 (q 0)) 1 (q 1)) 2 (q 2)) 3 (q 3)) 4 (q 4)) 5 (q 5) = q := by
  funext i
  fin_cases i <;> simp [Function.update]

end DumpStream

namespace FERigidBody

variable {R Other : Type}

theorem saveShallow_eq (rb : FERigidBody R Other) (sh sv : Bool) :
    rb.saveShallow ⟨sh, sv, []⟩ = ⟨sh, sv, (rb.saveShallow ⟨sh, sv, []⟩).data⟩ := by
  simp [saveShallow, DumpStream.put, DumpStream.idx6]

theorem saveShallow_length (rb : FERigidBody R Other) (sh sv : Bool) :
    (rb.saveShallow ⟨sh, sv, []⟩).data.length = 41 := by
  simp [saveShallow, DumpStream.put, DumpStream.idx6]

theorem saveDeep_eq (rb : FERigidBody R Other) (sh sv : Bool) :
    rb.saveDeep ⟨sh, sv, []⟩ = ⟨sh, sv, (rb.saveDeep ⟨sh, sv, []⟩).data⟩ := by
  simp [saveDeep, DumpStream.put, DumpStream.idx6, DumpStream.writeInts,
    DumpStream.writeDoubles]

theorem saveDeep_length (rb : FERigidBody R Other) (sh sv : Bool) :
    (rb.saveDeep ⟨sh, sv, []⟩).data.length = 57 := by
  simp [saveDeep, DumpStream.put, DumpStream.idx6, DumpStream.writeInts,
    DumpStream.writeDoubles]

end FERigidBody

namespace FERigidBody

variable {R Other : Type}

theorem loadShallow_save (rb target : FERigidBody R Other) (rest : List (Item R))
    (sh sv : Bool) :
    target.loadShallow ⟨true, false, (rb.saveShallow ⟨sh, sv, []⟩).data ++ rest⟩
      = some (⟨true, false, rest⟩,
          { rb with
            m_nID := target.m_nID, m_mat := target.m_mat, m_r0 := target.m_r0,
            m_bpofr := target.m_bpofr, m_BC := target.m_BC, m_LM := target.m_LM,
            other := target.other }) := by
  simp [loadShallow, loadShallowStep, saveShallow, recv, DumpStream.getDouble,
      DumpStream.getVec3d, DumpStream.getQuatd, DumpStream.getMat3d, DumpStream.put,
      DumpStream.idx6, DumpStream.update6]

end FERigidBody

namespace FERigidBody

variable {R Other : Type}

theorem loadDeep_save (rb target : FERigidBody R Other) (rest : List (Item R))
    (sh sv : Bool) :
    target.loadDeep ⟨false, false, (rb.saveDeep ⟨sh, sv, []⟩).data ++ rest⟩
      = some (⟨false, false, rest⟩, { rb with other := target.other }) := by
  simp [loadDeep, saveDeep, recv, recvArray, DumpStream.getInt,
      DumpStream.getBool, DumpStream.getDouble, DumpStream.getVec3d, DumpStream.getQuatd,
      DumpStream.getMat3d, DumpStream.put, DumpStream.idx6, DumpStream.writeInts,
      DumpStream.writeDoubles, DumpStream.readInts, DumpStream.readDoubles,
      DumpStream.update6]

/-- C30: `Serialize` round-trips in the shallow and in the deep mode. Saving a rigid body
`rb` to an empty stream writes a sequence of values (41 in the shallow mode, 57 in the deep
mode) and leaves `rb` as it is; loading a stream that starts with this sequence into any
rigid body `target` succeeds, consumes exactly the values written, and gives `target` every
serialized member of `rb`: all members named by `Serialize` in the deep mode, and in the
shallow mode all of them but `m_nID`, `m_mat`, `m_r0`, `m_bpofr`, `m_BC` and `m_LM`. The
members that are not serialized keep the value they have in `target`. -/
theorem Serialize_round_trip (rb target : FERigidBody R Other) (rest : List (Item R))
    (shallow : Bool) :
    ∃ written : List (Item R),
      rb.Serialize ⟨shallow, true, []⟩ = some (⟨shallow, true, written⟩, rb) ∧
      written.length = (if shallow = true then 41 else 57) ∧
      target.Serialize ⟨shallow, false, written ++ rest⟩
        = some (⟨shallow, false, rest⟩,
            if shallow = true then
              { rb with
                m_nID := target.m_nID, m_mat := target.m_mat, m_r0 := target.m_r0,
                m_bpofr := target.m_bpofr, m_BC := target.m_BC, m_LM := target.m_LM,
                other := target.other }
            else { rb with other := target.other }) := by
  cases shallow
  · refine ⟨(rb.saveDeep ⟨false, true, []⟩).data, ?_, ?_, ?_⟩
    · show some (rb.saveDeep ⟨false, true, []⟩, rb) = _
      rw [← saveDeep_eq]
    · rw [saveDeep_length]
      rfl
    · show target.loadDeep _ = _
      rw [loadDeep_save]
      rfl
  · refine ⟨(rb.saveShallow ⟨true, true, []⟩).data, ?_, ?_, ?_⟩
    · show some (rb.saveShallow ⟨true, true, []⟩, rb) = _
      rw [← saveShallow_eq]
    · rw [saveShallow_length]
      rfl
    · show target.loadShallow _ = _
      rw [loadShallow_save]
      rfl

end FERigidBody

end FEBio
